import Mathlib

/-!
Shallow embedding of the wudaofang (五道方) rules engine from `src/main.rs`.

Modelling conventions:
* Rust `usize`/`u32` are modelled as `Nat`; `usize::wrapping_sub(1)` and
  `u32::saturating_add` are modelled explicitly with `USIZE_MAX` / `U32_MAX`.
* The 5×5 array `grid: [[Cell; 5]; 5]` is modelled as `List (List Cell)`;
  a Rust index expression `grid[r][c]` (which panics out of bounds) is
  modelled as the `Option`-valued `cell?` / `setCell?`.  Every engine
  function that performs such an access is `Option`-valued, with `none`
  standing for a Rust panic.
* `HashSet` fields are modelled as duplicate-free lists in insertion order
  (set contents are what matters; all set consumers are order-independent).
* `HashMap<Player, u32>` is modelled as an association list in insertion
  order.  `get_mut(..).unwrap()` is modelled by the `Option`-valued `hmSet?`
  (`none` = panic).  All map reads in the engine except one are
  order-independent (`get`, `values().sum()`); the one order-dependent read,
  `capture_remaining.iter().last()` in `enter_movement_phase`, has arbitrary
  per-map-instance order in Rust (`std` `HashMap` with `RandomState`), so it
  is modelled nondeterministically: the `*ND` functions take an oracle
  `pick : List (Player × Nat) → Option (Player × Nat)` resolving that read
  (`ValidPick` characterises the behaviours std allows, i.e. `last()` of some
  iteration order), and the non-`ND` functions are the `hmIterLast` instance
  of the oracle (insertion-order `last`), under which every property proved
  below that does not compare two separate runs is oracle-independent.
* `HashMap<Player, HashSet<(usize,usize)>>` (`reward_pieces`) is modelled by
  the two fields `reward_black` / `reward_white`; the code only ever reads it
  via `get(..).cloned().unwrap_or_default()` and rewrites both entries at once.
* `Result<T, &'static str>` is modelled as `RResult` with one error
  constructor per distinct message string in the source.
-/

inductive Player where
  | black
  | white
deriving DecidableEq, Repr

def Player.opponent : Player → Player
  | .black => .white
  | .white => .black

inductive Cell where
  | empty
  | occupied (p : Player)
deriving DecidableEq, Repr

inductive GamePhase where
  | placement
  | capture
  | movement
deriving DecidableEq, Repr

inductive RewardPattern where
  | square (top_left : Nat × Nat)
  | tri (id : Nat)
  | tetra (id : Nat)
  | row (index : Nat)
  | col (index : Nat)
  | dragon (id : Nat)
deriving DecidableEq, Repr

inductive GameAction where
  | place (player : Player) (pos : Nat × Nat)
  | capture (player : Player) (pos : Nat × Nat)
  | move (player : Player) (src : Nat × Nat) (dst : Nat × Nat)
  | reward (player : Player) (pattern : RewardPattern)
deriving DecidableEq, Repr

/-- One constructor per distinct `&'static str` error message in the source. -/
inductive GameErr where
  | wrongPhasePlacement
  | invalidPosRange
  | occupiedCell
  | wrongPhaseCapture
  | noPendingCapture
  | invalidPos
  | protectedPiece
  | notOpponentPiece
  | emptyCell
  | captureImmobilized
  | wrongPhaseMovement
  | notOwnPiece
  | noSourcePiece
  | destOccupied
  | notAdjacent
  | moveImmobilized
deriving DecidableEq, Repr

/-- Mirrors Rust `Result<α, &'static str>`. -/
inductive RResult (α : Type) where
  | ok (val : α)
  | err (e : GameErr)
deriving DecidableEq, Repr

structure Board where
  grid : List (List Cell)
  current_player : Player
  phase : GamePhase
  extra_moves : Nat
  capture_remaining : List (Player × Nat)
  capture_turn : Player
  triggered_squares : List (Nat × Nat)
  triggered_tris : List Nat
  triggered_tetras : List Nat
  triggered_rows : List Nat
  triggered_cols : List Nat
  triggered_dragons : List Nat
  reward_black : List (Nat × Nat)
  reward_white : List (Nat × Nat)
  game_record : List GameAction
deriving DecidableEq, Repr

def USIZE_MAX : Nat := 2 ^ 64 - 1

def U32_MAX : Nat := 2 ^ 32 - 1

/-- Rust `usize::wrapping_sub(1)`. -/
def wrappingSub1 (n : Nat) : Nat := if n = 0 then USIZE_MAX else n - 1

/-- Read access `grid[r][c]`; `none` models an out-of-bounds panic. -/
def cell? (g : List (List Cell)) (r c : Nat) : Option Cell :=
  match g[r]? with
  | none => none
  | some row => row[c]?

/-- Write access `grid[r][c] = v`; `none` models an out-of-bounds panic. -/
def setCell? (g : List (List Cell)) (r c : Nat) (v : Cell) :
    Option (List (List Cell)) :=
  match g[r]? with
  | none => none
  | some row =>
    match row[c]? with
    | none => none
    | some _ => some (g.set r (row.set c v))

/-- `Board::is_valid_pos`. -/
def is_valid_pos (r c : Nat) : Bool := decide (r < 5) && decide (c < 5)

/-- `Board::is_full`: every cell of the grid is non-empty. -/
def is_full (g : List (List Cell)) : Bool :=
  g.all (fun row => row.all (fun cl => decide (cl ≠ Cell.empty)))

/-- Pieces of one grid row, mirroring the inner loop of `Board::player_pieces`. -/
def rowPieces (p : Player) (r : Nat) (row : List Cell) : List (Nat × Nat) :=
  row.enum.filterMap (fun cc => if cc.2 = Cell.occupied p then some (r, cc.1) else none)

/-- `Board::player_pieces`: row-major coordinates of the player's stones. -/
def player_pieces (g : List (List Cell)) (p : Player) : List (Nat × Nat) :=
  (g.enum.map (fun rrow => rowPieces p rrow.1 rrow.2)).flatten

/-- `HashSet::insert` (value dedup; insertion order retained). -/
def hsInsert {α : Type} [DecidableEq α] (s : List α) (x : α) : List α :=
  if x ∈ s then s else s ++ [x]

/-- `HashMap::get` for `capture_remaining`. -/
def hmGet (m : List (Player × Nat)) (p : Player) : Option Nat :=
  (m.find? (fun kv => decide (kv.1 = p))).map (fun kv => kv.2)

/-- `HashMap::insert` (replace value if present, else append). -/
def hmInsert (m : List (Player × Nat)) (p : Player) (v : Nat) : List (Player × Nat) :=
  if (m.find? (fun kv => decide (kv.1 = p))).isSome then
    m.map (fun kv => if kv.1 = p then (p, v) else kv)
  else m ++ [(p, v)]

/-- `HashMap::get_mut(..).unwrap() = v`; `none` models the unwrap panic. -/
def hmSet? (m : List (Player × Nat)) (p : Player) (v : Nat) :
    Option (List (Player × Nat)) :=
  if (m.find? (fun kv => decide (kv.1 = p))).isSome then
    some (m.map (fun kv => if kv.1 = p then (p, v) else kv))
  else none

/-- `capture_remaining.values().sum()`. -/
def hmSum (m : List (Player × Nat)) : Nat := (m.map (fun kv => kv.2)).sum

/-- `reward_pieces.get(&p).cloned().unwrap_or_default()`. -/
def rewardOf (b : Board) (p : Player) : List (Nat × Nat) :=
  match p with
  | .black => b.reward_black
  | .white => b.reward_white

/-- Short-circuit `positions.iter().all(|&(r,c)| matches!(grid[r][c], Occupied(p) if p == player))`;
`none` models a panic on an out-of-bounds access. -/
def allOccupied? (g : List (List Cell)) (p : Player) :
    List (Nat × Nat) → Option Bool
  | [] => some true
  | (r, c) :: rest =>
    match cell? g r c with
    | none => none
    | some (Cell.occupied q) =>
      if q = p then allOccupied? g p rest else some false
    | some Cell.empty => some false

/-- `Board::is_square`: the four corners of the 2×2 square anchored at `(r, c)`. -/
def squareCorners (r c : Nat) : List (Nat × Nat) :=
  [(r, c), (r, c + 1), (r + 1, c), (r + 1, c + 1)]

def is_square? (g : List (List Cell)) (r c : Nat) (p : Player) : Option Bool :=
  allOccupied? g p (squareCorners r c)

/-- The hardcoded coordinate triples of `Board::is_tri` (`none` for `id ≥ 4`). -/
def triPositions (id : Nat) : Option (List (Nat × Nat)) :=
  match id with
  | 0 => some [(0, 2), (1, 1), (2, 0)]
  | 1 => some [(0, 2), (1, 3), (2, 4)]
  | 2 => some [(2, 0), (3, 1), (4, 2)]
  | 3 => some [(2, 4), (3, 3), (4, 2)]
  | _ => none

def is_tri? (g : List (List Cell)) (id : Nat) (p : Player) : Option Bool :=
  match triPositions id with
  | none => some false
  | some ps => allOccupied? g p ps

/-- The hardcoded coordinate quadruples of `Board::is_tetra`. -/
def tetraPositions (id : Nat) : Option (List (Nat × Nat)) :=
  match id with
  | 0 => some [(0, 1), (1, 2), (2, 3), (3, 4)]
  | 1 => some [(0, 3), (1, 2), (2, 1), (3, 0)]
  | 2 => some [(1, 0), (2, 1), (3, 2), (4, 3)]
  | 3 => some [(1, 4), (2, 3), (3, 2), (4, 1)]
  | _ => none

def is_tetra? (g : List (List Cell)) (id : Nat) (p : Player) : Option Bool :=
  match tetraPositions id with
  | none => some false
  | some ps => allOccupied? g p ps

def rowPositions (r : Nat) : List (Nat × Nat) :=
  (List.range 5).map (fun c => (r, c))

def is_row? (g : List (List Cell)) (r : Nat) (p : Player) : Option Bool :=
  allOccupied? g p (rowPositions r)

def colPositions (c : Nat) : List (Nat × Nat) :=
  (List.range 5).map (fun r => (r, c))

def is_col? (g : List (List Cell)) (c : Nat) (p : Player) : Option Bool :=
  allOccupied? g p (colPositions c)

/-- The hardcoded diagonals of `Board::is_dragon`. -/
def dragonPositions (id : Nat) : Option (List (Nat × Nat)) :=
  match id with
  | 0 => some [(0, 0), (1, 1), (2, 2), (3, 3), (4, 4)]
  | 1 => some [(0, 4), (1, 3), (2, 2), (3, 1), (4, 0)]
  | _ => none

def is_dragon? (g : List (List Cell)) (id : Nat) (p : Player) : Option Bool :=
  match dragonPositions id with
  | none => some false
  | some ps => allOccupied? g p ps

/-- Candidate anchors checked by `Board::check_squares` (`saturating_sub` is `Nat` subtraction). -/
def squareCandidates (row col : Nat) : List (Nat × Nat) :=
  [(row, col), (row, col - 1), (row - 1, col), (row - 1, col - 1)]

/-- Loop body of `Board::check_squares` over the four candidate anchors. -/
def check_squaresAux : List (Nat × Nat) → Board → Nat → Option (Board × Nat)
  | [], b, extra => some (b, extra)
  | (r, c) :: rest, b, extra =>
    if r < 4 ∧ c < 4 then
      match is_square? b.grid r c b.current_player with
      | none => none
      | some v =>
        if v then
          if (r, c) ∈ b.triggered_squares then check_squaresAux rest b extra
          else
            check_squaresAux rest
              { b with
                triggered_squares := b.triggered_squares ++ [(r, c)],
                game_record := b.game_record ++
                  [GameAction.reward b.current_player (RewardPattern.square (r, c))] }
              (extra + 1)
        else check_squaresAux rest b extra
    else check_squaresAux rest b extra

/-- `Board::check_squares`. -/
def check_squares (b : Board) (row col : Nat) : Option (Board × Nat) :=
  check_squaresAux (squareCandidates row col) b 0

/-- Loop body of `Board::check_tris`. -/
def check_trisAux : List Nat → Board → Nat → Option (Board × Nat)
  | [], b, extra => some (b, extra)
  | id :: rest, b, extra =>
    if id ∈ b.triggered_tris then check_trisAux rest b extra
    else
      match is_tri? b.grid id b.current_player with
      | none => none
      | some v =>
        if v then
          check_trisAux rest
            { b with
              triggered_tris := b.triggered_tris ++ [id],
              game_record := b.game_record ++
                [GameAction.reward b.current_player (RewardPattern.tri id)] }
            (extra + 1)
        else check_trisAux rest b extra

/-- `Board::check_tris`. -/
def check_tris (b : Board) : Option (Board × Nat) :=
  check_trisAux (List.range 4) b 0

/-- Loop body of `Board::check_tetras`. -/
def check_tetrasAux : List Nat → Board → Nat → Option (Board × Nat)
  | [], b, extra => some (b, extra)
  | id :: rest, b, extra =>
    if id ∈ b.triggered_tetras then check_tetrasAux rest b extra
    else
      match is_tetra? b.grid id b.current_player with
      | none => none
      | some v =>
        if v then
          check_tetrasAux rest
            { b with
              triggered_tetras := b.triggered_tetras ++ [id],
              game_record := b.game_record ++
                [GameAction.reward b.current_player (RewardPattern.tetra id)] }
            (extra + 1)
        else check_tetrasAux rest b extra

/-- `Board::check_tetras`. -/
def check_tetras (b : Board) : Option (Board × Nat) :=
  check_tetrasAux (List.range 4) b 0

/-- Loop body of `Board::check_rows` (each new row is worth 2). -/
def check_rowsAux : List Nat → Board → Nat → Option (Board × Nat)
  | [], b, extra => some (b, extra)
  | r :: rest, b, extra =>
    if r ∈ b.triggered_rows then check_rowsAux rest b extra
    else
      match is_row? b.grid r b.current_player with
      | none => none
      | some v =>
        if v then
          check_rowsAux rest
            { b with
              triggered_rows := b.triggered_rows ++ [r],
              game_record := b.game_record ++
                [GameAction.reward b.current_player (RewardPattern.row r)] }
            (extra + 2)
        else check_rowsAux rest b extra

/-- `Board::check_rows`. -/
def check_rows (b : Board) : Option (Board × Nat) :=
  check_rowsAux (List.range 5) b 0

/-- Loop body of `Board::check_cols` (each new column is worth 2). -/
def check_colsAux : List Nat → Board → Nat → Option (Board × Nat)
  | [], b, extra => some (b, extra)
  | c :: rest, b, extra =>
    if c ∈ b.triggered_cols then check_colsAux rest b extra
    else
      match is_col? b.grid c b.current_player with
      | none => none
      | some v =>
        if v then
          check_colsAux rest
            { b with
              triggered_cols := b.triggered_cols ++ [c],
              game_record := b.game_record ++
                [GameAction.reward b.current_player (RewardPattern.col c)] }
            (extra + 2)
        else check_colsAux rest b extra

/-- `Board::check_cols`. -/
def check_cols (b : Board) : Option (Board × Nat) :=
  check_colsAux (List.range 5) b 0

/-- Loop body of `Board::check_dragons` (each new dragon is worth 2). -/
def check_dragonsAux : List Nat → Board → Nat → Option (Board × Nat)
  | [], b, extra => some (b, extra)
  | id :: rest, b, extra =>
    if id ∈ b.triggered_dragons then check_dragonsAux rest b extra
    else
      match is_dragon? b.grid id b.current_player with
      | none => none
      | some v =>
        if v then
          check_dragonsAux rest
            { b with
              triggered_dragons := b.triggered_dragons ++ [id],
              game_record := b.game_record ++
                [GameAction.reward b.current_player (RewardPattern.dragon id)] }
            (extra + 2)
        else check_dragonsAux rest b extra

/-- `Board::check_dragons`. -/
def check_dragons (b : Board) : Option (Board × Nat) :=
  check_dragonsAux (List.range 2) b 0

/-- `Board::check_rewards` (placement-phase reward check; the printing is dropped). -/
def check_rewards (b : Board) (row col : Nat) : Option (Board × Nat) :=
  match check_squares b row col with
  | none => none
  | some (b1, e1) =>
    match check_tris b1 with
    | none => none
    | some (b2, e2) =>
      match check_tetras b2 with
      | none => none
      | some (b3, e3) =>
        match check_rows b3 with
        | none => none
        | some (b4, e4) =>
          match check_cols b4 with
          | none => none
          | some (b5, e5) =>
            match check_dragons b5 with
            | none => none
            | some (b6, e6) => some (b6, e1 + e2 + e3 + e4 + e5 + e6)

/-- Square-scan loop of `Board::scan_all_rewards` for one player. -/
def scanSquaresAux (p : Player) : List (Nat × Nat) → Board → Option Board
  | [], b => some b
  | (r, c) :: rest, b =>
    match is_square? b.grid r c p with
    | none => none
    | some v =>
      if v then
        scanSquaresAux p rest
          { b with triggered_squares := hsInsert b.triggered_squares (r, c) }
      else scanSquaresAux p rest b

/-- Tri-scan loop of `Board::scan_all_rewards` for one player. -/
def scanTrisAux (p : Player) : List Nat → Board → Option Board
  | [], b => some b
  | id :: rest, b =>
    match is_tri? b.grid id p with
    | none => none
    | some v =>
      if v then
        scanTrisAux p rest { b with triggered_tris := hsInsert b.triggered_tris id }
      else scanTrisAux p rest b

/-- Tetra-scan loop of `Board::scan_all_rewards` for one player. -/
def scanTetrasAux (p : Player) : List Nat → Board → Option Board
  | [], b => some b
  | id :: rest, b =>
    match is_tetra? b.grid id p with
    | none => none
    | some v =>
      if v then
        scanTetrasAux p rest { b with triggered_tetras := hsInsert b.triggered_tetras id }
      else scanTetrasAux p rest b

/-- Row-scan loop of `Board::scan_all_rewards` for one player. -/
def scanRowsAux (p : Player) : List Nat → Board → Option Board
  | [], b => some b
  | r :: rest, b =>
    match is_row? b.grid r p with
    | none => none
    | some v =>
      if v then
        scanRowsAux p rest { b with triggered_rows := hsInsert b.triggered_rows r }
      else scanRowsAux p rest b

/-- Column-scan loop of `Board::scan_all_rewards` for one player. -/
def scanColsAux (p : Player) : List Nat → Board → Option Board
  | [], b => some b
  | c :: rest, b =>
    match is_col? b.grid c p with
    | none => none
    | some v =>
      if v then
        scanColsAux p rest { b with triggered_cols := hsInsert b.triggered_cols c }
      else scanColsAux p rest b

/-- Dragon-scan loop of `Board::scan_all_rewards` for one player. -/
def scanDragonsAux (p : Player) : List Nat → Board → Option Board
  | [], b => some b
  | id :: rest, b =>
    match is_dragon? b.grid id p with
    | none => none
    | some v =>
      if v then
        scanDragonsAux p rest { b with triggered_dragons := hsInsert b.triggered_dragons id }
      else scanDragonsAux p rest b

/-- Row-major anchor list `(0..4)×(0..4)` of the square scan. -/
def allAnchors : List (Nat × Nat) :=
  (List.range 4).flatMap (fun r => (List.range 4).map (fun c => (r, c)))

/-- One player's pass of `Board::scan_all_rewards`. -/
def scanPlayer (b : Board) (p : Player) : Option Board :=
  match scanSquaresAux p allAnchors b with
  | none => none
  | some b1 =>
    match scanTrisAux p (List.range 4) b1 with
    | none => none
    | some b2 =>
      match scanTetrasAux p (List.range 4) b2 with
      | none => none
      | some b3 =>
        match scanRowsAux p (List.range 5) b3 with
        | none => none
        | some b4 =>
          match scanColsAux p (List.range 5) b4 with
          | none => none
          | some b5 => scanDragonsAux p (List.range 2) b5

/-- Square contribution of `Board::calculate_capture_count`. -/
def calcSquaresAux (g : List (List Cell)) (p : Player) :
    List (Nat × Nat) → Nat → Option Nat
  | [], acc => some acc
  | (r, c) :: rest, acc =>
    match is_square? g r c p with
    | none => none
    | some v => calcSquaresAux g p rest (if v then acc + 1 else acc)

/-- Tri contribution of `Board::calculate_capture_count`. -/
def calcTrisAux (g : List (List Cell)) (p : Player) : List Nat → Nat → Option Nat
  | [], acc => some acc
  | id :: rest, acc =>
    match is_tri? g id p with
    | none => none
    | some v => calcTrisAux g p rest (if v then acc + 1 else acc)

/-- Tetra contribution of `Board::calculate_capture_count`. -/
def calcTetrasAux (g : List (List Cell)) (p : Player) : List Nat → Nat → Option Nat
  | [], acc => some acc
  | id :: rest, acc =>
    match is_tetra? g id p with
    | none => none
    | some v => calcTetrasAux g p rest (if v then acc + 1 else acc)

/-- Count of triggered rows currently owned by `p` (filter + count). -/
def calcRowsAux (g : List (List Cell)) (p : Player) : List Nat → Nat → Option Nat
  | [], acc => some acc
  | r :: rest, acc =>
    match is_row? g r p with
    | none => none
    | some v => calcRowsAux g p rest (if v then acc + 1 else acc)

/-- Count of triggered columns currently owned by `p`. -/
def calcColsAux (g : List (List Cell)) (p : Player) : List Nat → Nat → Option Nat
  | [], acc => some acc
  | c :: rest, acc =>
    match is_col? g c p with
    | none => none
    | some v => calcColsAux g p rest (if v then acc + 1 else acc)

/-- Count of triggered dragons currently owned by `p`. -/
def calcDragonsAux (g : List (List Cell)) (p : Player) : List Nat → Nat → Option Nat
  | [], acc => some acc
  | id :: rest, acc =>
    match is_dragon? g id p with
    | none => none
    | some v => calcDragonsAux g p rest (if v then acc + 1 else acc)

/-- `Board::calculate_capture_count`: squares/tris/tetras count 1 each,
triggered rows/cols/dragons still owned count 2 each. -/
def calculate_capture_count (b : Board) (p : Player) : Option Nat :=
  match calcSquaresAux b.grid p b.triggered_squares 0 with
  | none => none
  | some c1 =>
    match calcTrisAux b.grid p b.triggered_tris c1 with
    | none => none
    | some c2 =>
      match calcTetrasAux b.grid p b.triggered_tetras c2 with
      | none => none
      | some c3 =>
        match calcRowsAux b.grid p b.triggered_rows 0 with
        | none => none
        | some nr =>
          match calcColsAux b.grid p b.triggered_cols 0 with
          | none => none
          | some nc =>
            match calcDragonsAux b.grid p b.triggered_dragons 0 with
            | none => none
            | some nd => some (c3 + nr * 2 + nc * 2 + nd * 2)

/-- Insert a batch of protected coordinates (HashSet-style dedup). -/
def insertAll (s : List (Nat × Nat)) (ps : List (Nat × Nat)) : List (Nat × Nat) :=
  ps.foldl hsInsert s

/-- Square part of `Board::add_reward_pieces`. -/
def addSquarePieces (g : List (List Cell)) (p : Player) :
    List (Nat × Nat) → List (Nat × Nat) → Option (List (Nat × Nat))
  | [], s => some s
  | (r, c) :: rest, s =>
    match is_square? g r c p with
    | none => none
    | some v =>
      addSquarePieces g p rest
        (if v then insertAll s [(r, c), (r, c + 1), (r + 1, c), (r + 1, c + 1)] else s)

/-- Tri part of `Board::add_reward_pieces` (`tris.get(*id)` guard included). -/
def addTriPieces (g : List (List Cell)) (p : Player) :
    List Nat → List (Nat × Nat) → Option (List (Nat × Nat))
  | [], s => some s
  | id :: rest, s =>
    match triPositions id with
    | none => addTriPieces g p rest s
    | some ps =>
      match is_tri? g id p with
      | none => none
      | some v => addTriPieces g p rest (if v then insertAll s ps else s)

/-- Tetra part of `Board::add_reward_pieces`. -/
def addTetraPieces (g : List (List Cell)) (p : Player) :
    List Nat → List (Nat × Nat) → Option (List (Nat × Nat))
  | [], s => some s
  | id :: rest, s =>
    match tetraPositions id with
    | none => addTetraPieces g p rest s
    | some ps =>
      match is_tetra? g id p with
      | none => none
      | some v => addTetraPieces g p rest (if v then insertAll s ps else s)

/-- Row part of `Board::add_reward_pieces`. -/
def addRowPieces (g : List (List Cell)) (p : Player) :
    List Nat → List (Nat × Nat) → Option (List (Nat × Nat))
  | [], s => some s
  | r :: rest, s =>
    match is_row? g r p with
    | none => none
    | some v => addRowPieces g p rest (if v then insertAll s (rowPositions r) else s)

/-- Column part of `Board::add_reward_pieces`. -/
def addColPieces (g : List (List Cell)) (p : Player) :
    List Nat → List (Nat × Nat) → Option (List (Nat × Nat))
  | [], s => some s
  | c :: rest, s =>
    match is_col? g c p with
    | none => none
    | some v => addColPieces g p rest (if v then insertAll s (colPositions c) else s)

/-- Dragon part of `Board::add_reward_pieces`. -/
def addDragonPieces (g : List (List Cell)) (p : Player) :
    List Nat → List (Nat × Nat) → Option (List (Nat × Nat))
  | [], s => some s
  | id :: rest, s =>
    match dragonPositions id with
    | none => addDragonPieces g p rest s
    | some ps =>
      match is_dragon? g id p with
      | none => none
      | some v => addDragonPieces g p rest (if v then insertAll s ps else s)

/-- `Board::add_reward_pieces`: all protected coordinates of `p`. -/
def add_reward_pieces (b : Board) (p : Player) : Option (List (Nat × Nat)) :=
  match addSquarePieces b.grid p b.triggered_squares [] with
  | none => none
  | some s1 =>
    match addTriPieces b.grid p b.triggered_tris s1 with
    | none => none
    | some s2 =>
      match addTetraPieces b.grid p b.triggered_tetras s2 with
      | none => none
      | some s3 =>
        match addRowPieces b.grid p b.triggered_rows s3 with
        | none => none
        | some s4 =>
          match addColPieces b.grid p b.triggered_cols s4 with
          | none => none
          | some s5 => addDragonPieces b.grid p b.triggered_dragons s5

/-- `Board::update_reward_pieces`: recompute both protection sets. -/
def update_reward_pieces (b : Board) : Option Board :=
  match add_reward_pieces b Player.black with
  | none => none
  | some bp =>
    match add_reward_pieces b Player.white with
    | none => none
    | some wp => some { b with reward_black := bp, reward_white := wp }

/-- `Board::scan_all_rewards`: rescan all patterns for both players, then
recompute `reward_pieces`. -/
def scan_all_rewards (b : Board) : Option Board :=
  match scanPlayer b Player.black with
  | none => none
  | some b1 =>
    match scanPlayer b1 Player.white with
    | none => none
    | some b2 => update_reward_pieces b2

/-- `Board::enter_capture_phase`. -/
def enter_capture_phase (b : Board) : Option Board :=
  let b1 : Board :=
    { b with
      phase := GamePhase.capture,
      triggered_squares := [], triggered_tris := [], triggered_tetras := [],
      triggered_rows := [], triggered_cols := [], triggered_dragons := [] }
  match scan_all_rewards b1 with
  | none => none
  | some b2 =>
    let last_player := b2.current_player.opponent
    let first_player := last_player
    let second_player := last_player.opponent
    match calculate_capture_count b2 first_player with
    | none => none
    | some first_capture =>
      match calculate_capture_count b2 second_player with
      | none => none
      | some second_capture =>
        some { b2 with
          capture_remaining :=
            hmInsert (hmInsert b2.capture_remaining first_player first_capture)
              second_player second_capture,
          capture_turn := first_player,
          current_player := first_player }

/-- `Board::enter_movement_phase` with the `capture_remaining.iter().last()`
read resolved as `getLast?` of the insertion-ordered map — one admissible
behaviour of the arbitrary-order `HashMap` iteration (see
`enter_movement_phaseND` for the nondeterministic version parameterised by
the iteration-order oracle, and `enter_movement_phase_eq_ND` for the
instantiation). -/
def enter_movement_phase (b : Board) : Option Board :=
  let b1 : Board := { b with phase := GamePhase.movement }
  let b2 : Board :=
    match b1.capture_remaining.getLast? with
    | some kv => { b1 with current_player := kv.1 }
    | none => b1
  update_reward_pieces b2

/-- Square loop of `Board::check_rewards_movement` (no dedup check: the sets
were just cleared; every match counts and is recorded). -/
def movSquaresAux (p : Player) : List (Nat × Nat) → Board → Nat → Option (Board × Nat)
  | [], b, cnt => some (b, cnt)
  | (r, c) :: rest, b, cnt =>
    match is_square? b.grid r c p with
    | none => none
    | some v =>
      if v then
        movSquaresAux p rest
          { b with
            triggered_squares := hsInsert b.triggered_squares (r, c),
            game_record := b.game_record ++
              [GameAction.reward p (RewardPattern.square (r, c))] }
          (cnt + 1)
      else movSquaresAux p rest b cnt

/-- Tri loop of `Board::check_rewards_movement`. -/
def movTrisAux (p : Player) : List Nat → Board → Nat → Option (Board × Nat)
  | [], b, cnt => some (b, cnt)
  | id :: rest, b, cnt =>
    match is_tri? b.grid id p with
    | none => none
    | some v =>
      if v then
        movTrisAux p rest
          { b with
            triggered_tris := hsInsert b.triggered_tris id,
            game_record := b.game_record ++
              [GameAction.reward p (RewardPattern.tri id)] }
          (cnt + 1)
      else movTrisAux p rest b cnt

/-- Tetra loop of `Board::check_rewards_movement`. -/
def movTetrasAux (p : Player) : List Nat → Board → Nat → Option (Board × Nat)
  | [], b, cnt => some (b, cnt)
  | id :: rest, b, cnt =>
    match is_tetra? b.grid id p with
    | none => none
    | some v =>
      if v then
        movTetrasAux p rest
          { b with
            triggered_tetras := hsInsert b.triggered_tetras id,
            game_record := b.game_record ++
              [GameAction.reward p (RewardPattern.tetra id)] }
          (cnt + 1)
      else movTetrasAux p rest b cnt

/-- Row loop of `Board::check_rewards_movement` (worth 2 each). -/
def movRowsAux (p : Player) : List Nat → Board → Nat → Option (Board × Nat)
  | [], b, cnt => some (b, cnt)
  | r :: rest, b, cnt =>
    match is_row? b.grid r p with
    | none => none
    | some v =>
      if v then
        movRowsAux p rest
          { b with
            triggered_rows := hsInsert b.triggered_rows r,
            game_record := b.game_record ++
              [GameAction.reward p (RewardPattern.row r)] }
          (cnt + 2)
      else movRowsAux p rest b cnt

/-- Column loop of `Board::check_rewards_movement` (worth 2 each). -/
def movColsAux (p : Player) : List Nat → Board → Nat → Option (Board × Nat)
  | [], b, cnt => some (b, cnt)
  | c :: rest, b, cnt =>
    match is_col? b.grid c p with
    | none => none
    | some v =>
      if v then
        movColsAux p rest
          { b with
            triggered_cols := hsInsert b.triggered_cols c,
            game_record := b.game_record ++
              [GameAction.reward p (RewardPattern.col c)] }
          (cnt + 2)
      else movColsAux p rest b cnt

/-- Dragon loop of `Board::check_rewards_movement` (worth 2 each). -/
def movDragonsAux (p : Player) : List Nat → Board → Nat → Option (Board × Nat)
  | [], b, cnt => some (b, cnt)
  | id :: rest, b, cnt =>
    match is_dragon? b.grid id p with
    | none => none
    | some v =>
      if v then
        movDragonsAux p rest
          { b with
            triggered_dragons := hsInsert b.triggered_dragons id,
            game_record := b.game_record ++
              [GameAction.reward p (RewardPattern.dragon id)] }
          (cnt + 2)
      else movDragonsAux p rest b cnt

/-- `Board::check_rewards_movement`: clear all triggered sets, then rescan every
pattern family for the current player, counting and recording every match.
The `row`/`col` arguments of the source are unused by its body. -/
def check_rewards_movement (b : Board) (_row _col : Nat) : Option (Board × Nat) :=
  let b0 : Board :=
    { b with
      triggered_squares := [], triggered_tris := [], triggered_tetras := [],
      triggered_rows := [], triggered_cols := [], triggered_dragons := [] }
  let p := b0.current_player
  match movSquaresAux p allAnchors b0 0 with
  | none => none
  | some (b1, c1) =>
    match movTrisAux p (List.range 4) b1 c1 with
    | none => none
    | some (b2, c2) =>
      match movTetrasAux p (List.range 4) b2 c2 with
      | none => none
      | some (b3, c3) =>
        match movRowsAux p (List.range 5) b3 c3 with
        | none => none
        | some (b4, c4) =>
          match movColsAux p (List.range 5) b4 c4 with
          | none => none
          | some (b5, c5) => movDragonsAux p (List.range 2) b5 c5

/-- Neighbor candidates of `Board::has_legal_moves` (up/down/left/right,
with `wrapping_sub`). -/
def neighborsOf (r c : Nat) : List (Nat × Nat) :=
  [(wrappingSub1 r, c), (r + 1, c), (r, wrappingSub1 c), (r, c + 1)]

/-- Inner neighbor loop of `Board::has_legal_moves`: short-circuit on the first
valid empty neighbor; grid access only after the `is_valid_pos` guard. -/
def anyEmptyNeighbor? (g : List (List Cell)) : List (Nat × Nat) → Option Bool
  | [] => some false
  | (nr, nc) :: rest =>
    if is_valid_pos nr nc then
      match cell? g nr nc with
      | none => none
      | some cl =>
        if cl = Cell.empty then some true else anyEmptyNeighbor? g rest
    else anyEmptyNeighbor? g rest

/-- Outer piece loop of `Board::has_legal_moves`. -/
def hasMoveAux? (g : List (List Cell)) : List (Nat × Nat) → Option Bool
  | [] => some false
  | (r, c) :: rest =>
    match anyEmptyNeighbor? g (neighborsOf r c) with
    | none => none
    | some true => some true
    | some false => hasMoveAux? g rest

/-- `Board::has_legal_moves`: `false` outright with fewer than 3 stones. -/
def has_legal_moves? (b : Board) (p : Player) : Option Bool :=
  let pieces := player_pieces b.grid p
  if pieces.length < 3 then some false
  else hasMoveAux? b.grid pieces

/-- `Board::place_piece`. -/
def place_piece (b : Board) (row col : Nat) : Option (RResult Nat × Board) :=
  if b.phase ≠ GamePhase.placement then some (.err .wrongPhasePlacement, b)
  else if ¬ is_valid_pos row col then some (.err .invalidPosRange, b)
  else
    match cell? b.grid row col with
    | none => none
    | some cl =>
      if cl ≠ Cell.empty then some (.err .occupiedCell, b)
      else
        match setCell? b.grid row col (Cell.occupied b.current_player) with
        | none => none
        | some g1 =>
          let b1 : Board :=
            { b with
              grid := g1,
              game_record := b.game_record ++
                [GameAction.place b.current_player (row, col)] }
          match check_rewards b1 row col with
          | none => none
          | some (b2, extra) =>
            let em := min (b2.extra_moves + extra) U32_MAX
            let b3 : Board :=
              if em > 0 then { b2 with extra_moves := em - 1 }
              else
                { b2 with extra_moves := em,
                          current_player := b2.current_player.opponent }
            if is_full b3.grid then
              match enter_capture_phase b3 with
              | none => none
              | some b4 => some (.ok extra, b4)
            else some (.ok extra, b3)

/-- `Board::capture_piece`. -/
def capture_piece (b : Board) (row col : Nat) : Option (RResult Unit × Board) :=
  if b.phase ≠ GamePhase.capture then some (.err .wrongPhaseCapture, b)
  else
    let player := b.current_player
    match hmGet b.capture_remaining player with
    | none => some (.err .noPendingCapture, b)
    | some remaining =>
      if remaining = 0 then some (.err .noPendingCapture, b)
      else if ¬ is_valid_pos row col then some (.err .invalidPos, b)
      else
        let opponent := player.opponent
        let protectedSet := rewardOf b opponent
        if (row, col) ∈ protectedSet then some (.err .protectedPiece, b)
        else
          match cell? b.grid row col with
          | none => none
          | some Cell.empty => some (.err .emptyCell, b)
          | some (Cell.occupied p) =>
            if p ≠ opponent then some (.err .notOpponentPiece, b)
            else
              match setCell? b.grid row col Cell.empty with
              | none => none
              | some g1 =>
                let b1 : Board :=
                  { b with
                    grid := g1,
                    game_record := b.game_record ++
                      [GameAction.capture player (row, col)] }
                match hmSet? b1.capture_remaining player (remaining - 1) with
                | none => none
                | some m1 =>
                  let b2 : Board := { b1 with capture_remaining := m1 }
                  match update_reward_pieces b2 with
                  | none => none
                  | some b3 =>
                    if hmSum b3.capture_remaining = 0 then
                      match enter_movement_phase b3 with
                      | none => none
                      | some b4 => some (.ok (), b4)
                    else
                      let next_player := player.opponent
                      if (player_pieces b3.grid opponent).isEmpty then
                        match hmSet? b3.capture_remaining next_player 0 with
                        | none => none
                        | some m2 =>
                          let b4 : Board := { b3 with capture_remaining := m2 }
                          if hmSum b4.capture_remaining = 0 then
                            match enter_movement_phase b4 with
                            | none => none
                            | some b5 => some (.ok (), b5)
                          else
                            some (.ok (),
                              { b4 with current_player := next_player.opponent })
                      else
                        let b4 : Board := { b3 with current_player := next_player }
                        if player = b4.capture_turn.opponent then
                          match has_legal_moves? b4 b4.capture_turn with
                          | none => none
                          | some hm =>
                            if ¬ hm then some (.err .captureImmobilized, b4)
                            else some (.ok (), b4)
                        else some (.ok (), b4)

/-- Rust `usize::abs_diff`. -/
def absDiff (a b : Nat) : Nat := if b ≤ a then a - b else b - a

/-- Auto-capture loop of `Board::move_piece`: pop up to `n` stones off the end
of `capturable`, emptying each cell and recording a `Capture` action. -/
def popCapture? (player : Player) :
    List (List Cell) → List GameAction → List (Nat × Nat) → Nat →
    Option (List (List Cell) × List GameAction)
  | g, recs, _, 0 => some (g, recs)
  | g, recs, caplist, Nat.succ k =>
    match caplist.getLast? with
    | none => popCapture? player g recs caplist k
    | some pos =>
      match setCell? g pos.1 pos.2 Cell.empty with
      | none => none
      | some g1 =>
        popCapture? player g1 (recs ++ [GameAction.capture player pos])
          caplist.dropLast k

/-- `Board::move_piece`. -/
def move_piece (b : Board) (src dst : Nat × Nat) : Option (RResult Nat × Board) :=
  if b.phase ≠ GamePhase.movement then some (.err .wrongPhaseMovement, b)
  else
    let from_row := src.1
    let from_col := src.2
    let to_row := dst.1
    let to_col := dst.2
    if ¬ (is_valid_pos from_row from_col ∧ is_valid_pos to_row to_col) then
      some (.err .invalidPosRange, b)
    else
      match cell? b.grid from_row from_col with
      | none => none
      | some Cell.empty => some (.err .noSourcePiece, b)
      | some (Cell.occupied p) =>
        if p ≠ b.current_player then some (.err .notOwnPiece, b)
        else
          match cell? b.grid to_row to_col with
          | none => none
          | some cl2 =>
            if cl2 ≠ Cell.empty then some (.err .destOccupied, b)
            else
              let row_diff := absDiff from_row to_row
              let col_diff := absDiff from_col to_col
              if ¬ ((row_diff = 1 ∧ col_diff = 0) ∨ (row_diff = 0 ∧ col_diff = 1)) then
                some (.err .notAdjacent, b)
              else
                let player := b.current_player
                match setCell? b.grid from_row from_col Cell.empty with
                | none => none
                | some g1 =>
                  match setCell? g1 to_row to_col (Cell.occupied player) with
                  | none => none
                  | some g2 =>
                    let b1 : Board :=
                      { b with
                        grid := g2,
                        game_record := b.game_record ++
                          [GameAction.move player (from_row, from_col) (to_row, to_col)] }
                    match check_rewards_movement b1 to_row to_col with
                    | none => none
                    | some (b2, capture_count) =>
                      let step :=
                        if capture_count > 0 then
                          let opponent := player.opponent
                          let opponent_pieces := player_pieces b2.grid opponent
                          let protectedSet := rewardOf b2 opponent
                          let capturable :=
                            opponent_pieces.filter (fun pos => pos ∉ protectedSet)
                          let actual := min capture_count capturable.length
                          match popCapture? player b2.grid b2.game_record capturable actual with
                          | none => none
                          | some (g3, rec3) =>
                            let b3 : Board := { b2 with grid := g3, game_record := rec3 }
                            match update_reward_pieces b3 with
                            | none => none
                            | some b4 => some (b4, actual)
                        else some (b2, 0)
                      match step with
                      | none => none
                      | some (b5, actual_captured) =>
                        let opponent := player.opponent
                        match has_legal_moves? b5 opponent with
                        | none => none
                        | some hm =>
                          if ¬ hm then some (.err .moveImmobilized, b5)
                          else
                            some (.ok actual_captured,
                              { b5 with current_player := b5.current_player.opponent })

/-- The literal initial state built by `Board::new` (the trailing
`update_reward_pieces` call is a no-op on empty triggered sets, see
`board_new_eq`). -/
def initBoard : Board :=
  { grid := List.replicate 5 (List.replicate 5 Cell.empty),
    current_player := Player.black,
    phase := GamePhase.placement,
    extra_moves := 0,
    capture_remaining := [],
    capture_turn := Player.black,
    triggered_squares := [], triggered_tris := [], triggered_tetras := [],
    triggered_rows := [], triggered_cols := [], triggered_dragons := [],
    reward_black := [], reward_white := [],
    game_record := [] }

/-- `Board::new`: fresh state plus the initial `update_reward_pieces` call. -/
def Board.new? : Option Board := update_reward_pieces initBoard

/-- One step of `GameReplayer::step_forward` under the insertion-order-`last`
resolution of the map iteration (`replayStepND hmIterLast`): re-invoke the
recorded command (keeping the post-state whether it returned `Ok` or `Err`,
mirroring `.ok()`); `Reward` entries are skipped. -/
def replayStep (b : Board) (a : GameAction) : Board :=
  match a with
  | GameAction.place _ pos =>
    match place_piece b pos.1 pos.2 with
    | some (_, b') => b'
    | none => b
  | GameAction.capture _ pos =>
    match capture_piece b pos.1 pos.2 with
    | some (_, b') => b'
    | none => b
  | GameAction.move _ src dst =>
    match move_piece b src dst with
    | some (_, b') => b'
    | none => b
  | GameAction.reward _ _ => b

/-- Replay a list of recorded actions from a given board. -/
def replayList (b : Board) (as : List GameAction) : Board :=
  as.foldl replayStep b

/-- Replay a full recorded game from a fresh board. -/
def replayAll (as : List GameAction) : Board :=
  replayList initBoard as

/-- The command surface of the engine. -/
inductive Cmd where
  | place (r c : Nat)
  | capture (r c : Nat)
  | move (src dst : Nat × Nat)
deriving DecidableEq, Repr

/-- Execute one command, keeping the post-state (ok or err). -/
def execCmd? (b : Board) : Cmd → Option Board
  | Cmd.place r c => (place_piece b r c).map (fun x => x.2)
  | Cmd.capture r c => (capture_piece b r c).map (fun x => x.2)
  | Cmd.move src dst => (move_piece b src dst).map (fun x => x.2)

/-- Board states reachable from a fresh board through the command surface,
under the insertion-order-`last` resolution of the map iteration
(`ReachableND hmIterLast`); all properties proved over it are
oracle-independent, since they never compare two separate runs. -/
inductive Reachable : Board → Prop where
  | init : Reachable initBoard
  | step {b b' : Board} {cmd : Cmd} :
      Reachable b → execCmd? b cmd = some b' → Reachable b'

/-! ### Frame relations for the engine helpers -/

/-- Frame: only the triggered-pattern sets and the game record may differ. -/
def FrameSR (b b' : Board) : Prop :=
  b'.grid = b.grid ∧ b'.current_player = b.current_player ∧ b'.phase = b.phase ∧
  b'.extra_moves = b.extra_moves ∧ b'.capture_remaining = b.capture_remaining ∧
  b'.capture_turn = b.capture_turn ∧ b'.reward_black = b.reward_black ∧
  b'.reward_white = b.reward_white

theorem FrameSR_refl (b : Board) : FrameSR b b := by
  simp [FrameSR]

theorem FrameSR_trans {a b c : Board} (h1 : FrameSR a b) (h2 : FrameSR b c) :
    FrameSR a c := by
  obtain ⟨g1, p1, f1, e1, m1, t1, rb1, rw1⟩ := h1
  obtain ⟨g2, p2, f2, e2, m2, t2, rb2, rw2⟩ := h2
  exact ⟨g2.trans g1, p2.trans p1, f2.trans f1, e2.trans e1,
         m2.trans m1, t2.trans t1, rb2.trans rb1, rw2.trans rw1⟩

/-- The six triggered-pattern sets only grow (membership-wise). -/
def SetsSub (b b' : Board) : Prop :=
  (∀ x ∈ b.triggered_squares, x ∈ b'.triggered_squares) ∧
  (∀ x ∈ b.triggered_tris, x ∈ b'.triggered_tris) ∧
  (∀ x ∈ b.triggered_tetras, x ∈ b'.triggered_tetras) ∧
  (∀ x ∈ b.triggered_rows, x ∈ b'.triggered_rows) ∧
  (∀ x ∈ b.triggered_cols, x ∈ b'.triggered_cols) ∧
  (∀ x ∈ b.triggered_dragons, x ∈ b'.triggered_dragons)

theorem SetsSub_refl (b : Board) : SetsSub b b := by
  refine ⟨?_, ?_, ?_, ?_, ?_, ?_⟩ <;> intro x hx <;> exact hx

theorem SetsSub_trans {a b c : Board} (h1 : SetsSub a b) (h2 : SetsSub b c) :
    SetsSub a c := by
  obtain ⟨s1, t1, u1, r1, c1, d1⟩ := h1
  obtain ⟨s2, t2, u2, r2, c2, d2⟩ := h2
  exact ⟨fun x hx => s2 x (s1 x hx), fun x hx => t2 x (t1 x hx),
         fun x hx => u2 x (u1 x hx), fun x hx => r2 x (r1 x hx),
         fun x hx => c2 x (c1 x hx), fun x hx => d2 x (d1 x hx)⟩

/-- The six triggered-pattern sets are equal. -/
def SetsEq (b b' : Board) : Prop :=
  b'.triggered_squares = b.triggered_squares ∧
  b'.triggered_tris = b.triggered_tris ∧
  b'.triggered_tetras = b.triggered_tetras ∧
  b'.triggered_rows = b.triggered_rows ∧
  b'.triggered_cols = b.triggered_cols ∧
  b'.triggered_dragons = b.triggered_dragons

theorem SetsEq_refl (b : Board) : SetsEq b b := by
  simp [SetsEq]

/-- The game record of `b'` extends that of `b` by actions satisfying `P`. -/
def RecDelta (b b' : Board) (P : GameAction → Prop) : Prop :=
  ∃ d, b'.game_record = b.game_record ++ d ∧ ∀ a ∈ d, P a

theorem RecDelta_refl (b : Board) (P : GameAction → Prop) : RecDelta b b P :=
  ⟨[], by simp, by simp⟩

theorem RecDelta_trans {a b c : Board} {P : GameAction → Prop}
    (h1 : RecDelta a b P) (h2 : RecDelta b c P) : RecDelta a c P := by
  obtain ⟨d1, he1, hp1⟩ := h1
  obtain ⟨d2, he2, hp2⟩ := h2
  refine ⟨d1 ++ d2, ?_, ?_⟩
  · rw [he2, he1, List.append_assoc]
  · intro x hx
    rcases List.mem_append.mp hx with hx | hx
    · exact hp1 x hx
    · exact hp2 x hx

/-- The action is a `Reward` log entry. -/
def IsRewardA (a : GameAction) : Prop :=
  match a with
  | GameAction.reward _ _ => True
  | _ => False

/-- The action is a `Capture` log entry. -/
def IsCaptureA (a : GameAction) : Prop :=
  match a with
  | GameAction.capture _ _ => True
  | _ => False

theorem mem_hsInsert_of_mem {α : Type} [DecidableEq α] {s : List α} {x a : α}
    (h : a ∈ s) : a ∈ hsInsert s x := by
  unfold hsInsert
  split
  · exact h
  · exact List.mem_append_left _ h

/-- Combined property proved for each placement-phase reward-check helper. -/
def CheckstepOk (b b' : Board) : Prop :=
  FrameSR b b' ∧ SetsSub b b' ∧ RecDelta b b' IsRewardA

theorem CheckstepOk_refl (b : Board) : CheckstepOk b b :=
  ⟨FrameSR_refl b, SetsSub_refl b, RecDelta_refl b _⟩

theorem CheckstepOk_trans {a b c : Board} (h1 : CheckstepOk a b)
    (h2 : CheckstepOk b c) : CheckstepOk a c :=
  ⟨FrameSR_trans h1.1 h2.1, SetsSub_trans h1.2.1 h2.2.1,
   RecDelta_trans h1.2.2 h2.2.2⟩

theorem check_squaresAux_spec :
    ∀ (l : List (Nat × Nat)) (b : Board) (extra : Nat) (out : Board × Nat),
      check_squaresAux l b extra = some out → CheckstepOk b out.1 := by
  intro l
  induction l with
  | nil =>
    intro b extra out h
    simp only [check_squaresAux, Option.some.injEq] at h
    subst h
    exact CheckstepOk_refl b
  | cons hd rest ih =>
    intro b extra out h
    obtain ⟨r, c⟩ := hd
    simp only [check_squaresAux] at h
    by_cases hrc : r < 4 ∧ c < 4
    · rw [if_pos hrc] at h
      cases hv : is_square? b.grid r c b.current_player with
      | none => rw [hv] at h; cases h
      | some v =>
        rw [hv] at h
        cases v with
        | false => simp only [Bool.false_eq_true, if_false] at h; exact ih _ _ _ h
        | true =>
          simp only [if_true] at h
          by_cases hmem : (r, c) ∈ b.triggered_squares
          · rw [if_pos hmem] at h; exact ih _ _ _ h
          · rw [if_neg hmem] at h
            refine CheckstepOk_trans ?_ (ih _ _ _ h)
            refine ⟨by simp [FrameSR], ?_, ⟨[GameAction.reward b.current_player (RewardPattern.square (r, c))], rfl, by simp [IsRewardA]⟩⟩
            exact ⟨fun x hx => List.mem_append_left _ hx, fun x hx => hx,
                   fun x hx => hx, fun x hx => hx, fun x hx => hx, fun x hx => hx⟩
    · rw [if_neg hrc] at h
      exact ih _ _ _ h

theorem check_trisAux_spec :
    ∀ (l : List Nat) (b : Board) (extra : Nat) (out : Board × Nat),
      check_trisAux l b extra = some out → CheckstepOk b out.1 := by
  intro l
  induction l with
  | nil =>
    intro b extra out h
    simp only [check_trisAux, Option.some.injEq] at h
    subst h
    exact CheckstepOk_refl b
  | cons id rest ih =>
    intro b extra out h
    simp only [check_trisAux] at h
    by_cases hmem : id ∈ b.triggered_tris
    · rw [if_pos hmem] at h; exact ih _ _ _ h
    · rw [if_neg hmem] at h
      cases hv : is_tri? b.grid id b.current_player with
      | none => rw [hv] at h; cases h
      | some v =>
        rw [hv] at h
        cases v with
        | false => simp only [Bool.false_eq_true, if_false] at h; exact ih _ _ _ h
        | true =>
          simp only [if_true] at h
          refine CheckstepOk_trans ?_ (ih _ _ _ h)
          refine ⟨by simp [FrameSR], ?_, ⟨[GameAction.reward b.current_player (RewardPattern.tri id)], rfl, by simp [IsRewardA]⟩⟩
          exact ⟨fun x hx => hx, fun x hx => List.mem_append_left _ hx,
                 fun x hx => hx, fun x hx => hx, fun x hx => hx, fun x hx => hx⟩

theorem check_tetrasAux_spec :
    ∀ (l : List Nat) (b : Board) (extra : Nat) (out : Board × Nat),
      check_tetrasAux l b extra = some out → CheckstepOk b out.1 := by
  intro l
  induction l with
  | nil =>
    intro b extra out h
    simp only [check_tetrasAux, Option.some.injEq] at h
    subst h
    exact CheckstepOk_refl b
  | cons id rest ih =>
    intro b extra out h
    simp only [check_tetrasAux] at h
    by_cases hmem : id ∈ b.triggered_tetras
    · rw [if_pos hmem] at h; exact ih _ _ _ h
    · rw [if_neg hmem] at h
      cases hv : is_tetra? b.grid id b.current_player with
      | none => rw [hv] at h; cases h
      | some v =>
        rw [hv] at h
        cases v with
        | false => simp only [Bool.false_eq_true, if_false] at h; exact ih _ _ _ h
        | true =>
          simp only [if_true] at h
          refine CheckstepOk_trans ?_ (ih _ _ _ h)
          refine ⟨by simp [FrameSR], ?_, ⟨[GameAction.reward b.current_player (RewardPattern.tetra id)], rfl, by simp [IsRewardA]⟩⟩
          exact ⟨fun x hx => hx, fun x hx => hx,
                 fun x hx => List.mem_append_left _ hx,
                 fun x hx => hx, fun x hx => hx, fun x hx => hx⟩

theorem check_rowsAux_spec :
    ∀ (l : List Nat) (b : Board) (extra : Nat) (out : Board × Nat),
      check_rowsAux l b extra = some out → CheckstepOk b out.1 := by
  intro l
  induction l with
  | nil =>
    intro b extra out h
    simp only [check_rowsAux, Option.some.injEq] at h
    subst h
    exact CheckstepOk_refl b
  | cons r rest ih =>
    intro b extra out h
    simp only [check_rowsAux] at h
    by_cases hmem : r ∈ b.triggered_rows
    · rw [if_pos hmem] at h; exact ih _ _ _ h
    · rw [if_neg hmem] at h
      cases hv : is_row? b.grid r b.current_player with
      | none => rw [hv] at h; cases h
      | some v =>
        rw [hv] at h
        cases v with
        | false => simp only [Bool.false_eq_true, if_false] at h; exact ih _ _ _ h
        | true =>
          simp only [if_true] at h
          refine CheckstepOk_trans ?_ (ih _ _ _ h)
          refine ⟨by simp [FrameSR], ?_, ⟨[GameAction.reward b.current_player (RewardPattern.row r)], rfl, by simp [IsRewardA]⟩⟩
          exact ⟨fun x hx => hx, fun x hx => hx, fun x hx => hx,
                 fun x hx => List.mem_append_left _ hx,
                 fun x hx => hx, fun x hx => hx⟩

theorem check_colsAux_spec :
    ∀ (l : List Nat) (b : Board) (extra : Nat) (out : Board × Nat),
      check_colsAux l b extra = some out → CheckstepOk b out.1 := by
  intro l
  induction l with
  | nil =>
    intro b extra out h
    simp only [check_colsAux, Option.some.injEq] at h
    subst h
    exact CheckstepOk_refl b
  | cons c rest ih =>
    intro b extra out h
    simp only [check_colsAux] at h
    by_cases hmem : c ∈ b.triggered_cols
    · rw [if_pos hmem] at h; exact ih _ _ _ h
    · rw [if_neg hmem] at h
      cases hv : is_col? b.grid c b.current_player with
      | none => rw [hv] at h; cases h
      | some v =>
        rw [hv] at h
        cases v with
        | false => simp only [Bool.false_eq_true, if_false] at h; exact ih _ _ _ h
        | true =>
          simp only [if_true] at h
          refine CheckstepOk_trans ?_ (ih _ _ _ h)
          refine ⟨by simp [FrameSR], ?_, ⟨[GameAction.reward b.current_player (RewardPattern.col c)], rfl, by simp [IsRewardA]⟩⟩
          exact ⟨fun x hx => hx, fun x hx => hx, fun x hx => hx, fun x hx => hx,
                 fun x hx => List.mem_append_left _ hx, fun x hx => hx⟩

theorem check_dragonsAux_spec :
    ∀ (l : List Nat) (b : Board) (extra : Nat) (out : Board × Nat),
      check_dragonsAux l b extra = some out → CheckstepOk b out.1 := by
  intro l
  induction l with
  | nil =>
    intro b extra out h
    simp only [check_dragonsAux, Option.some.injEq] at h
    subst h
    exact CheckstepOk_refl b
  | cons id rest ih =>
    intro b extra out h
    simp only [check_dragonsAux] at h
    by_cases hmem : id ∈ b.triggered_dragons
    · rw [if_pos hmem] at h; exact ih _ _ _ h
    · rw [if_neg hmem] at h
      cases hv : is_dragon? b.grid id b.current_player with
      | none => rw [hv] at h; cases h
      | some v =>
        rw [hv] at h
        cases v with
        | false => simp only [Bool.false_eq_true, if_false] at h; exact ih _ _ _ h
        | true =>
          simp only [if_true] at h
          refine CheckstepOk_trans ?_ (ih _ _ _ h)
          refine ⟨by simp [FrameSR], ?_, ⟨[GameAction.reward b.current_player (RewardPattern.dragon id)], rfl, by simp [IsRewardA]⟩⟩
          exact ⟨fun x hx => hx, fun x hx => hx, fun x hx => hx, fun x hx => hx,
                 fun x hx => hx, fun x hx => List.mem_append_left _ hx⟩

theorem check_rewards_spec {b : Board} {row col : Nat} {out : Board × Nat}
    (h : check_rewards b row col = some out) : CheckstepOk b out.1 := by
  unfold check_rewards at h
  split at h
  · cases h
  next b1 e1 h1 =>
  split at h
  · cases h
  next b2 e2 h2 =>
  split at h
  · cases h
  next b3 e3 h3 =>
  split at h
  · cases h
  next b4 e4 h4 =>
  split at h
  · cases h
  next b5 e5 h5 =>
  split at h
  · cases h
  next b6 e6 h6 =>
  simp only [Option.some.injEq] at h
  have s1 := check_squaresAux_spec _ _ _ _ h1
  have s2 := check_trisAux_spec _ _ _ _ h2
  have s3 := check_tetrasAux_spec _ _ _ _ h3
  have s4 := check_rowsAux_spec _ _ _ _ h4
  have s5 := check_colsAux_spec _ _ _ _ h5
  have s6 := check_dragonsAux_spec _ _ _ _ h6
  have hout : out.1 = b6 := by rw [← h]
  rw [hout]
  exact CheckstepOk_trans (CheckstepOk_trans (CheckstepOk_trans
    (CheckstepOk_trans (CheckstepOk_trans s1 s2) s3) s4) s5) s6

/-- Combined property proved for each `scan_all_rewards` loop: frame,
set-growth, and no record change. -/
def ScanstepOk (b b' : Board) : Prop :=
  FrameSR b b' ∧ SetsSub b b' ∧ b'.game_record = b.game_record

theorem ScanstepOk_refl (b : Board) : ScanstepOk b b :=
  ⟨FrameSR_refl b, SetsSub_refl b, Eq.refl _⟩

theorem ScanstepOk_trans {a b c : Board} (h1 : ScanstepOk a b)
    (h2 : ScanstepOk b c) : ScanstepOk a c :=
  ⟨FrameSR_trans h1.1 h2.1, SetsSub_trans h1.2.1 h2.2.1, h2.2.2.trans h1.2.2⟩

theorem scanSquaresAux_spec (p : Player) :
    ∀ (l : List (Nat × Nat)) (b : Board) (b' : Board),
      scanSquaresAux p l b = some b' → ScanstepOk b b' := by
  intro l
  induction l with
  | nil =>
    intro b b' h
    simp only [scanSquaresAux, Option.some.injEq] at h
    subst h
    exact ScanstepOk_refl b
  | cons hd rest ih =>
    intro b b' h
    obtain ⟨r, c⟩ := hd
    simp only [scanSquaresAux] at h
    cases hv : is_square? b.grid r c p with
    | none => rw [hv] at h; cases h
    | some v =>
      rw [hv] at h
      cases v with
      | false => simp only [Bool.false_eq_true, if_false] at h; exact ih _ _ h
      | true =>
        simp only [if_true] at h
        refine ScanstepOk_trans ?_ (ih _ _ h)
        exact ⟨by simp [FrameSR],
               ⟨fun x hx => mem_hsInsert_of_mem hx, fun x hx => hx, fun x hx => hx,
                fun x hx => hx, fun x hx => hx, fun x hx => hx⟩, by simp⟩

theorem scanTrisAux_spec (p : Player) :
    ∀ (l : List Nat) (b : Board) (b' : Board),
      scanTrisAux p l b = some b' → ScanstepOk b b' := by
  intro l
  induction l with
  | nil =>
    intro b b' h
    simp only [scanTrisAux, Option.some.injEq] at h
    subst h
    exact ScanstepOk_refl b
  | cons id rest ih =>
    intro b b' h
    simp only [scanTrisAux] at h
    cases hv : is_tri? b.grid id p with
    | none => rw [hv] at h; cases h
    | some v =>
      rw [hv] at h
      cases v with
      | false => simp only [Bool.false_eq_true, if_false] at h; exact ih _ _ h
      | true =>
        simp only [if_true] at h
        refine ScanstepOk_trans ?_ (ih _ _ h)
        exact ⟨by simp [FrameSR],
               ⟨fun x hx => hx, fun x hx => mem_hsInsert_of_mem hx, fun x hx => hx,
                fun x hx => hx, fun x hx => hx, fun x hx => hx⟩, by simp⟩

theorem scanTetrasAux_spec (p : Player) :
    ∀ (l : List Nat) (b : Board) (b' : Board),
      scanTetrasAux p l b = some b' → ScanstepOk b b' := by
  intro l
  induction l with
  | nil =>
    intro b b' h
    simp only [scanTetrasAux, Option.some.injEq] at h
    subst h
    exact ScanstepOk_refl b
  | cons id rest ih =>
    intro b b' h
    simp only [scanTetrasAux] at h
    cases hv : is_tetra? b.grid id p with
    | none => rw [hv] at h; cases h
    | some v =>
      rw [hv] at h
      cases v with
      | false => simp only [Bool.false_eq_true, if_false] at h; exact ih _ _ h
      | true =>
        simp only [if_true] at h
        refine ScanstepOk_trans ?_ (ih _ _ h)
        exact ⟨by simp [FrameSR],
               ⟨fun x hx => hx, fun x hx => hx, fun x hx => mem_hsInsert_of_mem hx,
                fun x hx => hx, fun x hx => hx, fun x hx => hx⟩, by simp⟩

theorem scanRowsAux_spec (p : Player) :
    ∀ (l : List Nat) (b : Board) (b' : Board),
      scanRowsAux p l b = some b' → ScanstepOk b b' := by
  intro l
  induction l with
  | nil =>
    intro b b' h
    simp only [scanRowsAux, Option.some.injEq] at h
    subst h
    exact ScanstepOk_refl b
  | cons r rest ih =>
    intro b b' h
    simp only [scanRowsAux] at h
    cases hv : is_row? b.grid r p with
    | none => rw [hv] at h; cases h
    | some v =>
      rw [hv] at h
      cases v with
      | false => simp only [Bool.false_eq_true, if_false] at h; exact ih _ _ h
      | true =>
        simp only [if_true] at h
        refine ScanstepOk_trans ?_ (ih _ _ h)
        exact ⟨by simp [FrameSR],
               ⟨fun x hx => hx, fun x hx => hx, fun x hx => hx,
                fun x hx => mem_hsInsert_of_mem hx, fun x hx => hx, fun x hx => hx⟩,
               by simp⟩

theorem scanColsAux_spec (p : Player) :
    ∀ (l : List Nat) (b : Board) (b' : Board),
      scanColsAux p l b = some b' → ScanstepOk b b' := by
  intro l
  induction l with
  | nil =>
    intro b b' h
    simp only [scanColsAux, Option.some.injEq] at h
    subst h
    exact ScanstepOk_refl b
  | cons c rest ih =>
    intro b b' h
    simp only [scanColsAux] at h
    cases hv : is_col? b.grid c p with
    | none => rw [hv] at h; cases h
    | some v =>
      rw [hv] at h
      cases v with
      | false => simp only [Bool.false_eq_true, if_false] at h; exact ih _ _ h
      | true =>
        simp only [if_true] at h
        refine ScanstepOk_trans ?_ (ih _ _ h)
        exact ⟨by simp [FrameSR],
               ⟨fun x hx => hx, fun x hx => hx, fun x hx => hx, fun x hx => hx,
                fun x hx => mem_hsInsert_of_mem hx, fun x hx => hx⟩, by simp⟩

theorem scanDragonsAux_spec (p : Player) :
    ∀ (l : List Nat) (b : Board) (b' : Board),
      scanDragonsAux p l b = some b' → ScanstepOk b b' := by
  intro l
  induction l with
  | nil =>
    intro b b' h
    simp only [scanDragonsAux, Option.some.injEq] at h
    subst h
    exact ScanstepOk_refl b
  | cons id rest ih =>
    intro b b' h
    simp only [scanDragonsAux] at h
    cases hv : is_dragon? b.grid id p with
    | none => rw [hv] at h; cases h
    | some v =>
      rw [hv] at h
      cases v with
      | false => simp only [Bool.false_eq_true, if_false] at h; exact ih _ _ h
      | true =>
        simp only [if_true] at h
        refine ScanstepOk_trans ?_ (ih _ _ h)
        exact ⟨by simp [FrameSR],
               ⟨fun x hx => hx, fun x hx => hx, fun x hx => hx, fun x hx => hx,
                fun x hx => hx, fun x hx => mem_hsInsert_of_mem hx⟩, by simp⟩

theorem scanPlayer_spec {b b' : Board} {p : Player}
    (h : scanPlayer b p = some b') : ScanstepOk b b' := by
  unfold scanPlayer at h
  split at h
  · cases h
  next b1 h1 =>
  split at h
  · cases h
  next b2 h2 =>
  split at h
  · cases h
  next b3 h3 =>
  split at h
  · cases h
  next b4 h4 =>
  split at h
  · cases h
  next b5 h5 =>
  exact ScanstepOk_trans (ScanstepOk_trans (ScanstepOk_trans (ScanstepOk_trans
    (ScanstepOk_trans (scanSquaresAux_spec p _ _ _ h1)
      (scanTrisAux_spec p _ _ _ h2))
    (scanTetrasAux_spec p _ _ _ h3))
    (scanRowsAux_spec p _ _ _ h4))
    (scanColsAux_spec p _ _ _ h5))
    (scanDragonsAux_spec p _ _ _ h)

/-- Equality of the six triggered-pattern sets is all `SetsEq` needs. -/
theorem SetsEq_trans {a b c : Board} (h1 : SetsEq a b) (h2 : SetsEq b c) :
    SetsEq a c := by
  obtain ⟨s1, t1, u1, r1, c1, d1⟩ := h1
  obtain ⟨s2, t2, u2, r2, c2, d2⟩ := h2
  exact ⟨s2.trans s1, t2.trans t1, u2.trans u1, r2.trans r1, c2.trans c1, d2.trans d1⟩

/-- Frame: only `reward_black` / `reward_white` may differ. -/
def FrameRW (b b' : Board) : Prop :=
  b'.grid = b.grid ∧ b'.current_player = b.current_player ∧ b'.phase = b.phase ∧
  b'.extra_moves = b.extra_moves ∧ b'.capture_remaining = b.capture_remaining ∧
  b'.capture_turn = b.capture_turn ∧ SetsEq b b' ∧ b'.game_record = b.game_record

theorem update_reward_pieces_spec {b b' : Board}
    (h : update_reward_pieces b = some b') : FrameRW b b' := by
  unfold update_reward_pieces at h
  split at h
  · cases h
  next bp hbp =>
  split at h
  · cases h
  next wp hwp =>
  simp only [Option.some.injEq] at h
  subst h
  simp [FrameRW, SetsEq]

/-- Combined property proved for each `check_rewards_movement` loop: frame
plus a reward-only record delta. -/
def MovstepOk (b b' : Board) : Prop :=
  FrameSR b b' ∧ RecDelta b b' IsRewardA

theorem MovstepOk_refl (b : Board) : MovstepOk b b :=
  ⟨FrameSR_refl b, RecDelta_refl b _⟩

theorem MovstepOk_trans {a b c : Board} (h1 : MovstepOk a b)
    (h2 : MovstepOk b c) : MovstepOk a c :=
  ⟨FrameSR_trans h1.1 h2.1, RecDelta_trans h1.2 h2.2⟩

theorem movSquaresAux_spec (p : Player) :
    ∀ (l : List (Nat × Nat)) (b : Board) (cnt : Nat) (out : Board × Nat),
      movSquaresAux p l b cnt = some out → MovstepOk b out.1 := by
  intro l
  induction l with
  | nil =>
    intro b cnt out h
    simp only [movSquaresAux, Option.some.injEq] at h
    subst h
    exact MovstepOk_refl b
  | cons hd rest ih =>
    intro b cnt out h
    obtain ⟨r, c⟩ := hd
    simp only [movSquaresAux] at h
    cases hv : is_square? b.grid r c p with
    | none => rw [hv] at h; cases h
    | some v =>
      rw [hv] at h
      cases v with
      | false => simp only [Bool.false_eq_true, if_false] at h; exact ih _ _ _ h
      | true =>
        simp only [if_true] at h
        refine MovstepOk_trans ?_ (ih _ _ _ h)
        exact ⟨by simp [FrameSR],
               ⟨[GameAction.reward p (RewardPattern.square (r, c))], rfl,
                by simp [IsRewardA]⟩⟩

theorem movTrisAux_spec (p : Player) :
    ∀ (l : List Nat) (b : Board) (cnt : Nat) (out : Board × Nat),
      movTrisAux p l b cnt = some out → MovstepOk b out.1 := by
  intro l
  induction l with
  | nil =>
    intro b cnt out h
    simp only [movTrisAux, Option.some.injEq] at h
    subst h
    exact MovstepOk_refl b
  | cons id rest ih =>
    intro b cnt out h
    simp only [movTrisAux] at h
    cases hv : is_tri? b.grid id p with
    | none => rw [hv] at h; cases h
    | some v =>
      rw [hv] at h
      cases v with
      | false => simp only [Bool.false_eq_true, if_false] at h; exact ih _ _ _ h
      | true =>
        simp only [if_true] at h
        refine MovstepOk_trans ?_ (ih _ _ _ h)
        exact ⟨by simp [FrameSR],
               ⟨[GameAction.reward p (RewardPattern.tri id)], rfl,
                by simp [IsRewardA]⟩⟩

theorem movTetrasAux_spec (p : Player) :
    ∀ (l : List Nat) (b : Board) (cnt : Nat) (out : Board × Nat),
      movTetrasAux p l b cnt = some out → MovstepOk b out.1 := by
  intro l
  induction l with
  | nil =>
    intro b cnt out h
    simp only [movTetrasAux, Option.some.injEq] at h
    subst h
    exact MovstepOk_refl b
  | cons id rest ih =>
    intro b cnt out h
    simp only [movTetrasAux] at h
    cases hv : is_tetra? b.grid id p with
    | none => rw [hv] at h; cases h
    | some v =>
      rw [hv] at h
      cases v with
      | false => simp only [Bool.false_eq_true, if_false] at h; exact ih _ _ _ h
      | true =>
        simp only [if_true] at h
        refine MovstepOk_trans ?_ (ih _ _ _ h)
        exact ⟨by simp [FrameSR],
               ⟨[GameAction.reward p (RewardPattern.tetra id)], rfl,
                by simp [IsRewardA]⟩⟩

theorem movRowsAux_spec (p : Player) :
    ∀ (l : List Nat) (b : Board) (cnt : Nat) (out : Board × Nat),
      movRowsAux p l b cnt = some out → MovstepOk b out.1 := by
  intro l
  induction l with
  | nil =>
    intro b cnt out h
    simp only [movRowsAux, Option.some.injEq] at h
    subst h
    exact MovstepOk_refl b
  | cons r rest ih =>
    intro b cnt out h
    simp only [movRowsAux] at h
    cases hv : is_row? b.grid r p with
    | none => rw [hv] at h; cases h
    | some v =>
      rw [hv] at h
      cases v with
      | false => simp only [Bool.false_eq_true, if_false] at h; exact ih _ _ _ h
      | true =>
        simp only [if_true] at h
        refine MovstepOk_trans ?_ (ih _ _ _ h)
        exact ⟨by simp [FrameSR],
               ⟨[GameAction.reward p (RewardPattern.row r)], rfl,
                by simp [IsRewardA]⟩⟩

theorem movColsAux_spec (p : Player) :
    ∀ (l : List Nat) (b : Board) (cnt : Nat) (out : Board × Nat),
      movColsAux p l b cnt = some out → MovstepOk b out.1 := by
  intro l
  induction l with
  | nil =>
    intro b cnt out h
    simp only [movColsAux, Option.some.injEq] at h
    subst h
    exact MovstepOk_refl b
  | cons c rest ih =>
    intro b cnt out h
    simp only [movColsAux] at h
    cases hv : is_col? b.grid c p with
    | none => rw [hv] at h; cases h
    | some v =>
      rw [hv] at h
      cases v with
      | false => simp only [Bool.false_eq_true, if_false] at h; exact ih _ _ _ h
      | true =>
        simp only [if_true] at h
        refine MovstepOk_trans ?_ (ih _ _ _ h)
        exact ⟨by simp [FrameSR],
               ⟨[GameAction.reward p (RewardPattern.col c)], rfl,
                by simp [IsRewardA]⟩⟩

theorem movDragonsAux_spec (p : Player) :
    ∀ (l : List Nat) (b : Board) (cnt : Nat) (out : Board × Nat),
      movDragonsAux p l b cnt = some out → MovstepOk b out.1 := by
  intro l
  induction l with
  | nil =>
    intro b cnt out h
    simp only [movDragonsAux, Option.some.injEq] at h
    subst h
    exact MovstepOk_refl b
  | cons id rest ih =>
    intro b cnt out h
    simp only [movDragonsAux] at h
    cases hv : is_dragon? b.grid id p with
    | none => rw [hv] at h; cases h
    | some v =>
      rw [hv] at h
      cases v with
      | false => simp only [Bool.false_eq_true, if_false] at h; exact ih _ _ _ h
      | true =>
        simp only [if_true] at h
        refine MovstepOk_trans ?_ (ih _ _ _ h)
        exact ⟨by simp [FrameSR],
               ⟨[GameAction.reward p (RewardPattern.dragon id)], rfl,
                by simp [IsRewardA]⟩⟩

theorem check_rewards_movement_spec {b : Board} {row col : Nat} {out : Board × Nat}
    (h : check_rewards_movement b row col = some out) :
    FrameSR b out.1 ∧ RecDelta b out.1 IsRewardA := by
  simp only [check_rewards_movement] at h
  split at h
  · cases h
  next b1 c1 h1 =>
  split at h
  · cases h
  next b2 c2 h2 =>
  split at h
  · cases h
  next b3 c3 h3 =>
  split at h
  · cases h
  next b4 c4 h4 =>
  split at h
  · cases h
  next b5 c5 h5 =>
  have s1 := movSquaresAux_spec _ _ _ _ _ h1
  have s2 := movTrisAux_spec _ _ _ _ _ h2
  have s3 := movTetrasAux_spec _ _ _ _ _ h3
  have s4 := movRowsAux_spec _ _ _ _ _ h4
  have s5 := movColsAux_spec _ _ _ _ _ h5
  have s6 := movDragonsAux_spec _ _ _ _ _ h
  have hstep : MovstepOk b
      { b with
        triggered_squares := [], triggered_tris := [], triggered_tetras := [],
        triggered_rows := [], triggered_cols := [], triggered_dragons := [] } :=
    ⟨by simp [FrameSR], RecDelta_refl _ _⟩
  have := MovstepOk_trans (MovstepOk_trans (MovstepOk_trans (MovstepOk_trans
    (MovstepOk_trans (MovstepOk_trans hstep s1) s2) s3) s4) s5) s6
  exact this

theorem Player.opponent_ne (p : Player) : p.opponent ≠ p := by
  cases p <;> simp [Player.opponent]

theorem Player.opponent_opponent (p : Player) : p.opponent.opponent = p := by
  cases p <;> simp [Player.opponent]

/-- The value-replacing map of `hmSet?`/`hmInsert` leaves every key unchanged. -/
theorem hmReplace_keys (m : List (Player × Nat)) (p : Player) (v : Nat) :
    (m.map (fun kv => if kv.1 = p then (p, v) else kv)).map Prod.fst =
      m.map Prod.fst := by
  induction m with
  | nil => simp
  | cons kv rest ih =>
    by_cases hk : kv.1 = p
    · simp [hk, ih]
    · simp [hk, ih]

theorem hmSet?_keys {m m' : List (Player × Nat)} {p : Player} {v : Nat}
    (h : hmSet? m p v = some m') : m'.map Prod.fst = m.map Prod.fst := by
  unfold hmSet? at h
  split at h
  · simp only [Option.some.injEq] at h
    subst h
    exact hmReplace_keys m p v
  · cases h

theorem hmGet_isSome_iff (m : List (Player × Nat)) (p : Player) :
    (hmGet m p).isSome ↔ p ∈ m.map Prod.fst := by
  unfold hmGet
  cases hfind : m.find? (fun kv => decide (kv.1 = p)) with
  | none =>
    simp only [Option.map_none', Option.isSome_none, Bool.false_eq_true, false_iff]
    intro hp
    obtain ⟨x, hx, hpx⟩ := List.mem_map.mp hp
    have := List.find?_eq_none.mp hfind x hx
    simp [hpx] at this
  | some kv0 =>
    simp only [Option.map_some', Option.isSome_some, true_iff]
    have hk0 : kv0.1 = p := by
      have := List.find?_some hfind
      simpa using this
    exact List.mem_map.mpr ⟨kv0, List.mem_of_find?_eq_some hfind, hk0⟩

theorem hmGet_map_replace {m : List (Player × Nat)} {p : Player} {v : Nat}
    (h : (m.find? (fun kv => decide (kv.1 = p))).isSome) :
    hmGet (m.map (fun kv => if kv.1 = p then (p, v) else kv)) p = some v := by
  unfold hmGet
  rw [List.find?_map]
  have hpred : ((fun kv : Player × Nat => decide (kv.1 = p)) ∘
      (fun kv => if kv.1 = p then (p, v) else kv)) =
      (fun kv : Player × Nat => decide (kv.1 = p)) := by
    funext kv
    by_cases hk : kv.1 = p <;> simp [hk]
  rw [hpred]
  obtain ⟨kv0, hkv0⟩ := Option.isSome_iff_exists.mp h
  have hk0 : kv0.1 = p := by
    have := List.find?_some hkv0
    simpa using this
  rw [hkv0]
  simp [hk0]

theorem hmGet_hmSet {m m' : List (Player × Nat)} {p : Player} {v : Nat}
    (h : hmSet? m p v = some m') : hmGet m' p = some v := by
  unfold hmSet? at h
  split at h
  next hfind =>
    simp only [Option.some.injEq] at h
    subst h
    exact hmGet_map_replace hfind
  · cases h

theorem hmGet_hmInsert_self (m : List (Player × Nat)) (p : Player) (v : Nat) :
    hmGet (hmInsert m p v) p = some v := by
  unfold hmInsert
  split
  next hfind => exact hmGet_map_replace hfind
  next hfind =>
    unfold hmGet
    rw [List.find?_append]
    have hnone : m.find? (fun kv => decide (kv.1 = p)) = none :=
      Option.not_isSome_iff_eq_none.mp hfind
    rw [hnone]
    simp

theorem hmGet_hmInsert_other {q p : Player} (hqp : q ≠ p)
    (m : List (Player × Nat)) (v : Nat) :
    hmGet (hmInsert m q v) p = hmGet m p := by
  unfold hmInsert
  split
  · unfold hmGet
    rw [List.find?_map]
    have hpred : ((fun kv : Player × Nat => decide (kv.1 = p)) ∘
        (fun kv => if kv.1 = q then (q, v) else kv)) =
        (fun kv : Player × Nat => decide (kv.1 = p)) := by
      funext kv
      by_cases hk : kv.1 = q
      · simp [hk, hqp]
      · simp [hk]
    rw [hpred]
    cases hfind : m.find? (fun kv => decide (kv.1 = p)) with
    | none => simp
    | some kv0 =>
      have hk0 : kv0.1 = p := by
        have := List.find?_some hfind
        simpa using this
      have hne : ¬ kv0.1 = q := by rw [hk0]; exact fun hh => hqp hh.symm
      simp [hne]
  · unfold hmGet
    rw [List.find?_append]
    have : List.find? (fun kv => decide (kv.1 = p)) [(q, v)] = none := by
      simp [hqp]
    rw [this]
    simp

/-- Replacing the value at a present key changes the sum by exactly the
value difference (duplicate-free keys). -/
theorem hmSum_map_replace :
    ∀ (m : List (Player × Nat)) (p : Player) (v r : Nat),
      (m.map Prod.fst).Nodup → hmGet m p = some r →
      hmSum (m.map (fun kv => if kv.1 = p then (p, v) else kv)) + r =
        hmSum m + v := by
  intro m
  induction m with
  | nil => intro p v r _ hget; simp [hmGet] at hget
  | cons kv rest ih =>
    intro p v r hnd hget
    have hnd2 : (kv.1 :: rest.map Prod.fst).Nodup := by
      simpa using hnd
    have hhead : kv.1 ∉ rest.map Prod.fst := (List.nodup_cons.mp hnd2).1
    have hnd' : (rest.map Prod.fst).Nodup := (List.nodup_cons.mp hnd2).2
    by_cases hk : kv.1 = p
    · have hr : r = kv.2 := by
        unfold hmGet at hget
        rw [List.find?_cons_of_pos _ (by simp [hk])] at hget
        simpa using hget.symm
      have hnotin : p ∉ rest.map Prod.fst := by rwa [hk] at hhead
      have hfix : rest.map (fun kv => if kv.1 = p then (p, v) else kv) = rest := by
        conv_rhs => rw [← List.map_id rest]
        apply List.map_congr_left
        intro kv' hkv'
        have hne : kv'.1 ≠ p := fun hh => hnotin (List.mem_map.mpr ⟨kv', hkv', hh⟩)
        simp [hne]
      simp only [List.map_cons, hk, if_true, hfix]
      simp only [hmSum, List.map_cons, List.sum_cons, hr]
      omega
    · have hget' : hmGet rest p = some r := by
        unfold hmGet at hget ⊢
        rwa [List.find?_cons_of_neg _ (by simp [hk])] at hget
      have hrec := ih p v r hnd' hget'
      simp only [List.map_cons, hk, if_false]
      simp only [hmSum, List.map_cons, List.sum_cons] at hrec ⊢
      omega

theorem hmSet?_of_get {m : List (Player × Nat)} {p : Player} {r : Nat}
    (hget : hmGet m p = some r) (v : Nat) :
    hmSet? m p v = some (m.map (fun kv => if kv.1 = p then (p, v) else kv)) := by
  unfold hmSet?
  have : (m.find? (fun kv => decide (kv.1 = p))).isSome := by
    unfold hmGet at hget
    cases hfind : m.find? (fun kv => decide (kv.1 = p)) with
    | none => rw [hfind] at hget; cases hget
    | some kv0 => simp
  rw [if_pos this]

/-- `calculate_capture_count` reads only the grid and the triggered sets. -/
theorem calculate_capture_count_congr {b b' : Board} (hg : b'.grid = b.grid)
    (hs : SetsEq b b') (p : Player) :
    calculate_capture_count b' p = calculate_capture_count b p := by
  unfold calculate_capture_count
  rw [hg, hs.1, hs.2.1, hs.2.2.1, hs.2.2.2.1, hs.2.2.2.2.1, hs.2.2.2.2.2]

/-- `add_reward_pieces` reads only the grid and the triggered sets. -/
theorem add_reward_pieces_congr {b b' : Board} (hg : b'.grid = b.grid)
    (hs : SetsEq b b') (p : Player) :
    add_reward_pieces b' p = add_reward_pieces b p := by
  unfold add_reward_pieces
  rw [hg, hs.1, hs.2.1, hs.2.2.1, hs.2.2.2.1, hs.2.2.2.2.1, hs.2.2.2.2.2]

theorem Board.eta_rewards (b : Board) :
    ({ b with reward_black := b.reward_black,
              reward_white := b.reward_white } : Board) = b := rfl

/-- Recomputing the protection sets is idempotent. -/
theorem update_reward_pieces_idem {b b' : Board}
    (h : update_reward_pieces b = some b') :
    update_reward_pieces b' = some b' := by
  have hfr := update_reward_pieces_spec h
  unfold update_reward_pieces at h ⊢
  split at h
  · cases h
  next bp hbp =>
  split at h
  · cases h
  next wp hwp =>
  simp only [Option.some.injEq] at h
  have hb : b'.reward_black = bp := by rw [← h]
  have hw : b'.reward_white = wp := by rw [← h]
  rw [add_reward_pieces_congr hfr.1 hfr.2.2.2.2.2.2.1 Player.black, hbp,
      add_reward_pieces_congr hfr.1 hfr.2.2.2.2.2.2.1 Player.white, hwp,
      ← hb, ← hw]

/-- The fixpoint property `update_reward_pieces b = some b` survives changes
to fields other than the grid, the triggered sets and the protection sets. -/
theorem update_reward_pieces_stable (b b' : Board)
    (hg : b'.grid = b.grid) (hs : SetsEq b b')
    (hrb : b'.reward_black = b.reward_black)
    (hrw : b'.reward_white = b.reward_white)
    (h : update_reward_pieces b = some b) :
    update_reward_pieces b' = some b' := by
  unfold update_reward_pieces at h ⊢
  split at h
  · cases h
  next bp hbp =>
  split at h
  · cases h
  next wp hwp =>
  simp only [Option.some.injEq] at h
  have hb : bp = b.reward_black := by rw [← h]
  have hw : wp = b.reward_white := by rw [← h]
  rw [add_reward_pieces_congr hg hs Player.black, hbp,
      add_reward_pieces_congr hg hs Player.white, hwp, hb, hw, ← hrb, ← hrw]

/-- `scan_all_rewards` only changes the triggered sets and the protection
sets; every other field is preserved. -/
theorem scan_all_rewards_spec {b b' : Board} (h : scan_all_rewards b = some b') :
    b'.grid = b.grid ∧ b'.current_player = b.current_player ∧
    b'.phase = b.phase ∧ b'.extra_moves = b.extra_moves ∧
    b'.capture_remaining = b.capture_remaining ∧
    b'.capture_turn = b.capture_turn ∧ b'.game_record = b.game_record := by
  unfold scan_all_rewards at h
  split at h
  · cases h
  next b1 h1 =>
  split at h
  · cases h
  next b2 h2 =>
  have s1 := scanPlayer_spec h1
  have s2 := scanPlayer_spec h2
  have s3 := update_reward_pieces_spec h
  have sc := ScanstepOk_trans s1 s2
  obtain ⟨⟨g12, p12, f12, e12, m12, t12, _, _⟩, _, r12⟩ := sc
  obtain ⟨g3, p3, f3, e3, m3, t3, _, r3⟩ := s3
  exact ⟨g3.trans g12, p3.trans p12, f3.trans f12, e3.trans e12,
         m3.trans m12, t3.trans t12, r3.trans r12⟩

/-- What `enter_capture_phase` establishes: the phase is Capture, the
capture order starts with the opponent of the post-placement current player,
and both stored quotas are the pattern-derived counts over the rescanned
final board. -/
theorem enter_capture_phase_spec {b b' : Board}
    (h : enter_capture_phase b = some b') :
    b'.phase = GamePhase.capture ∧ b'.grid = b.grid ∧
    b'.game_record = b.game_record ∧ b'.extra_moves = b.extra_moves ∧
    b'.capture_turn = b.current_player.opponent ∧
    b'.current_player = b'.capture_turn ∧
    hmGet b'.capture_remaining b'.capture_turn =
      calculate_capture_count b' b'.capture_turn ∧
    hmGet b'.capture_remaining b'.capture_turn.opponent =
      calculate_capture_count b' b'.capture_turn.opponent := by
  simp only [enter_capture_phase] at h
  split at h
  · cases h
  next b2 hscan =>
  split at h
  · cases h
  next fc hfc =>
  split at h
  · cases h
  next sc hsc =>
  simp only [Option.some.injEq] at h
  obtain ⟨hg2, hp2, hf2, he2, hm2, ht2, hr2⟩ := scan_all_rewards_spec hscan
  subst h
  refine ⟨by simp [hf2], by simp [hg2], by simp [hr2], by simp [he2], ?_, ?_, ?_, ?_⟩
  · simp [hp2]
  · simp
  · have hcongr : ∀ q, calculate_capture_count
        { b2 with
          capture_remaining :=
            hmInsert (hmInsert b2.capture_remaining b2.current_player.opponent fc)
              b2.current_player.opponent.opponent sc,
          capture_turn := b2.current_player.opponent,
          current_player := b2.current_player.opponent } q =
        calculate_capture_count b2 q := by
      intro q
      exact calculate_capture_count_congr rfl (by simp [SetsEq]) q
    simp only [hcongr]
    rw [hmGet_hmInsert_other (Player.opponent_ne _) _ _, hmGet_hmInsert_self]
    exact hfc.symm
  · have hcongr : ∀ q, calculate_capture_count
        { b2 with
          capture_remaining :=
            hmInsert (hmInsert b2.capture_remaining b2.current_player.opponent fc)
              b2.current_player.opponent.opponent sc,
          capture_turn := b2.current_player.opponent,
          current_player := b2.current_player.opponent } q =
        calculate_capture_count b2 q := by
      intro q
      exact calculate_capture_count_congr rfl (by simp [SetsEq]) q
    simp only [hcongr]
    rw [hmGet_hmInsert_self]
    exact hsc.symm

/-- What `enter_movement_phase` preserves: everything except the phase, the
current player and the protection sets. -/
theorem enter_movement_phase_spec {b b' : Board}
    (h : enter_movement_phase b = some b') :
    b'.phase = GamePhase.movement ∧ b'.grid = b.grid ∧ SetsEq b b' ∧
    b'.capture_remaining = b.capture_remaining ∧
    b'.game_record = b.game_record ∧ b'.extra_moves = b.extra_moves ∧
    b'.capture_turn = b.capture_turn ∧ update_reward_pieces b' = some b' := by
  simp only [enter_movement_phase] at h
  split at h <;>
  · next =>
    have hfr := update_reward_pieces_spec h
    obtain ⟨g3, p3, f3, e3, m3, t3, hs3, r3⟩ := hfr
    refine ⟨by simp_all, by simp_all, ?_, by simp_all, by simp_all, by simp_all,
            by simp_all, update_reward_pieces_idem h⟩
    exact SetsEq_trans (by simp [SetsEq]) hs3

/-! ### Concrete boards used by counterexamples and witnesses -/

def gB : Cell := Cell.occupied Player.black

def gW : Cell := Cell.occupied Player.white

def gE : Cell := Cell.empty

/-- Movement-phase position: Black owns (4,0)-(4,3) and (3,4); moving
(3,4)→(4,4) completes row 4.  White has five stones, none protected. -/
def C1pre : Board :=
  { grid := [[gW, gW, gW, gW, gE], [gW, gE, gE, gE, gE], [gE, gE, gE, gE, gE],
             [gE, gE, gE, gE, gB], [gB, gB, gB, gB, gE]],
    current_player := Player.black, phase := GamePhase.movement, extra_moves := 0,
    capture_remaining := [], capture_turn := Player.black,
    triggered_squares := [], triggered_tris := [], triggered_tetras := [],
    triggered_rows := [], triggered_cols := [], triggered_dragons := [],
    reward_black := [], reward_white := [], game_record := [] }

/-- Movement-phase position in which Black's move leaves White (2 stones)
immobilized. -/
def C2pre : Board :=
  { grid := [[gW, gW, gE, gE, gE], [gE, gE, gE, gE, gE], [gE, gE, gE, gE, gE],
             [gE, gE, gE, gE, gE], [gB, gB, gB, gE, gE]],
    current_player := Player.black, phase := GamePhase.movement, extra_moves := 0,
    capture_remaining := [], capture_turn := Player.black,
    triggered_squares := [], triggered_tris := [], triggered_tetras := [],
    triggered_rows := [], triggered_cols := [], triggered_dragons := [],
    reward_black := [], reward_white := [], game_record := [] }

/-- Movement-phase position whose triggered-row set still contains row 0
(whose cells changed ownership earlier). -/
def C3pre : Board :=
  { grid := [[gW, gW, gW, gE, gE], [gE, gE, gE, gE, gE], [gE, gE, gE, gE, gE],
             [gE, gE, gE, gE, gE], [gB, gB, gB, gE, gE]],
    current_player := Player.black, phase := GamePhase.movement, extra_moves := 0,
    capture_remaining := [], capture_turn := Player.black,
    triggered_squares := [], triggered_tris := [], triggered_tetras := [],
    triggered_rows := [0], triggered_cols := [], triggered_dragons := [],
    reward_black := [], reward_white := [], game_record := [] }

/-- Placement-phase position where Black's next stone at (1,1) completes the
square anchored at (0,0). -/
def C4pre : Board :=
  { grid := [[gB, gB, gE, gE, gE], [gB, gE, gE, gE, gE], [gE, gE, gW, gW, gE],
             [gE, gE, gE, gW, gE], [gE, gE, gE, gE, gE]],
    current_player := Player.black, phase := GamePhase.placement, extra_moves := 0,
    capture_remaining := [], capture_turn := Player.black,
    triggered_squares := [], triggered_tris := [], triggered_tetras := [],
    triggered_rows := [], triggered_cols := [], triggered_dragons := [],
    reward_black := [], reward_white := [], game_record := [] }

/-- Placement-phase position one stone short of full: Black's last stone at
(3,3) fills the board; White then owns row 0 (quota 2), Black owns no
pattern (quota 0). -/
def C5pre : Board :=
  { grid := [[gW, gW, gW, gW, gW], [gB, gB, gW, gB, gB], [gW, gW, gB, gW, gW],
             [gB, gB, gW, gE, gB], [gW, gW, gB, gW, gW]],
    current_player := Player.black, phase := GamePhase.placement, extra_moves := 0,
    capture_remaining := [], capture_turn := Player.black,
    triggered_squares := [], triggered_tris := [], triggered_tetras := [],
    triggered_rows := [], triggered_cols := [], triggered_dragons := [],
    reward_black := [], reward_white := [], game_record := [] }

/-- Capture-phase position: Black still owes 2 captures, White owes 1;
Black captures at (2,2). -/
def C6pre : Board :=
  { grid := [[gW, gW, gE, gE, gE], [gE, gE, gE, gE, gE], [gE, gE, gW, gE, gE],
             [gE, gE, gE, gB, gE], [gE, gE, gE, gB, gB]],
    current_player := Player.black, phase := GamePhase.capture, extra_moves := 0,
    capture_remaining := [(Player.black, 2), (Player.white, 1)],
    capture_turn := Player.black,
    triggered_squares := [], triggered_tris := [], triggered_tetras := [],
    triggered_rows := [], triggered_cols := [], triggered_dragons := [],
    reward_black := [], reward_white := [], game_record := [] }

/-- C1 counterexample: the Movement-phase move (3,4)→(4,4) completes a full
row of 5 black stones, yet the engine stays in the Movement phase (it never
re-enters Capture), and it executes the two captures itself — the white
stone at (1,0) is already gone when the call returns. -/
theorem c1_counterexample :
    (move_piece C1pre (3, 4) (4, 4)).map
        (fun x => (x.1, x.2.phase, cell? x.2.grid 1 0, x.2.capture_turn)) =
      some (RResult.ok 2, GamePhase.movement, some Cell.empty, Player.black) ∧
    cell? C1pre.grid 1 0 = some (Cell.occupied Player.white) := by
  constructor
  · rfl
  · rfl

/-- C2 counterexample: `move_piece` returns an error (the immobilization
immediate-win signal), yet the board has been mutated — the stone moved from
(4,2) to (3,2) and the move was recorded. -/
theorem c2_counterexample :
    (move_piece C2pre (4, 2) (3, 2)).map
        (fun x => (x.1, cell? x.2.grid 3 2, cell? x.2.grid 4 2,
                   x.2.game_record.length)) =
      some (RResult.err GameErr.moveImmobilized, some (Cell.occupied Player.black),
            some Cell.empty, 1) ∧
    cell? C2pre.grid 3 2 = some Cell.empty ∧ C2pre.game_record.length = 0 := by
  refine ⟨?_, ?_, ?_⟩ <;> rfl

/-- C3 counterexample: pattern id 0 is in `triggered_rows` before a
Movement-phase reward check, and is gone afterwards — the triggered sets are
not append-only across movement reward checks. -/
theorem c3_counterexample :
    0 ∈ C3pre.triggered_rows ∧
    (move_piece C3pre (4, 2) (3, 2)).map
        (fun x => (x.1, x.2.triggered_rows)) =
      some (RResult.ok 0, ([] : List Nat)) := by
  constructor
  · simp [C3pre]
  · rfl

/-- C4 counterexample: after a successful placement that triggers a square,
`reward_pieces` is still empty although the recomputation from the current
grid and triggered sets yields the four square cells — the protection set is
stale after `place_piece`. -/
theorem c4_counterexample :
    (place_piece C4pre 1 1).map
        (fun x => (x.1, x.2.reward_black, x.2.phase,
                   (update_reward_pieces x.2).map (fun y => y.reward_black))) =
      some (RResult.ok 1, ([] : List (Nat × Nat)), GamePhase.placement,
            some [(0, 0), (0, 1), (1, 0), (1, 1)]) := by
  rfl

/-- C5 counterexample: the board becomes full and the engine enters Capture
giving the first capture turn to Black, whose pattern-derived quota is 0,
while White's quota is 2; the engine also stays in Capture (no skip to
Movement happens although the first mover has nothing to capture with). -/
theorem c5_counterexample :
    (place_piece C5pre 3 3).map
        (fun x => (x.1, x.2.phase, x.2.capture_turn, x.2.current_player,
                   hmGet x.2.capture_remaining Player.black,
                   hmGet x.2.capture_remaining Player.white)) =
      some (RResult.ok 0, GamePhase.capture, Player.black, Player.black,
            some 0, some 2) := by
  rfl

/-- C6 counterexample: Black captures at (2,2) and still owes one capture
(`capture_remaining[Black] = 1` afterwards), yet the turn passes to White —
the acting player does not act again. -/
theorem c6_counterexample :
    (capture_piece C6pre 2 2).map
        (fun x => (x.1, x.2.current_player,
                   hmGet x.2.capture_remaining Player.black, x.2.phase)) =
      some (RResult.ok (), Player.white, some 1, GamePhase.capture) := by
  rfl

theorem snd_of_some_eq {α : Type} {x : α × Board} {res : α} {b' : Board}
    (h : some x = some (res, b')) : b' = x.2 := by
  injection h with h1
  rw [h1]

theorem pair_of_some_eq {α : Type} {y : α} {bb : Board} {res : α} {b' : Board}
    (h : some (y, bb) = some (res, b')) : res = y ∧ b' = bb := by
  injection h with h1
  injection h1 with h2 h3
  exact ⟨h2.symm, h3.symm⟩

theorem hmGet_isSome_of_hmSet {m m' : List (Player × Nat)} {p : Player} {v : Nat}
    (h : hmSet? m p v = some m') : (hmGet m p).isSome := by
  unfold hmSet? at h
  split at h
  next hfind =>
    unfold hmGet
    obtain ⟨kv, hkv⟩ := Option.isSome_iff_exists.mp hfind
    rw [hkv]
    rfl
  · cases h

/-- Everything the claims need to know about one `capture_piece` call from
`b` to `b'` with result `res`. -/
def CaptureSpec (b b' : Board) (res : RResult Unit) : Prop :=
  SetsEq b b' ∧
  b'.extra_moves = b.extra_moves ∧
  b'.capture_turn = b.capture_turn ∧
  ((b.capture_remaining.map Prod.fst).Nodup →
    hmSum b'.capture_remaining ≤ hmSum b.capture_remaining) ∧
  (b.phase = GamePhase.capture → b'.phase = GamePhase.movement →
    hmSum b'.capture_remaining = 0) ∧
  (res = RResult.ok () →
    (hmSum b'.capture_remaining = 0 ↔ b'.phase = GamePhase.movement)) ∧
  (res = RResult.ok () → update_reward_pieces b' = some b') ∧
  (res = RResult.ok () → b'.phase = GamePhase.capture →
    (((player_pieces b'.grid b.current_player.opponent).isEmpty = true →
       hmGet b'.capture_remaining b.current_player.opponent = some 0 ∧
       b'.current_player = b.current_player) ∧
     ((player_pieces b'.grid b.current_player.opponent).isEmpty = false →
       b'.current_player = b.current_player.opponent)))

theorem CaptureSpec_errCase (b : Board) (e : GameErr) :
    CaptureSpec b b (RResult.err e) := by
  refine ⟨SetsEq_refl b, rfl, rfl, fun _ => Nat.le_refl _, ?_, ?_, ?_, ?_⟩
  · intro h1 h2
    rw [h1] at h2
    cases h2
  · intro hok; cases hok
  · intro hok; cases hok
  · intro hok; cases hok

theorem capture_piece_spec {b : Board} {row col : Nat} {res : RResult Unit}
    {b' : Board} (h : capture_piece b row col = some (res, b')) :
    CaptureSpec b b' res := by
  simp only [capture_piece] at h
  split at h
  · obtain ⟨hres, hb⟩ := pair_of_some_eq h
    subst hres
    subst hb
    exact CaptureSpec_errCase _ _
  next hph0 =>
  have hph : b.phase = GamePhase.capture := not_not.mp hph0
  split at h
  · obtain ⟨hres, hb⟩ := pair_of_some_eq h
    subst hres
    subst hb
    exact CaptureSpec_errCase _ _
  next remaining hrem =>
  split at h
  · obtain ⟨hres, hb⟩ := pair_of_some_eq h
    subst hres
    subst hb
    exact CaptureSpec_errCase _ _
  next hr0 =>
  split at h
  · obtain ⟨hres, hb⟩ := pair_of_some_eq h
    subst hres
    subst hb
    exact CaptureSpec_errCase _ _
  split at h
  · obtain ⟨hres, hb⟩ := pair_of_some_eq h
    subst hres
    subst hb
    exact CaptureSpec_errCase _ _
  split at h
  · cases h
  · obtain ⟨hres, hb⟩ := pair_of_some_eq h
    subst hres
    subst hb
    exact CaptureSpec_errCase _ _
  next p hcl =>
  split at h
  · obtain ⟨hres, hb⟩ := pair_of_some_eq h
    subst hres
    subst hb
    exact CaptureSpec_errCase _ _
  next hpopp =>
  split at h
  · cases h
  next g1 hg1 =>
  split at h
  · cases h
  next m1 hm1 =>
  split at h
  · cases h
  next b3 hupd =>
  -- shared facts about the mutated mid-state
  have hm1' : hmSet? b.capture_remaining b.current_player (remaining - 1) =
      some m1 := hm1
  have hrw3 := update_reward_pieces_spec hupd
  obtain ⟨hg3, hp3, hf3, he3, hc3, ht3, hs3, hr3⟩ := hrw3
  have hm1map : m1 = b.capture_remaining.map
      (fun kv => if kv.1 = b.current_player then (b.current_player, remaining - 1)
                 else kv) := by
    have h2 := hmSet?_of_get hrem (remaining - 1)
    rw [hm1'] at h2
    exact Option.some.inj h2
  have hkeys1 : m1.map Prod.fst = b.capture_remaining.map Prod.fst :=
    hmSet?_keys hm1'
  have hrem1 : 1 ≤ remaining := Nat.one_le_iff_ne_zero.mpr hr0
  have hsum1 : (b.capture_remaining.map Prod.fst).Nodup →
      hmSum m1 + 1 ≤ hmSum b.capture_remaining := by
    intro hnd
    have := hmSum_map_replace b.capture_remaining b.current_player
      (remaining - 1) remaining hnd hrem
    rw [← hm1map] at this
    omega
  have hsets02 : SetsEq b b3 :=
    SetsEq_trans (by simp [SetsEq]) hs3
  have hcm3 : b3.capture_remaining = m1 := hc3
  have hupdfix : update_reward_pieces b3 = some b3 := update_reward_pieces_idem hupd
  split at h
  next hz =>
    -- all captures done: enter Movement
    split at h
    · cases h
    next b4 hent =>
    obtain ⟨hres, hb⟩ := pair_of_some_eq h
    subst hres
    subst hb
    obtain ⟨ef, eg, es, ec, er, ee, et, efix⟩ := enter_movement_phase_spec hent
    have hsum4 : hmSum b'.capture_remaining = 0 := by
      rw [ec]
      exact hz
    refine ⟨SetsEq_trans hsets02 es, ee.trans he3, et.trans ht3, ?_, ?_, ?_, ?_, ?_⟩
    · intro hnd
      rw [ec, hcm3]
      have := hsum1 hnd
      omega
    · intro _ _
      exact hsum4
    · intro _
      simp [hsum4, ef]
    · intro _
      exact efix
    · intro _ hcap
      rw [ef] at hcap
      cases hcap
  next hz =>
    split at h
    next hemp =>
      -- the opponent has no pieces at all: forfeit the next player's debt
      split at h
      · cases h
      next m2 hm2 =>
      have hm2' : hmSet? m1 b.current_player.opponent 0 = some m2 := by
        rw [← hcm3]
        exact hm2
      have hget2 : (hmGet m1 b.current_player.opponent).isSome :=
        hmGet_isSome_of_hmSet hm2'
      obtain ⟨r2, hr2⟩ := Option.isSome_iff_exists.mp hget2
      have hm2map : m2 = m1.map
          (fun kv => if kv.1 = b.current_player.opponent then
            (b.current_player.opponent, 0) else kv) := by
        have h2 := hmSet?_of_get hr2 0
        rw [hm2'] at h2
        exact Option.some.inj h2
      have hsum2 : (b.capture_remaining.map Prod.fst).Nodup →
          hmSum m2 ≤ hmSum m1 := by
        intro hnd
        have hnd1 : (m1.map Prod.fst).Nodup := by rw [hkeys1]; exact hnd
        have := hmSum_map_replace m1 b.current_player.opponent 0 r2 hnd1 hr2
        rw [← hm2map] at this
        omega
      have hget20 : hmGet m2 b.current_player.opponent = some 0 :=
        hmGet_hmSet hm2'
      split at h
      next hz2 =>
        split at h
        · cases h
        next b5 hent =>
        obtain ⟨hres, hb⟩ := pair_of_some_eq h
        subst hres
        subst hb
        obtain ⟨ef, eg, es, ec, er, ee, et, efix⟩ := enter_movement_phase_spec hent
        have hsum5 : hmSum b'.capture_remaining = 0 := by
          rw [ec]
          exact hz2
        refine ⟨?_, ?_, ?_, ?_, ?_, ?_, ?_, ?_⟩
        · refine SetsEq_trans ?_ es
          exact SetsEq_trans hsets02 (by simp [SetsEq])
        · exact ee.trans he3
        · exact et.trans ht3
        · intro hnd
          rw [ec]
          have h1 := hsum1 hnd
          have h2 := hsum2 hnd
          show hmSum m2 ≤ hmSum b.capture_remaining
          omega
        · intro _ _
          exact hsum5
        · intro _
          simp [hsum5, ef]
        · intro _
          exact efix
        · intro _ hcap
          rw [ef] at hcap
          cases hcap
      next hz2 =>
        obtain ⟨hres, hb⟩ := pair_of_some_eq h
        subst hres
        subst hb
        refine ⟨?_, he3, ht3, ?_, ?_, ?_, ?_, ?_⟩
        · exact SetsEq_trans hsets02 (by simp [SetsEq])
        · intro hnd
          have h1 := hsum1 hnd
          have h2 := hsum2 hnd
          show hmSum m2 ≤ hmSum b.capture_remaining
          omega
        · intro _ hmov
          have hx : b3.phase = GamePhase.movement := hmov
          rw [hf3] at hx
          have hy : b.phase = GamePhase.movement := hx
          rw [hph] at hy
          cases hy
        · intro _
          constructor
          · intro hz0
            exact absurd hz0 hz2
          · intro hmov
            have hx : b3.phase = GamePhase.movement := hmov
            rw [hf3] at hx
            have hy : b.phase = GamePhase.movement := hx
            rw [hph] at hy
            cases hy
        · intro _
          exact update_reward_pieces_stable b3 _ rfl (by simp [SetsEq]) rfl rfl hupdfix
        · intro _ _
          constructor
          · intro _
            refine ⟨hget20, ?_⟩
            exact Player.opponent_opponent b.current_player
          · intro hfalse
            have htrue : (player_pieces b3.grid b.current_player.opponent).isEmpty
                = true := hemp
            rw [htrue] at hfalse
            cases hfalse
    next hemp =>
      -- the opponent still has pieces: hand the turn to them
      split at h
      next hturn =>
        split at h
        · cases h
        next hm hhm =>
        split at h
        next hnm =>
          obtain ⟨hres, hb⟩ := pair_of_some_eq h
          subst hres
          subst hb
          refine ⟨?_, he3, ht3, ?_, ?_, ?_, ?_, ?_⟩
          · exact SetsEq_trans hsets02 (by simp [SetsEq])
          · intro hnd
            have h1 := hsum1 hnd
            show hmSum b3.capture_remaining ≤ hmSum b.capture_remaining
            rw [hcm3]
            omega
          · intro _ hmov
            have hx : b3.phase = GamePhase.movement := hmov
            rw [hf3] at hx
            have hy : b.phase = GamePhase.movement := hx
            rw [hph] at hy
            cases hy
          · intro hok
            cases hok
          · intro hok
            cases hok
          · intro hok
            cases hok
        · obtain ⟨hres, hb⟩ := pair_of_some_eq h
          subst hres
          subst hb
          refine ⟨?_, he3, ht3, ?_, ?_, ?_, ?_, ?_⟩
          · exact SetsEq_trans hsets02 (by simp [SetsEq])
          · intro hnd
            have h1 := hsum1 hnd
            show hmSum b3.capture_remaining ≤ hmSum b.capture_remaining
            rw [hcm3]
            omega
          · intro _ hmov
            have hx : b3.phase = GamePhase.movement := hmov
            rw [hf3] at hx
            have hy : b.phase = GamePhase.movement := hx
            rw [hph] at hy
            cases hy
          · intro _
            constructor
            · intro hz0
              have hz0x : hmSum b3.capture_remaining = 0 := hz0
              exact absurd hz0x hz
            · intro hmov
              have hx : b3.phase = GamePhase.movement := hmov
              rw [hf3] at hx
              have hy : b.phase = GamePhase.movement := hx
              rw [hph] at hy
              cases hy
          · intro _
            exact update_reward_pieces_stable b3 _ rfl (by simp [SetsEq]) rfl rfl hupdfix
          · intro _ _
            constructor
            · intro htrue
              have hfalse : ¬ ((player_pieces b3.grid b.current_player.opponent).isEmpty
                  = true) := hemp
              exact absurd htrue hfalse
            · intro _
              rfl
      · obtain ⟨hres, hb⟩ := pair_of_some_eq h
        subst hres
        subst hb
        refine ⟨?_, he3, ht3, ?_, ?_, ?_, ?_, ?_⟩
        · exact SetsEq_trans hsets02 (by simp [SetsEq])
        · intro hnd
          have h1 := hsum1 hnd
          show hmSum b3.capture_remaining ≤ hmSum b.capture_remaining
          rw [hcm3]
          omega
        · intro _ hmov
          have hx : b3.phase = GamePhase.movement := hmov
          rw [hf3] at hx
          have hy : b.phase = GamePhase.movement := hx
          rw [hph] at hy
          cases hy
        · intro _
          constructor
          · intro hz0
            have hz0x : hmSum b3.capture_remaining = 0 := hz0
            exact absurd hz0x hz
          · intro hmov
            have hx : b3.phase = GamePhase.movement := hmov
            rw [hf3] at hx
            have hy : b.phase = GamePhase.movement := hx
            rw [hph] at hy
            cases hy
        · intro _
          exact update_reward_pieces_stable b3 _ rfl (by simp [SetsEq]) rfl rfl hupdfix
        · intro _ _
          constructor
          · intro htrue
            have hfalse : ¬ ((player_pieces b3.grid b.current_player.opponent).isEmpty
                = true) := hemp
            exact absurd htrue hfalse
          · intro _
            rfl

/-- Everything the claims need to know about one `place_piece` call from
`b` to `b'` with result `res`. -/
def PlaceSpec (b b' : Board) (res : RResult Nat) (row col : Nat) : Prop :=
  (∀ e, res = RResult.err e → b' = b) ∧
  (b.phase ≠ GamePhase.placement → b' = b) ∧
  (b'.phase = GamePhase.placement → SetsSub b b') ∧
  (∀ n, res = RResult.ok n →
    (b'.phase ≠ GamePhase.movement ∧
     (b'.phase = GamePhase.capture ↔ is_full b'.grid = true) ∧
     (b'.phase = GamePhase.capture →
       b'.current_player = b'.capture_turn ∧
       hmGet b'.capture_remaining b'.capture_turn =
         calculate_capture_count b' b'.capture_turn ∧
       hmGet b'.capture_remaining b'.capture_turn.opponent =
         calculate_capture_count b' b'.capture_turn.opponent))) ∧
  ((b' = b ∧ b'.game_record = b.game_record) ∨
   (∃ rest, b'.game_record = b.game_record ++
      GameAction.place b.current_player (row, col) :: rest ∧
      ∀ a ∈ rest, IsRewardA a))

theorem PlaceSpec_errCase (b : Board) (e : GameErr) (row col : Nat) :
    PlaceSpec b b (RResult.err e) row col := by
  refine ⟨fun _ _ => rfl, fun _ => rfl, fun _ => SetsSub_refl b, ?_,
          Or.inl ⟨rfl, rfl⟩⟩
  intro n hn
  cases hn

theorem place_piece_spec {b : Board} {row col : Nat} {res : RResult Nat}
    {b' : Board} (h : place_piece b row col = some (res, b')) :
    PlaceSpec b b' res row col := by
  simp only [place_piece] at h
  split at h
  · obtain ⟨hres, hb⟩ := pair_of_some_eq h
    subst hres
    subst hb
    exact PlaceSpec_errCase _ _ _ _
  next hph0 =>
  have hph : b.phase = GamePhase.placement := not_not.mp hph0
  split at h
  · obtain ⟨hres, hb⟩ := pair_of_some_eq h
    subst hres
    subst hb
    exact PlaceSpec_errCase _ _ _ _
  split at h
  · cases h
  next cl hcl =>
  split at h
  · obtain ⟨hres, hb⟩ := pair_of_some_eq h
    subst hres
    subst hb
    exact PlaceSpec_errCase _ _ _ _
  next hclE =>
  split at h
  · cases h
  next g1 hg1 =>
  split at h
  · cases h
  next b2 extra hcr =>
  obtain ⟨cfr, csub, crec⟩ := check_rewards_spec hcr
  obtain ⟨cg, cp, cf, ce, cm, ct, crb, crw⟩ := cfr
  obtain ⟨drec, hdrec, hdall⟩ := crec
  have fullLeaf : ∀ {b4 : Board} {b3 : Board},
      enter_capture_phase b3 = some b4 →
      is_full b3.grid = true →
      b3.game_record = b2.game_record →
      PlaceSpec b b4 (RResult.ok extra) row col := by
    intro b4 b3 hent hfull hrec3
    obtain ⟨ef, eg, er, ee, et, ecur, eq1, eq2⟩ := enter_capture_phase_spec hent
    refine ⟨?_, ?_, ?_, ?_, ?_⟩
    · intro e he
      cases he
    · intro hne
      exact absurd hph hne
    · intro hpl
      rw [ef] at hpl
      cases hpl
    · intro n _
      refine ⟨?_, ?_, ?_⟩
      · rw [ef]
        intro hx
        cases hx
      · constructor
        · intro _
          rw [eg]
          exact hfull
        · intro _
          exact ef
      · intro _
        exact ⟨ecur, eq1, eq2⟩
    · refine Or.inr ⟨drec, ?_, hdall⟩
      rw [er, hrec3, hdrec]
      show (b.game_record ++ [GameAction.place b.current_player (row, col)]) ++ drec = _
      rw [List.append_assoc]
      rfl
  have notFullLeaf : ∀ {b3 : Board},
      b3.phase = b2.phase →
      b3.game_record = b2.game_record →
      SetsSub b2 b3 →
      ¬ (is_full b3.grid = true) →
      PlaceSpec b b3 (RResult.ok extra) row col := by
    intro b3 hphase3 hrec3 hsub3 hfull
    have hphase' : b3.phase = b.phase := by
      rw [hphase3]
      exact cf
    refine ⟨?_, ?_, ?_, ?_, ?_⟩
    · intro e he
      cases he
    · intro hne
      exact absurd hph hne
    · intro _
      have h01 : SetsSub b { b with
          grid := g1,
          game_record := b.game_record ++
            [GameAction.place b.current_player (row, col)] } :=
        ⟨fun x hx => hx, fun x hx => hx, fun x hx => hx, fun x hx => hx,
         fun x hx => hx, fun x hx => hx⟩
      exact SetsSub_trans (SetsSub_trans h01 csub) hsub3
    · intro n _
      have hphpl : b3.phase = GamePhase.placement := by
        rw [hphase']
        exact hph
      refine ⟨?_, ?_, ?_⟩
      · rw [hphpl]
        intro hx
        cases hx
      · constructor
        · intro hcap
          rw [hphpl] at hcap
          cases hcap
        · intro hfl
          exact absurd hfl hfull
      · intro hcap
        rw [hphpl] at hcap
        cases hcap
    · refine Or.inr ⟨drec, ?_, hdall⟩
      rw [hrec3, hdrec]
      show (b.game_record ++ [GameAction.place b.current_player (row, col)]) ++ drec = _
      rw [List.append_assoc]
      rfl
  split at h
  next hem =>
    split at h
    next hfull =>
      split at h
      · cases h
      next b4 hent =>
        obtain ⟨hres, hb⟩ := pair_of_some_eq h
        subst hres
        subst hb
        exact fullLeaf hent hfull rfl
    next hfull =>
      obtain ⟨hres, hb⟩ := pair_of_some_eq h
      subst hres
      subst hb
      exact notFullLeaf rfl rfl (SetsSub_refl b2) hfull
  next hem =>
    split at h
    next hfull =>
      split at h
      · cases h
      next b4 hent =>
        obtain ⟨hres, hb⟩ := pair_of_some_eq h
        subst hres
        subst hb
        exact fullLeaf hent hfull rfl
    next hfull =>
      obtain ⟨hres, hb⟩ := pair_of_some_eq h
      subst hres
      subst hb
      exact notFullLeaf rfl rfl (SetsSub_refl b2) hfull

/-- `move_piece` never changes the phase, the capture turn, the pending
capture counts or the bonus-placement counter, on any input and outcome. -/
theorem move_piece_frame {b : Board} {src dst : Nat × Nat} {res : RResult Nat}
    {b' : Board} (h : move_piece b src dst = some (res, b')) :
    b'.phase = b.phase ∧ b'.capture_turn = b.capture_turn ∧
    b'.capture_remaining = b.capture_remaining ∧
    b'.extra_moves = b.extra_moves := by
  simp only [move_piece] at h
  split at h
  · have hb := snd_of_some_eq h
    subst hb
    exact ⟨rfl, rfl, rfl, rfl⟩
  split at h
  · have hb := snd_of_some_eq h
    subst hb
    exact ⟨rfl, rfl, rfl, rfl⟩
  split at h
  · cases h
  · have hb := snd_of_some_eq h
    subst hb
    exact ⟨rfl, rfl, rfl, rfl⟩
  next p hp =>
  split at h
  · have hb := snd_of_some_eq h
    subst hb
    exact ⟨rfl, rfl, rfl, rfl⟩
  split at h
  · cases h
  next cl2 hcl2 =>
  split at h
  · have hb := snd_of_some_eq h
    subst hb
    exact ⟨rfl, rfl, rfl, rfl⟩
  split at h
  · have hb := snd_of_some_eq h
    subst hb
    exact ⟨rfl, rfl, rfl, rfl⟩
  split at h
  · cases h
  next g1 hg1 =>
  split at h
  · cases h
  next g2 hg2 =>
  split at h
  · cases h
  next b2 capture_count hcrm =>
  have hfr2 := (check_rewards_movement_spec hcrm).1
  split at h
  · cases h
  next b5 actual hstep =>
  have hfr5 : b5.phase = b2.phase ∧ b5.capture_turn = b2.capture_turn ∧
      b5.capture_remaining = b2.capture_remaining ∧
      b5.extra_moves = b2.extra_moves := by
    split at hstep
    · split at hstep
      · cases hstep
      next g3 rec3 hpop =>
        split at hstep
        · cases hstep
        next b4 hupd =>
          have hrw := update_reward_pieces_spec hupd
          injection hstep with hstep1
          injection hstep1 with hb5 hact
          subst hb5
          exact ⟨hrw.2.2.1, hrw.2.2.2.2.2.1, hrw.2.2.2.2.1, hrw.2.2.2.1⟩
    · injection hstep with hstep1
      injection hstep1 with hb5 hact
      subst hb5
      exact ⟨rfl, rfl, rfl, rfl⟩
  split at h
  · cases h
  next hm hhm =>
  obtain ⟨hg2', hcp2, hf2, he2, hm2, ht2, _, _⟩ := hfr2
  split at h
  · have hb := snd_of_some_eq h
    subst hb
    exact ⟨hfr5.1.trans hf2, hfr5.2.1.trans ht2, hfr5.2.2.1.trans hm2,
           hfr5.2.2.2.trans he2⟩
  · have hb := snd_of_some_eq h
    subst hb
    exact ⟨hfr5.1.trans hf2, hfr5.2.1.trans ht2, hfr5.2.2.1.trans hm2,
           hfr5.2.2.2.trans he2⟩

/-- The auto-capture loop only appends `Capture` actions to the record. -/
theorem popCapture?_spec (player : Player) :
    ∀ (n : Nat) (g : List (List Cell)) (recs : List GameAction)
      (lst : List (Nat × Nat)) (out : List (List Cell) × List GameAction),
      popCapture? player g recs lst n = some out →
      ∃ d, out.2 = recs ++ d ∧ ∀ a ∈ d, IsCaptureA a := by
  intro n
  induction n with
  | zero =>
    intro g recs lst out h
    simp only [popCapture?, Option.some.injEq] at h
    subst h
    exact ⟨[], by simp, by simp⟩
  | succ k ih =>
    intro g recs lst out h
    simp only [popCapture?] at h
    split at h
    · exact ih _ _ _ _ h
    next pos hl =>
      split at h
      · cases h
      next g1 hs =>
        obtain ⟨d, hd, hall⟩ := ih _ _ _ _ h
        refine ⟨GameAction.capture player pos :: d, ?_, ?_⟩
        · rw [hd, List.append_assoc]
          simp
        · intro a ha
          rcases List.mem_cons.mp ha with ha | ha
          · subst ha; simp [IsCaptureA]
          · exact hall a ha

/-- `move_piece` outside the Movement phase is a pure error with no state
change. -/
theorem move_piece_wrong_phase {b : Board} (hph : b.phase ≠ GamePhase.movement)
    (src dst : Nat × Nat) :
    move_piece b src dst = some (RResult.err GameErr.wrongPhaseMovement, b) := by
  unfold move_piece
  rw [if_pos hph]

/-- `place_piece` outside the Placement phase is a pure error with no state
change. -/
theorem place_piece_wrong_phase {b : Board} (hph : b.phase ≠ GamePhase.placement)
    (row col : Nat) :
    place_piece b row col = some (RResult.err GameErr.wrongPhasePlacement, b) := by
  unfold place_piece
  rw [if_pos hph]

/-- C1 (amended): a Movement-phase move never re-enters the Capture phase —
`move_piece` leaves the phase, `capture_turn` and the pending-capture map
unchanged on every input and outcome; when a move completes reward patterns
the captures are executed inside the call itself (see `c1_counterexample`)
and the count returned is the number actually captured. -/
theorem c1_movement_never_reenters_capture (b : Board) (src dst : Nat × Nat) :
    (move_piece b src dst).map
        (fun x => (x.2.phase, x.2.capture_turn, x.2.capture_remaining)) =
      (move_piece b src dst).map
        (fun _ => (b.phase, b.capture_turn, b.capture_remaining)) := by
  cases h : move_piece b src dst with
  | none => rfl
  | some x =>
    obtain ⟨res, b'⟩ := x
    have hf := move_piece_frame h
    simp only [Option.map_some']
    rw [hf.1, hf.2.1, hf.2.2.1]

set_option maxHeartbeats 2000000 in
/-- C2 (amended): every validation error leaves the board exactly as it was;
the only errors returned after mutation are the two immobilization
immediate-win signals (`captureImmobilized`, `moveImmobilized`), which are
reported through the error channel with the action already applied (see
`c2_counterexample`). -/
theorem c2_validation_errors_no_mutation :
    (∀ (b : Board) (row col : Nat) (e : GameErr) (b' : Board),
      place_piece b row col = some (RResult.err e, b') → b' = b) ∧
    (∀ (b : Board) (row col : Nat) (e : GameErr) (b' : Board),
      capture_piece b row col = some (RResult.err e, b') →
      e ≠ GameErr.captureImmobilized → b' = b) ∧
    (∀ (b : Board) (src dst : Nat × Nat) (e : GameErr) (b' : Board),
      move_piece b src dst = some (RResult.err e, b') →
      e ≠ GameErr.moveImmobilized → b' = b) := by
  refine ⟨?_, ?_, ?_⟩
  · intro b row col e b' h
    exact (place_piece_spec h).1 e rfl
  · intro b row col e b' h hne
    simp only [capture_piece] at h
    split at h
    · exact (pair_of_some_eq h).2
    split at h
    · exact (pair_of_some_eq h).2
    split at h
    · exact (pair_of_some_eq h).2
    split at h
    · exact (pair_of_some_eq h).2
    split at h
    · exact (pair_of_some_eq h).2
    split at h
    · cases h
    · exact (pair_of_some_eq h).2
    split at h
    · exact (pair_of_some_eq h).2
    split at h
    · cases h
    split at h
    · cases h
    split at h
    · cases h
    split at h
    · split at h
      · cases h
      · obtain ⟨hres, -⟩ := pair_of_some_eq h
        cases hres
    · split at h
      · split at h
        · cases h
        · split at h
          · split at h
            · cases h
            · obtain ⟨hres, -⟩ := pair_of_some_eq h
              cases hres
          · obtain ⟨hres, -⟩ := pair_of_some_eq h
            cases hres
      · split at h
        · split at h
          · cases h
          · split at h
            · obtain ⟨hres, -⟩ := pair_of_some_eq h
              injection hres with he
              exact absurd he hne
            · obtain ⟨hres, -⟩ := pair_of_some_eq h
              cases hres
        · obtain ⟨hres, -⟩ := pair_of_some_eq h
          cases hres
  · intro b src dst e b' h hne
    simp only [move_piece] at h
    split at h
    · exact (pair_of_some_eq h).2
    split at h
    · exact (pair_of_some_eq h).2
    split at h
    · cases h
    · exact (pair_of_some_eq h).2
    next p hp =>
    split at h
    · exact (pair_of_some_eq h).2
    split at h
    · cases h
    next cl2 hcl2 =>
    split at h
    · exact (pair_of_some_eq h).2
    split at h
    · exact (pair_of_some_eq h).2
    split at h
    · cases h
    next g1 hg1 =>
    split at h
    · cases h
    next g2 hg2 =>
    split at h
    · cases h
    next b2 capture_count hcrm =>
    split at h
    · cases h
    next b5 actual hstep =>
    split at h
    · cases h
    next hm hhm =>
    split at h
    · obtain ⟨hres, -⟩ := pair_of_some_eq h
      injection hres with he
      exact absurd he hne
    · obtain ⟨hres, -⟩ := pair_of_some_eq h
      cases hres

def C4post : Board :=
  ((place_piece C4pre 1 1).getD (RResult.err GameErr.invalidPos, C4pre)).2

def C5post : Board :=
  ((place_piece C5pre 3 3).getD (RResult.err GameErr.invalidPos, C5pre)).2

def C6post : Board :=
  ((capture_piece C6pre 2 2).getD (RResult.err GameErr.invalidPos, C6pre)).2

/-- C2 witness: a concrete failed capture (empty cell) and a concrete failed
move (not the mover's stone) both leave their boards untouched. -/
theorem c2_witness : C6pre = C6pre ∧ C1pre = C1pre :=
  ⟨c2_validation_errors_no_mutation.2.1 C6pre 3 0 GameErr.emptyCell C6pre
      (by rfl) (by decide),
   c2_validation_errors_no_mutation.2.2 C1pre (0, 0) (0, 1) GameErr.notOwnPiece
      C1pre (by rfl) (by decide)⟩

/-- C3 (amended): the triggered-pattern sets are append-only across
placement-phase reward checks (any `place_piece` that stays in Placement)
and across `capture_piece` (which never touches them); the transition into
Capture and the Movement-phase reward check instead clear and rescan the
sets, so pattern ids can disappear there (see `c3_counterexample`). -/
theorem c3_append_only_outside_rescans :
    (∀ (b : Board) (row col : Nat) (res : RResult Nat) (b' : Board),
      place_piece b row col = some (res, b') →
      b'.phase = GamePhase.placement → SetsSub b b') ∧
    (∀ (b : Board) (row col : Nat) (res : RResult Unit) (b' : Board),
      capture_piece b row col = some (res, b') → SetsEq b b') := by
  constructor
  · intro b row col res b' h hpl
    exact (place_piece_spec h).2.2.1 hpl
  · intro b row col res b' h
    exact (capture_piece_spec h).1

/-- C3 witness: the concrete placement completing a square keeps every
previously-triggered id, and the concrete capture leaves the sets equal. -/
theorem c3_witness : SetsSub C4pre C4post ∧ SetsEq C6pre C6post :=
  ⟨c3_append_only_outside_rescans.1 C4pre 1 1 (RResult.ok 1) C4post
      (by rfl) (by rfl),
   c3_append_only_outside_rescans.2 C6pre 2 2 (RResult.ok ()) C6post (by rfl)⟩

/-- C4 (amended): after every successful `capture_piece`, `reward_pieces`
is exactly the recomputation from the current grid filtered against the
triggered sets (recomputing it again is the identity); a placement that does
not fill the board and a zero-reward move skip the recomputation and can
leave `reward_pieces` stale (see `c4_counterexample`). -/
theorem c4_capture_recomputes_protection (b : Board) (row col : Nat)
    (b' : Board) (h : capture_piece b row col = some (RResult.ok (), b')) :
    update_reward_pieces b' = some b' :=
  (capture_piece_spec h).2.2.2.2.2.2.1 rfl

/-- C4 witness: the concrete capture's post-state is a fixpoint of the
protection-set recomputation. -/
theorem c4_witness : update_reward_pieces C6post = some C6post :=
  c4_capture_recomputes_protection C6pre 2 2 C6post (by rfl)

/-- C5 (amended): on the placement that fills the board the engine always
enters Capture (never Movement): `capture_turn` and `current_player` are
set to the opponent of the post-placement current player regardless of
quotas or available targets, and both stored quotas equal the
pattern-derived counts recomputed from the full board (see
`c5_counterexample` for a first capturer with quota 0). -/
theorem c5_board_full_enters_capture (b : Board) (row col : Nat) (n : Nat)
    (b' : Board) (h : place_piece b row col = some (RResult.ok n, b')) :
    b'.phase ≠ GamePhase.movement ∧
    (b'.phase = GamePhase.capture ↔ is_full b'.grid = true) ∧
    (b'.phase = GamePhase.capture →
      b'.current_player = b'.capture_turn ∧
      hmGet b'.capture_remaining b'.capture_turn =
        calculate_capture_count b' b'.capture_turn ∧
      hmGet b'.capture_remaining b'.capture_turn.opponent =
        calculate_capture_count b' b'.capture_turn.opponent) :=
  (place_piece_spec h).2.2.2.1 n rfl

/-- C5 witness: the concrete board-filling placement enters Capture with
both quotas equal to the recomputed pattern counts. -/
theorem c5_witness :
    C5post.phase ≠ GamePhase.movement ∧
    (C5post.phase = GamePhase.capture ↔ is_full C5post.grid = true) ∧
    (C5post.phase = GamePhase.capture →
      C5post.current_player = C5post.capture_turn ∧
      hmGet C5post.capture_remaining C5post.capture_turn =
        calculate_capture_count C5post C5post.capture_turn ∧
      hmGet C5post.capture_remaining C5post.capture_turn.opponent =
        calculate_capture_count C5post C5post.capture_turn.opponent) :=
  c5_board_full_enters_capture C5pre 3 3 0 C5post (by rfl)

/-- C6 (amended): after a successful capture that leaves the phase in
Capture, the turn is never kept by the acting player: it passes to the
opponent whenever the opponent has at least one stone on the board; only
when the opponent has no stones at all is the opponent's debt zeroed and
the turn returned to the actor (see `c6_counterexample` for the actor
still owing a capture yet losing the turn). -/
theorem c6_turn_always_passes (b : Board) (row col : Nat) (b' : Board)
    (h : capture_piece b row col = some (RResult.ok (), b'))
    (hcap : b'.phase = GamePhase.capture) :
    ((player_pieces b'.grid b.current_player.opponent).isEmpty = true →
      hmGet b'.capture_remaining b.current_player.opponent = some 0 ∧
      b'.current_player = b.current_player) ∧
    ((player_pieces b'.grid b.current_player.opponent).isEmpty = false →
      b'.current_player = b.current_player.opponent) :=
  (capture_piece_spec h).2.2.2.2.2.2.2 rfl hcap

/-- C6 witness: the concrete capture hands the turn to the opponent. -/
theorem c6_witness :
    ((player_pieces C6post.grid Player.white).isEmpty = true →
      hmGet C6post.capture_remaining Player.white = some 0 ∧
      C6post.current_player = Player.black) ∧
    ((player_pieces C6post.grid Player.white).isEmpty = false →
      C6post.current_player = Player.white) :=
  c6_turn_always_passes C6pre 2 2 C6post (by rfl) (by rfl)

/-- C7 (confirmed): during the Capture phase the total pending count never
increases — `capture_piece` strictly consumes it (assuming the well-formed,
duplicate-free key map the HashMap guarantees), `place_piece` and
`move_piece` are no-ops in that phase — and the phase transitions to
Movement exactly when the total reaches 0: a successful capture ends in
Movement iff the total is 0 afterwards, and no capture-phase call can reach
Movement with a positive total. -/
theorem c7_pending_total_monotone_and_exact_transition :
    (∀ (b : Board) (row col : Nat) (res : RResult Unit) (b' : Board),
      capture_piece b row col = some (res, b') →
      ((b.capture_remaining.map Prod.fst).Nodup →
        hmSum b'.capture_remaining ≤ hmSum b.capture_remaining) ∧
      (b.phase = GamePhase.capture → b'.phase = GamePhase.movement →
        hmSum b'.capture_remaining = 0) ∧
      (res = RResult.ok () →
        (hmSum b'.capture_remaining = 0 ↔ b'.phase = GamePhase.movement))) ∧
    (∀ (b : Board) (row col : Nat) (res : RResult Nat) (b' : Board),
      b.phase = GamePhase.capture → place_piece b row col = some (res, b') →
      b' = b) ∧
    (∀ (b : Board) (src dst : Nat × Nat) (res : RResult Nat) (b' : Board),
      b.phase = GamePhase.capture → move_piece b src dst = some (res, b') →
      b' = b) := by
  refine ⟨?_, ?_, ?_⟩
  · intro b row col res b' h
    have hs := capture_piece_spec h
    exact ⟨hs.2.2.2.1, hs.2.2.2.2.1, hs.2.2.2.2.2.1⟩
  · intro b row col res b' hph h
    refine (place_piece_spec h).2.1 ?_
    rw [hph]
    intro hx
    cases hx
  · intro b src dst res b' hph h
    have hmw : move_piece b src dst =
        some (RResult.err GameErr.wrongPhaseMovement, b) := by
      refine move_piece_wrong_phase ?_ src dst
      rw [hph]
      intro hx
      cases hx
    rw [hmw] at h
    exact (pair_of_some_eq h).2

/-- C7 witness: the concrete capture decreases the pending total from 3 to
2 and stays in Capture; placement and movement commands in the Capture
phase leave the concrete board untouched. -/
theorem c7_witness :
    (((C6pre.capture_remaining.map Prod.fst).Nodup →
        hmSum C6post.capture_remaining ≤ hmSum C6pre.capture_remaining) ∧
     (C6pre.phase = GamePhase.capture → C6post.phase = GamePhase.movement →
        hmSum C6post.capture_remaining = 0) ∧
     (RResult.ok () = RResult.ok () →
        (hmSum C6post.capture_remaining = 0 ↔
          C6post.phase = GamePhase.movement))) ∧
    C6pre = C6pre ∧ C6pre = C6pre :=
  ⟨c7_pending_total_monotone_and_exact_transition.1 C6pre 2 2 (RResult.ok ())
      C6post (by rfl),
   c7_pending_total_monotone_and_exact_transition.2.1 C6pre 0 0
      (RResult.err GameErr.wrongPhasePlacement) C6pre (by rfl) (by rfl),
   c7_pending_total_monotone_and_exact_transition.2.2 C6pre (0, 0) (0, 1)
      (RResult.err GameErr.wrongPhaseMovement) C6pre (by rfl) (by rfl)⟩

/-- Well-formed 5×5 grid, as `[[Cell; 5]; 5]` guarantees in the source. -/
def WFGrid (g : List (List Cell)) : Prop :=
  g.length = 5 ∧ ∀ row ∈ g, row.length = 5

theorem cell?_exists {g : List (List Cell)} (hwf : WFGrid g) {r c : Nat}
    (hr : r < 5) (hc : c < 5) : ∃ cl, cell? g r c = some cl := by
  obtain ⟨hlen, hrows⟩ := hwf
  unfold cell?
  have hr' : r < g.length := by rw [hlen]; exact hr
  rw [List.getElem?_eq_getElem hr']
  have hrow : g[r].length = 5 := hrows _ (List.getElem_mem hr')
  have hc' : c < g[r].length := by rw [hrow]; exact hc
  refine ⟨g[r][c], ?_⟩
  show g[r][c]? = some g[r][c]
  rw [List.getElem?_eq_getElem hc']

theorem allOccupied?_spec {g : List (List Cell)} (hwf : WFGrid g) (p : Player) :
    ∀ ps : List (Nat × Nat), (∀ rc ∈ ps, rc.1 < 5 ∧ rc.2 < 5) →
    ∃ v, allOccupied? g p ps = some v ∧
      (v = true ↔ ∀ rc ∈ ps, cell? g rc.1 rc.2 = some (Cell.occupied p)) := by
  intro ps
  induction ps with
  | nil =>
    intro _
    exact ⟨true, rfl, by simp⟩
  | cons hd rest ih =>
    intro hb
    obtain ⟨r, c⟩ := hd
    have hhd := hb (r, c) (List.mem_cons_self _ _)
    obtain ⟨cl, hcl⟩ := cell?_exists hwf hhd.1 hhd.2
    obtain ⟨v, hv, hiff⟩ := ih (fun rc hrc => hb rc (List.mem_cons_of_mem _ hrc))
    cases cl with
    | empty =>
      refine ⟨false, ?_, ?_⟩
      · simp only [allOccupied?]
        rw [hcl]
      · simp only [Bool.false_eq_true, false_iff]
        intro hall
        have := hall (r, c) (List.mem_cons_self _ _)
        rw [hcl] at this
        cases this
    | occupied q =>
      by_cases hq : q = p
      · subst hq
        refine ⟨v, ?_, ?_⟩
        · simp only [allOccupied?]
          rw [hcl]
          simp [hv]
        · rw [hiff]
          constructor
          · intro hall rc hrc
            rcases List.mem_cons.mp hrc with hrc | hrc
            · rw [hrc]
              exact hcl
            · exact hall rc hrc
          · intro hall rc hrc
            exact hall rc (List.mem_cons_of_mem _ hrc)
      · refine ⟨false, ?_, ?_⟩
        · simp only [allOccupied?]
          rw [hcl]
          simp [hq]
        · simp only [Bool.false_eq_true, false_iff]
          intro hall
          have := hall (r, c) (List.mem_cons_self _ _)
          rw [hcl] at this
          injection this with hx
          injection hx with hy
          exact hq hy

/-- C9 (confirmed): for every anchor with `r ≤ 3` and `c ≤ 3` and every
player, `is_square` stays in bounds (it returns `some` — no panic) and
returns `true` exactly when all four corner cells are occupied by that
player. -/
theorem c9_is_square_correct (b : Board) (r c : Nat) (p : Player)
    (hwf : WFGrid b.grid) (hr : r ≤ 3) (hc : c ≤ 3) :
    ∃ v, is_square? b.grid r c p = some v ∧
      (v = true ↔ (cell? b.grid r c = some (Cell.occupied p) ∧
                   cell? b.grid r (c + 1) = some (Cell.occupied p) ∧
                   cell? b.grid (r + 1) c = some (Cell.occupied p) ∧
                   cell? b.grid (r + 1) (c + 1) = some (Cell.occupied p))) := by
  have hbounds : ∀ rc ∈ squareCorners r c, rc.1 < 5 ∧ rc.2 < 5 := by
    intro rc hrc
    simp only [squareCorners, List.mem_cons, List.not_mem_nil, or_false] at hrc
    rcases hrc with h | h | h | h <;> subst h <;> exact ⟨by omega, by omega⟩
  obtain ⟨v, hv, hiff⟩ := allOccupied?_spec hwf p (squareCorners r c) hbounds
  refine ⟨v, hv, ?_⟩
  rw [hiff]
  simp [squareCorners]

/-- C9 witness: the anchor (3,3) on a concrete well-formed board. -/
theorem c9_witness :
    ∃ v, is_square? C1pre.grid 3 3 Player.black = some v ∧
      (v = true ↔ (cell? C1pre.grid 3 3 = some (Cell.occupied Player.black) ∧
                   cell? C1pre.grid 3 4 = some (Cell.occupied Player.black) ∧
                   cell? C1pre.grid 4 3 = some (Cell.occupied Player.black) ∧
                   cell? C1pre.grid 4 4 = some (Cell.occupied Player.black))) :=
  c9_is_square_correct C1pre 3 3 Player.black (by constructor <;> decide)
    (by decide) (by decide)

/-- Coordinates stored in `triggered_squares` are valid square anchors. -/
def SqBound (b : Board) : Prop := ∀ rc ∈ b.triggered_squares, rc.1 < 4 ∧ rc.2 < 4

/-- Indices stored in `triggered_rows` are valid row indices. -/
def RowBound (b : Board) : Prop := ∀ r ∈ b.triggered_rows, r < 5

/-- Indices stored in `triggered_cols` are valid column indices. -/
def ColBound (b : Board) : Prop := ∀ c ∈ b.triggered_cols, c < 5

/-- Either no capture quotas were ever stored, or both players have an
entry (what `enter_capture_phase` establishes). -/
def CapKeys (b : Board) : Prop :=
  b.capture_remaining = [] ∨
    ((hmGet b.capture_remaining Player.black).isSome ∧
     (hmGet b.capture_remaining Player.white).isSome)

/-- The state invariant justifying that the three commands never panic. -/
def EngineInv (b : Board) : Prop :=
  WFGrid b.grid ∧ SqBound b ∧ RowBound b ∧ ColBound b ∧ CapKeys b

theorem is_valid_pos_iff {r c : Nat} : is_valid_pos r c = true ↔ r < 5 ∧ c < 5 := by
  unfold is_valid_pos
  simp

theorem setCell?_exists {g : List (List Cell)} (hwf : WFGrid g) {r c : Nat}
    (hr : r < 5) (hc : c < 5) (v : Cell) : ∃ g', setCell? g r c v = some g' := by
  obtain ⟨hlen, hrows⟩ := hwf
  have hr' : r < g.length := by rw [hlen]; exact hr
  have hrow : g[r].length = 5 := hrows _ (List.getElem_mem hr')
  have hc' : c < g[r].length := by rw [hrow]; exact hc
  refine ⟨g.set r (g[r].set c v), ?_⟩
  unfold setCell?
  rw [List.getElem?_eq_getElem hr']
  show (match g[r][c]? with
        | none => none
        | some _ => some (g.set r (g[r].set c v))) =
      some (g.set r (g[r].set c v))
  rw [List.getElem?_eq_getElem hc']

theorem setCell?_WF {g g' : List (List Cell)} {r c : Nat} {v : Cell}
    (h : setCell? g r c v = some g') (hwf : WFGrid g) : WFGrid g' := by
  obtain ⟨hlen, hrows⟩ := hwf
  unfold setCell? at h
  split at h
  · cases h
  next row hrow =>
  split at h
  · cases h
  next cl hcl =>
  simp only [Option.some.injEq] at h
  subst h
  constructor
  · rw [List.length_set]
    exact hlen
  · intro row' hrow'
    rcases List.mem_or_eq_of_mem_set hrow' with hm | he
    · exact hrows _ hm
    · subst he
      rw [List.length_set]
      exact hrows _ (List.getElem?_mem hrow)

theorem is_square?_isSome {g : List (List Cell)} (hwf : WFGrid g) {r c : Nat}
    (hr : r < 4) (hc : c < 4) (p : Player) : (is_square? g r c p).isSome := by
  have hb : ∀ rc ∈ squareCorners r c, rc.1 < 5 ∧ rc.2 < 5 := by
    intro rc hrc
    simp only [squareCorners, List.mem_cons, List.not_mem_nil, or_false] at hrc
    rcases hrc with h | h | h | h <;> subst h <;> exact ⟨by omega, by omega⟩
  obtain ⟨v, hv, -⟩ := allOccupied?_spec hwf p (squareCorners r c) hb
  unfold is_square? at *
  rw [hv]
  rfl

theorem is_tri?_isSome {g : List (List Cell)} (hwf : WFGrid g) (id : Nat)
    (p : Player) : (is_tri? g id p).isSome := by
  unfold is_tri?
  cases htp : triPositions id with
  | none => rfl
  | some ps =>
    have hb : ∀ rc ∈ ps, rc.1 < 5 ∧ rc.2 < 5 := by
      unfold triPositions at htp
      split at htp <;> first
        | (injection htp with he; subst he; decide)
        | (cases htp)
    obtain ⟨v, hv, -⟩ := allOccupied?_spec hwf p ps hb
    show (allOccupied? g p ps).isSome = true
    rw [hv]
    rfl

theorem is_tetra?_isSome {g : List (List Cell)} (hwf : WFGrid g) (id : Nat)
    (p : Player) : (is_tetra? g id p).isSome := by
  unfold is_tetra?
  cases htp : tetraPositions id with
  | none => rfl
  | some ps =>
    have hb : ∀ rc ∈ ps, rc.1 < 5 ∧ rc.2 < 5 := by
      unfold tetraPositions at htp
      split at htp <;> first
        | (injection htp with he; subst he; decide)
        | (cases htp)
    obtain ⟨v, hv, -⟩ := allOccupied?_spec hwf p ps hb
    show (allOccupied? g p ps).isSome = true
    rw [hv]
    rfl

theorem is_dragon?_isSome {g : List (List Cell)} (hwf : WFGrid g) (id : Nat)
    (p : Player) : (is_dragon? g id p).isSome := by
  unfold is_dragon?
  cases htp : dragonPositions id with
  | none => rfl
  | some ps =>
    have hb : ∀ rc ∈ ps, rc.1 < 5 ∧ rc.2 < 5 := by
      unfold dragonPositions at htp
      split at htp <;> first
        | (injection htp with he; subst he; decide)
        | (cases htp)
    obtain ⟨v, hv, -⟩ := allOccupied?_spec hwf p ps hb
    show (allOccupied? g p ps).isSome = true
    rw [hv]
    rfl

theorem is_row?_isSome {g : List (List Cell)} (hwf : WFGrid g) {r : Nat}
    (hr : r < 5) (p : Player) : (is_row? g r p).isSome := by
  have hb : ∀ rc ∈ rowPositions r, rc.1 < 5 ∧ rc.2 < 5 := by
    intro rc hrc
    simp only [rowPositions, List.mem_map, List.mem_range] at hrc
    obtain ⟨c, hc, he⟩ := hrc
    subst he
    exact ⟨hr, hc⟩
  obtain ⟨v, hv, -⟩ := allOccupied?_spec hwf p (rowPositions r) hb
  unfold is_row? at *
  rw [hv]
  rfl

theorem is_col?_isSome {g : List (List Cell)} (hwf : WFGrid g) {c : Nat}
    (hc : c < 5) (p : Player) : (is_col? g c p).isSome := by
  have hb : ∀ rc ∈ colPositions c, rc.1 < 5 ∧ rc.2 < 5 := by
    intro rc hrc
    simp only [colPositions, List.mem_map, List.mem_range] at hrc
    obtain ⟨r, hr, he⟩ := hrc
    subst he
    exact ⟨hr, hc⟩
  obtain ⟨v, hv, -⟩ := allOccupied?_spec hwf p (colPositions c) hb
  unfold is_col? at *
  rw [hv]
  rfl

theorem player_pieces_bounds {g : List (List Cell)} (hwf : WFGrid g) (p : Player) :
    ∀ rc ∈ player_pieces g p, rc.1 < 5 ∧ rc.2 < 5 := by
  intro rc hrc
  unfold player_pieces at hrc
  rw [List.mem_flatten] at hrc
  obtain ⟨l, hl, hrcl⟩ := hrc
  rw [List.mem_map] at hl
  obtain ⟨rrow, hrrow, he⟩ := hl
  subst he
  unfold rowPieces at hrcl
  rw [List.mem_filterMap] at hrcl
  obtain ⟨cc, hcc, hsome⟩ := hrcl
  have hrow : rrow.1 < g.length ∧ rrow.2 ∈ g := by
    rw [List.mem_enum_iff_getElem?] at hrrow
    exact ⟨(List.getElem?_eq_some.mp hrrow).1, List.getElem?_mem hrrow⟩
  have hcol : cc.1 < rrow.2.length := by
    rw [List.mem_enum_iff_getElem?] at hcc
    exact (List.getElem?_eq_some.mp hcc).1
  split at hsome
  · injection hsome with he2
    subst he2
    constructor
    · rw [← hwf.1]
      exact hrow.1
    · rw [← hwf.2 _ hrow.2]
      exact hcol
  · cases hsome

theorem anyEmptyNeighbor?_isSome {g : List (List Cell)} (hwf : WFGrid g) :
    ∀ l : List (Nat × Nat), (anyEmptyNeighbor? g l).isSome := by
  intro l
  induction l with
  | nil => rfl
  | cons hd rest ih =>
    obtain ⟨nr, nc⟩ := hd
    unfold anyEmptyNeighbor?
    split
    next hval =>
      obtain ⟨hr, hc⟩ := is_valid_pos_iff.mp hval
      obtain ⟨cl, hcl⟩ := cell?_exists hwf hr hc
      rw [hcl]
      show (if cl = Cell.empty then some true else anyEmptyNeighbor? g rest).isSome
        = true
      split
      · rfl
      · exact ih
    · exact ih

theorem hasMoveAux?_isSome {g : List (List Cell)} (hwf : WFGrid g) :
    ∀ l : List (Nat × Nat), (hasMoveAux? g l).isSome := by
  intro l
  induction l with
  | nil => rfl
  | cons hd rest ih =>
    obtain ⟨r, c⟩ := hd
    unfold hasMoveAux?
    have := anyEmptyNeighbor?_isSome hwf (neighborsOf r c)
    cases hn : anyEmptyNeighbor? g (neighborsOf r c) with
    | none => rw [hn] at this; cases this
    | some v =>
      cases v with
      | true => rfl
      | false => exact ih

theorem has_legal_moves?_isSome {b : Board} (hwf : WFGrid b.grid) (p : Player) :
    (has_legal_moves? b p).isSome := by
  simp only [has_legal_moves?]
  split
  · rfl
  · exact hasMoveAux?_isSome hwf _


/-- The three triggered-set bounds the scans and counters rely on. -/
def SetsBound (b : Board) : Prop := SqBound b ∧ RowBound b ∧ ColBound b

theorem check_squaresAux_isSome :
    ∀ (l : List (Nat × Nat)) (b : Board) (extra : Nat), WFGrid b.grid →
      (check_squaresAux l b extra).isSome = true := by
  intro l
  induction l with
  | nil => intro b extra _; rfl
  | cons hd rest ih =>
    intro b extra hwf
    obtain ⟨r, c⟩ := hd
    unfold check_squaresAux
    split
    next hrc =>
      have hsq := is_square?_isSome hwf hrc.1 hrc.2 b.current_player
      split
      next heq => rw [heq] at hsq; cases hsq
      next v heq =>
        split
        · split
          · exact ih b extra hwf
          · exact ih _ _ hwf
        · exact ih b extra hwf
    next hrc => exact ih b extra hwf

theorem check_trisAux_isSome :
    ∀ (l : List Nat) (b : Board) (extra : Nat), WFGrid b.grid →
      (check_trisAux l b extra).isSome = true := by
  intro l
  induction l with
  | nil => intro b extra _; rfl
  | cons id rest ih =>
    intro b extra hwf
    unfold check_trisAux
    split
    · exact ih b extra hwf
    next hmem =>
      have hsq := is_tri?_isSome hwf id b.current_player
      split
      next heq => rw [heq] at hsq; cases hsq
      next v heq =>
        split
        · exact ih _ _ hwf
        · exact ih b extra hwf

theorem check_tetrasAux_isSome :
    ∀ (l : List Nat) (b : Board) (extra : Nat), WFGrid b.grid →
      (check_tetrasAux l b extra).isSome = true := by
  intro l
  induction l with
  | nil => intro b extra _; rfl
  | cons id rest ih =>
    intro b extra hwf
    unfold check_tetrasAux
    split
    · exact ih b extra hwf
    next hmem =>
      have hsq := is_tetra?_isSome hwf id b.current_player
      split
      next heq => rw [heq] at hsq; cases hsq
      next v heq =>
        split
        · exact ih _ _ hwf
        · exact ih b extra hwf

theorem check_rowsAux_isSome :
    ∀ (l : List Nat) (b : Board) (extra : Nat), WFGrid b.grid →
      (∀ r ∈ l, r < 5) → (check_rowsAux l b extra).isSome = true := by
  intro l
  induction l with
  | nil => intro b extra _ _; rfl
  | cons r rest ih =>
    intro b extra hwf hl
    have hr : r < 5 := hl r (List.mem_cons_self _ _)
    have hl' : ∀ x ∈ rest, x < 5 := fun x hx => hl x (List.mem_cons_of_mem _ hx)
    unfold check_rowsAux
    split
    · exact ih b extra hwf hl'
    next hmem =>
      have hsq := is_row?_isSome hwf hr b.current_player
      split
      next heq => rw [heq] at hsq; cases hsq
      next v heq =>
        split
        · exact ih _ _ hwf hl'
        · exact ih b extra hwf hl'

theorem check_colsAux_isSome :
    ∀ (l : List Nat) (b : Board) (extra : Nat), WFGrid b.grid →
      (∀ c ∈ l, c < 5) → (check_colsAux l b extra).isSome = true := by
  intro l
  induction l with
  | nil => intro b extra _ _; rfl
  | cons c rest ih =>
    intro b extra hwf hl
    have hc : c < 5 := hl c (List.mem_cons_self _ _)
    have hl' : ∀ x ∈ rest, x < 5 := fun x hx => hl x (List.mem_cons_of_mem _ hx)
    unfold check_colsAux
    split
    · exact ih b extra hwf hl'
    next hmem =>
      have hsq := is_col?_isSome hwf hc b.current_player
      split
      next heq => rw [heq] at hsq; cases hsq
      next v heq =>
        split
        · exact ih _ _ hwf hl'
        · exact ih b extra hwf hl'

theorem check_dragonsAux_isSome :
    ∀ (l : List Nat) (b : Board) (extra : Nat), WFGrid b.grid →
      (check_dragonsAux l b extra).isSome = true := by
  intro l
  induction l with
  | nil => intro b extra _; rfl
  | cons id rest ih =>
    intro b extra hwf
    unfold check_dragonsAux
    split
    · exact ih b extra hwf
    next hmem =>
      have hsq := is_dragon?_isSome hwf id b.current_player
      split
      next heq => rw [heq] at hsq; cases hsq
      next v heq =>
        split
        · exact ih _ _ hwf
        · exact ih b extra hwf

theorem check_squaresAux_bounds :
    ∀ (l : List (Nat × Nat)) (b : Board) (extra : Nat) (out : Board × Nat),
      check_squaresAux l b extra = some out → SetsBound b → SetsBound out.1 := by
  intro l
  induction l with
  | nil =>
    intro b extra out h hsb
    cases h
    exact hsb
  | cons hd rest ih =>
    intro b extra out h hsb
    obtain ⟨r, c⟩ := hd
    unfold check_squaresAux at h
    split at h
    next hrc =>
      split at h
      · cases h
      next v heq =>
        split at h
        · split at h
          · exact ih b extra out h hsb
          · refine ih _ _ out h ⟨?_, hsb.2.1, hsb.2.2⟩
            intro rc hrcm
            rcases List.mem_append.mp hrcm with hm | hm
            · exact hsb.1 rc hm
            · rw [List.mem_singleton.mp hm]
              exact hrc
        · exact ih b extra out h hsb
    next hrc => exact ih b extra out h hsb

theorem check_trisAux_bounds :
    ∀ (l : List Nat) (b : Board) (extra : Nat) (out : Board × Nat),
      check_trisAux l b extra = some out → SetsBound b → SetsBound out.1 := by
  intro l
  induction l with
  | nil =>
    intro b extra out h hsb
    cases h
    exact hsb
  | cons id rest ih =>
    intro b extra out h hsb
    unfold check_trisAux at h
    split at h
    · exact ih b extra out h hsb
    · split at h
      · cases h
      · split at h
        · exact ih _ _ out h ⟨hsb.1, hsb.2.1, hsb.2.2⟩
        · exact ih b extra out h hsb

theorem check_tetrasAux_bounds :
    ∀ (l : List Nat) (b : Board) (extra : Nat) (out : Board × Nat),
      check_tetrasAux l b extra = some out → SetsBound b → SetsBound out.1 := by
  intro l
  induction l with
  | nil =>
    intro b extra out h hsb
    cases h
    exact hsb
  | cons id rest ih =>
    intro b extra out h hsb
    unfold check_tetrasAux at h
    split at h
    · exact ih b extra out h hsb
    · split at h
      · cases h
      · split at h
        · exact ih _ _ out h ⟨hsb.1, hsb.2.1, hsb.2.2⟩
        · exact ih b extra out h hsb

theorem check_rowsAux_bounds :
    ∀ (l : List Nat) (b : Board) (extra : Nat) (out : Board × Nat),
      check_rowsAux l b extra = some out → SetsBound b → (∀ r ∈ l, r < 5) →
      SetsBound out.1 := by
  intro l
  induction l with
  | nil =>
    intro b extra out h hsb _
    cases h
    exact hsb
  | cons r rest ih =>
    intro b extra out h hsb hl
    have hr : r < 5 := hl r (List.mem_cons_self _ _)
    have hl' : ∀ x ∈ rest, x < 5 := fun x hx => hl x (List.mem_cons_of_mem _ hx)
    unfold check_rowsAux at h
    split at h
    · exact ih b extra out h hsb hl'
    · split at h
      · cases h
      · split at h
        · refine ih _ _ out h ⟨hsb.1, ?_, hsb.2.2⟩ hl'
          intro x hx
          rcases List.mem_append.mp hx with hm | hm
          · exact hsb.2.1 x hm
          · rw [List.mem_singleton.mp hm]
            exact hr
        · exact ih b extra out h hsb hl'

theorem check_colsAux_bounds :
    ∀ (l : List Nat) (b : Board) (extra : Nat) (out : Board × Nat),
      check_colsAux l b extra = some out → SetsBound b → (∀ c ∈ l, c < 5) →
      SetsBound out.1 := by
  intro l
  induction l with
  | nil =>
    intro b extra out h hsb _
    cases h
    exact hsb
  | cons c rest ih =>
    intro b extra out h hsb hl
    have hc : c < 5 := hl c (List.mem_cons_self _ _)
    have hl' : ∀ x ∈ rest, x < 5 := fun x hx => hl x (List.mem_cons_of_mem _ hx)
    unfold check_colsAux at h
    split at h
    · exact ih b extra out h hsb hl'
    · split at h
      · cases h
      · split at h
        · refine ih _ _ out h ⟨hsb.1, hsb.2.1, ?_⟩ hl'
          intro x hx
          rcases List.mem_append.mp hx with hm | hm
          · exact hsb.2.2 x hm
          · rw [List.mem_singleton.mp hm]
            exact hc
        · exact ih b extra out h hsb hl'

theorem check_dragonsAux_bounds :
    ∀ (l : List Nat) (b : Board) (extra : Nat) (out : Board × Nat),
      check_dragonsAux l b extra = some out → SetsBound b → SetsBound out.1 := by
  intro l
  induction l with
  | nil =>
    intro b extra out h hsb
    cases h
    exact hsb
  | cons id rest ih =>
    intro b extra out h hsb
    unfold check_dragonsAux at h
    split at h
    · exact ih b extra out h hsb
    · split at h
      · cases h
      · split at h
        · exact ih _ _ out h ⟨hsb.1, hsb.2.1, hsb.2.2⟩
        · exact ih b extra out h hsb

theorem check_rewards_isSome {b : Board} (row col : Nat) (hwf : WFGrid b.grid) :
    (check_rewards b row col).isSome = true := by
  have h1s := check_squaresAux_isSome (squareCandidates row col) b 0 hwf
  obtain ⟨⟨b1, e1⟩, h1⟩ := Option.isSome_iff_exists.mp h1s
  have hg1 : b1.grid = b.grid := (check_squaresAux_spec _ _ _ _ h1).1.1
  have hwf1 : WFGrid b1.grid := by rw [hg1]; exact hwf
  have h2s := check_trisAux_isSome (List.range 4) b1 0 hwf1
  obtain ⟨⟨b2, e2⟩, h2⟩ := Option.isSome_iff_exists.mp h2s
  have hg2 : b2.grid = b1.grid := (check_trisAux_spec _ _ _ _ h2).1.1
  have hwf2 : WFGrid b2.grid := by rw [hg2]; exact hwf1
  have h3s := check_tetrasAux_isSome (List.range 4) b2 0 hwf2
  obtain ⟨⟨b3, e3⟩, h3⟩ := Option.isSome_iff_exists.mp h3s
  have hg3 : b3.grid = b2.grid := (check_tetrasAux_spec _ _ _ _ h3).1.1
  have hwf3 : WFGrid b3.grid := by rw [hg3]; exact hwf2
  have h4s := check_rowsAux_isSome (List.range 5) b3 0 hwf3
    (by intro x hx; exact List.mem_range.mp hx)
  obtain ⟨⟨b4, e4⟩, h4⟩ := Option.isSome_iff_exists.mp h4s
  have hg4 : b4.grid = b3.grid := (check_rowsAux_spec _ _ _ _ h4).1.1
  have hwf4 : WFGrid b4.grid := by rw [hg4]; exact hwf3
  have h5s := check_colsAux_isSome (List.range 5) b4 0 hwf4
    (by intro x hx; exact List.mem_range.mp hx)
  obtain ⟨⟨b5, e5⟩, h5⟩ := Option.isSome_iff_exists.mp h5s
  have hg5 : b5.grid = b4.grid := (check_colsAux_spec _ _ _ _ h5).1.1
  have hwf5 : WFGrid b5.grid := by rw [hg5]; exact hwf4
  have h6s := check_dragonsAux_isSome (List.range 2) b5 0 hwf5
  obtain ⟨⟨b6, e6⟩, h6⟩ := Option.isSome_iff_exists.mp h6s
  unfold check_rewards
  rw [show check_squares b row col = some (b1, e1) from h1]
  show (match check_tris b1 with
    | none => none
    | some (b2, e2) =>
      match check_tetras b2 with
      | none => none
      | some (b3, e3) =>
        match check_rows b3 with
        | none => none
        | some (b4, e4) =>
          match check_cols b4 with
          | none => none
          | some (b5, e5) =>
            match check_dragons b5 with
            | none => none
            | some (b6, e6) => some (b6, e1 + e2 + e3 + e4 + e5 + e6)).isSome = true
  rw [show check_tris b1 = some (b2, e2) from h2]
  show (match check_tetras b2 with
    | none => none
    | some (b3, e3) =>
      match check_rows b3 with
      | none => none
      | some (b4, e4) =>
        match check_cols b4 with
        | none => none
        | some (b5, e5) =>
          match check_dragons b5 with
          | none => none
          | some (b6, e6) =>
            some (b6, e1 + e2 + e3 + e4 + e5 + e6)).isSome = true
  rw [show check_tetras b2 = some (b3, e3) from h3]
  show (match check_rows b3 with
    | none => none
    | some (b4, e4) =>
      match check_cols b4 with
      | none => none
      | some (b5, e5) =>
        match check_dragons b5 with
        | none => none
        | some (b6, e6) =>
          some (b6, e1 + e2 + e3 + e4 + e5 + e6)).isSome = true
  rw [show check_rows b3 = some (b4, e4) from h4]
  show (match check_cols b4 with
    | none => none
    | some (b5, e5) =>
      match check_dragons b5 with
      | none => none
      | some (b6, e6) =>
        some (b6, e1 + e2 + e3 + e4 + e5 + e6)).isSome = true
  rw [show check_cols b4 = some (b5, e5) from h5]
  show (match check_dragons b5 with
    | none => none
    | some (b6, e6) =>
      some (b6, e1 + e2 + e3 + e4 + e5 + e6)).isSome = true
  rw [show check_dragons b5 = some (b6, e6) from h6]
  rfl

theorem check_rewards_bounds {b : Board} {row col : Nat} {out : Board × Nat}
    (h : check_rewards b row col = some out) (hsb : SetsBound b) :
    SetsBound out.1 := by
  unfold check_rewards at h
  split at h
  · cases h
  next b1 e1 h1 =>
  split at h
  · cases h
  next b2 e2 h2 =>
  split at h
  · cases h
  next b3 e3 h3 =>
  split at h
  · cases h
  next b4 e4 h4 =>
  split at h
  · cases h
  next b5 e5 h5 =>
  split at h
  · cases h
  next b6 e6 h6 =>
  simp only [Option.some.injEq] at h
  have s1 := check_squaresAux_bounds _ _ _ _ h1 hsb
  have s2 := check_trisAux_bounds _ _ _ _ h2 s1
  have s3 := check_tetrasAux_bounds _ _ _ _ h3 s2
  have s4 := check_rowsAux_bounds _ _ _ _ h4 s3
    (by intro x hx; exact List.mem_range.mp hx)
  have s5 := check_colsAux_bounds _ _ _ _ h5 s4
    (by intro x hx; exact List.mem_range.mp hx)
  have s6 := check_dragonsAux_bounds _ _ _ _ h6 s5
  have hout : out.1 = b6 := by rw [← h]
  rw [hout]
  exact s6

theorem mem_hsInsert_elim {α : Type} [DecidableEq α] {s : List α} {x a : α}
    (h : a ∈ hsInsert s x) : a ∈ s ∨ a = x := by
  unfold hsInsert at h
  split at h
  · exact Or.inl h
  · rcases List.mem_append.mp h with h | h
    · exact Or.inl h
    · exact Or.inr (List.mem_singleton.mp h)

theorem scanSquaresAux_isSome (p : Player) :
    ∀ (l : List (Nat × Nat)) (b : Board), WFGrid b.grid →
      (∀ rc ∈ l, rc.1 < 4 ∧ rc.2 < 4) →
      (scanSquaresAux p l b).isSome = true := by
  intro l
  induction l with
  | nil => intro b _ _; rfl
  | cons hd rest ih =>
    intro b hwf hl
    obtain ⟨r, c⟩ := hd
    have hrc := hl (r, c) (List.mem_cons_self _ _)
    have hl' : ∀ rc ∈ rest, rc.1 < 4 ∧ rc.2 < 4 :=
      fun rc hx => hl rc (List.mem_cons_of_mem _ hx)
    unfold scanSquaresAux
    have hsq := is_square?_isSome hwf hrc.1 hrc.2 p
    split
    next heq => rw [heq] at hsq; cases hsq
    next v heq =>
      split
      · exact ih _ hwf hl'
      · exact ih b hwf hl'

theorem scanSquaresAux_bounds (p : Player) :
    ∀ (l : List (Nat × Nat)) (b b' : Board), scanSquaresAux p l b = some b' →
      SetsBound b → (∀ rc ∈ l, rc.1 < 4 ∧ rc.2 < 4) → SetsBound b' := by
  intro l
  induction l with
  | nil =>
    intro b b' h hsb _
    cases h
    exact hsb
  | cons hd rest ih =>
    intro b b' h hsb hl
    obtain ⟨r, c⟩ := hd
    have hrc := hl (r, c) (List.mem_cons_self _ _)
    have hl' : ∀ rc ∈ rest, rc.1 < 4 ∧ rc.2 < 4 :=
      fun rc hx => hl rc (List.mem_cons_of_mem _ hx)
    unfold scanSquaresAux at h
    split at h
    · cases h
    next v heq =>
      split at h
      · refine ih _ b' h ⟨?_, hsb.2.1, hsb.2.2⟩ hl'
        intro rc hm
        rcases mem_hsInsert_elim hm with hm | hm
        · exact hsb.1 rc hm
        · rw [hm]; exact hrc
      · exact ih b b' h hsb hl'

theorem scanTrisAux_isSome (p : Player) :
    ∀ (l : List Nat) (b : Board), WFGrid b.grid →
      (scanTrisAux p l b).isSome = true := by
  intro l
  induction l with
  | nil => intro b _; rfl
  | cons id rest ih =>
    intro b hwf
    unfold scanTrisAux
    have hsq := is_tri?_isSome hwf id p
    split
    next heq => rw [heq] at hsq; cases hsq
    next v heq =>
      split
      · exact ih _ hwf
      · exact ih b hwf

theorem scanTrisAux_bounds (p : Player) :
    ∀ (l : List Nat) (b b' : Board), scanTrisAux p l b = some b' →
      SetsBound b → SetsBound b' := by
  intro l
  induction l with
  | nil =>
    intro b b' h hsb
    cases h
    exact hsb
  | cons id rest ih =>
    intro b b' h hsb
    unfold scanTrisAux at h
    split at h
    · cases h
    · split at h
      · exact ih _ b' h ⟨hsb.1, hsb.2.1, hsb.2.2⟩
      · exact ih b b' h hsb

theorem scanTetrasAux_isSome (p : Player) :
    ∀ (l : List Nat) (b : Board), WFGrid b.grid →
      (scanTetrasAux p l b).isSome = true := by
  intro l
  induction l with
  | nil => intro b _; rfl
  | cons id rest ih =>
    intro b hwf
    unfold scanTetrasAux
    have hsq := is_tetra?_isSome hwf id p
    split
    next heq => rw [heq] at hsq; cases hsq
    next v heq =>
      split
      · exact ih _ hwf
      · exact ih b hwf

theorem scanTetrasAux_bounds (p : Player) :
    ∀ (l : List Nat) (b b' : Board), scanTetrasAux p l b = some b' →
      SetsBound b → SetsBound b' := by
  intro l
  induction l with
  | nil =>
    intro b b' h hsb
    cases h
    exact hsb
  | cons id rest ih =>
    intro b b' h hsb
    unfold scanTetrasAux at h
    split at h
    · cases h
    · split at h
      · exact ih _ b' h ⟨hsb.1, hsb.2.1, hsb.2.2⟩
      · exact ih b b' h hsb

theorem scanRowsAux_isSome (p : Player) :
    ∀ (l : List Nat) (b : Board), WFGrid b.grid → (∀ r ∈ l, r < 5) →
      (scanRowsAux p l b).isSome = true := by
  intro l
  induction l with
  | nil => intro b _ _; rfl
  | cons r rest ih =>
    intro b hwf hl
    have hr : r < 5 := hl r (List.mem_cons_self _ _)
    have hl' : ∀ x ∈ rest, x < 5 := fun x hx => hl x (List.mem_cons_of_mem _ hx)
    unfold scanRowsAux
    have hsq := is_row?_isSome hwf hr p
    split
    next heq => rw [heq] at hsq; cases hsq
    next v heq =>
      split
      · exact ih _ hwf hl'
      · exact ih b hwf hl'

theorem scanRowsAux_bounds (p : Player) :
    ∀ (l : List Nat) (b b' : Board), scanRowsAux p l b = some b' →
      SetsBound b → (∀ r ∈ l, r < 5) → SetsBound b' := by
  intro l
  induction l with
  | nil =>
    intro b b' h hsb _
    cases h
    exact hsb
  | cons r rest ih =>
    intro b b' h hsb hl
    have hr : r < 5 := hl r (List.mem_cons_self _ _)
    have hl' : ∀ x ∈ rest, x < 5 := fun x hx => hl x (List.mem_cons_of_mem _ hx)
    unfold scanRowsAux at h
    split at h
    · cases h
    · split at h
      · refine ih _ b' h ⟨hsb.1, ?_, hsb.2.2⟩ hl'
        intro x hm
        rcases mem_hsInsert_elim hm with hm | hm
        · exact hsb.2.1 x hm
        · rw [hm]; exact hr
      · exact ih b b' h hsb hl'

theorem scanColsAux_isSome (p : Player) :
    ∀ (l : List Nat) (b : Board), WFGrid b.grid → (∀ c ∈ l, c < 5) →
      (scanColsAux p l b).isSome = true := by
  intro l
  induction l with
  | nil => intro b _ _; rfl
  | cons c rest ih =>
    intro b hwf hl
    have hc : c < 5 := hl c (List.mem_cons_self _ _)
    have hl' : ∀ x ∈ rest, x < 5 := fun x hx => hl x (List.mem_cons_of_mem _ hx)
    unfold scanColsAux
    have hsq := is_col?_isSome hwf hc p
    split
    next heq => rw [heq] at hsq; cases hsq
    next v heq =>
      split
      · exact ih _ hwf hl'
      · exact ih b hwf hl'

theorem scanColsAux_bounds (p : Player) :
    ∀ (l : List Nat) (b b' : Board), scanColsAux p l b = some b' →
      SetsBound b → (∀ c ∈ l, c < 5) → SetsBound b' := by
  intro l
  induction l with
  | nil =>
    intro b b' h hsb _
    cases h
    exact hsb
  | cons c rest ih =>
    intro b b' h hsb hl
    have hc : c < 5 := hl c (List.mem_cons_self _ _)
    have hl' : ∀ x ∈ rest, x < 5 := fun x hx => hl x (List.mem_cons_of_mem _ hx)
    unfold scanColsAux at h
    split at h
    · cases h
    · split at h
      · refine ih _ b' h ⟨hsb.1, hsb.2.1, ?_⟩ hl'
        intro x hm
        rcases mem_hsInsert_elim hm with hm | hm
        · exact hsb.2.2 x hm
        · rw [hm]; exact hc
      · exact ih b b' h hsb hl'

theorem scanDragonsAux_isSome (p : Player) :
    ∀ (l : List Nat) (b : Board), WFGrid b.grid →
      (scanDragonsAux p l b).isSome = true := by
  intro l
  induction l with
  | nil => intro b _; rfl
  | cons id rest ih =>
    intro b hwf
    unfold scanDragonsAux
    have hsq := is_dragon?_isSome hwf id p
    split
    next heq => rw [heq] at hsq; cases hsq
    next v heq =>
      split
      · exact ih _ hwf
      · exact ih b hwf

theorem scanDragonsAux_bounds (p : Player) :
    ∀ (l : List Nat) (b b' : Board), scanDragonsAux p l b = some b' →
      SetsBound b → SetsBound b' := by
  intro l
  induction l with
  | nil =>
    intro b b' h hsb
    cases h
    exact hsb
  | cons id rest ih =>
    intro b b' h hsb
    unfold scanDragonsAux at h
    split at h
    · cases h
    · split at h
      · exact ih _ b' h ⟨hsb.1, hsb.2.1, hsb.2.2⟩
      · exact ih b b' h hsb

theorem SetsBound_of_SetsEq {b b' : Board} (he : SetsEq b b') (hsb : SetsBound b) :
    SetsBound b' := by
  obtain ⟨e1, e2, e3, e4, e5, e6⟩ := he
  refine ⟨?_, ?_, ?_⟩
  · intro rc hm; rw [e1] at hm; exact hsb.1 rc hm
  · intro x hm; rw [e4] at hm; exact hsb.2.1 x hm
  · intro x hm; rw [e5] at hm; exact hsb.2.2 x hm

theorem calcSquaresAux_isSome {g : List (List Cell)} (p : Player)
    (hwf : WFGrid g) :
    ∀ (l : List (Nat × Nat)) (acc : Nat), (∀ rc ∈ l, rc.1 < 4 ∧ rc.2 < 4) →
      (calcSquaresAux g p l acc).isSome = true := by
  intro l
  induction l with
  | nil => intro acc _; rfl
  | cons hd rest ih =>
    intro acc hl
    obtain ⟨r, c⟩ := hd
    have hrc := hl (r, c) (List.mem_cons_self _ _)
    have hl' : ∀ rc ∈ rest, rc.1 < 4 ∧ rc.2 < 4 :=
      fun rc hx => hl rc (List.mem_cons_of_mem _ hx)
    unfold calcSquaresAux
    have hsq := is_square?_isSome hwf hrc.1 hrc.2 p
    split
    next heq => rw [heq] at hsq; cases hsq
    next v heq => exact ih _ hl'

theorem calcTrisAux_isSome {g : List (List Cell)} (p : Player) (hwf : WFGrid g) :
    ∀ (l : List Nat) (acc : Nat), (calcTrisAux g p l acc).isSome = true := by
  intro l
  induction l with
  | nil => intro acc; rfl
  | cons id rest ih =>
    intro acc
    unfold calcTrisAux
    have hsq := is_tri?_isSome hwf id p
    split
    next heq => rw [heq] at hsq; cases hsq
    next v heq => exact ih _

theorem calcTetrasAux_isSome {g : List (List Cell)} (p : Player) (hwf : WFGrid g) :
    ∀ (l : List Nat) (acc : Nat), (calcTetrasAux g p l acc).isSome = true := by
  intro l
  induction l with
  | nil => intro acc; rfl
  | cons id rest ih =>
    intro acc
    unfold calcTetrasAux
    have hsq := is_tetra?_isSome hwf id p
    split
    next heq => rw [heq] at hsq; cases hsq
    next v heq => exact ih _

theorem calcRowsAux_isSome {g : List (List Cell)} (p : Player) (hwf : WFGrid g) :
    ∀ (l : List Nat) (acc : Nat), (∀ r ∈ l, r < 5) →
      (calcRowsAux g p l acc).isSome = true := by
  intro l
  induction l with
  | nil => intro acc _; rfl
  | cons r rest ih =>
    intro acc hl
    have hr : r < 5 := hl r (List.mem_cons_self _ _)
    have hl' : ∀ x ∈ rest, x < 5 := fun x hx => hl x (List.mem_cons_of_mem _ hx)
    unfold calcRowsAux
    have hsq := is_row?_isSome hwf hr p
    split
    next heq => rw [heq] at hsq; cases hsq
    next v heq => exact ih _ hl'

theorem calcColsAux_isSome {g : List (List Cell)} (p : Player) (hwf : WFGrid g) :
    ∀ (l : List Nat) (acc : Nat), (∀ c ∈ l, c < 5) →
      (calcColsAux g p l acc).isSome = true := by
  intro l
  induction l with
  | nil => intro acc _; rfl
  | cons c rest ih =>
    intro acc hl
    have hc : c < 5 := hl c (List.mem_cons_self _ _)
    have hl' : ∀ x ∈ rest, x < 5 := fun x hx => hl x (List.mem_cons_of_mem _ hx)
    unfold calcColsAux
    have hsq := is_col?_isSome hwf hc p
    split
    next heq => rw [heq] at hsq; cases hsq
    next v heq => exact ih _ hl'

theorem calcDragonsAux_isSome {g : List (List Cell)} (p : Player) (hwf : WFGrid g) :
    ∀ (l : List Nat) (acc : Nat), (calcDragonsAux g p l acc).isSome = true := by
  intro l
  induction l with
  | nil => intro acc; rfl
  | cons id rest ih =>
    intro acc
    unfold calcDragonsAux
    have hsq := is_dragon?_isSome hwf id p
    split
    next heq => rw [heq] at hsq; cases hsq
    next v heq => exact ih _

theorem calculate_capture_count_isSome {b : Board} (p : Player)
    (hwf : WFGrid b.grid) (hsb : SetsBound b) :
    (calculate_capture_count b p).isSome = true := by
  obtain ⟨c1, h1⟩ := Option.isSome_iff_exists.mp
    (calcSquaresAux_isSome p hwf b.triggered_squares 0 hsb.1)
  obtain ⟨c2, h2⟩ := Option.isSome_iff_exists.mp
    (calcTrisAux_isSome p hwf b.triggered_tris c1)
  obtain ⟨c3, h3⟩ := Option.isSome_iff_exists.mp
    (calcTetrasAux_isSome p hwf b.triggered_tetras c2)
  obtain ⟨nr, h4⟩ := Option.isSome_iff_exists.mp
    (calcRowsAux_isSome p hwf b.triggered_rows 0 hsb.2.1)
  obtain ⟨nc, h5⟩ := Option.isSome_iff_exists.mp
    (calcColsAux_isSome p hwf b.triggered_cols 0 hsb.2.2)
  obtain ⟨nd, h6⟩ := Option.isSome_iff_exists.mp
    (calcDragonsAux_isSome p hwf b.triggered_dragons 0)
  unfold calculate_capture_count
  simp only [h1, h2, h3, h4, h5, h6, Option.isSome_some]

theorem addSquarePieces_isSome {g : List (List Cell)} (p : Player)
    (hwf : WFGrid g) :
    ∀ (l : List (Nat × Nat)) (s : List (Nat × Nat)),
      (∀ rc ∈ l, rc.1 < 4 ∧ rc.2 < 4) →
      (addSquarePieces g p l s).isSome = true := by
  intro l
  induction l with
  | nil => intro s _; rfl
  | cons hd rest ih =>
    intro s hl
    obtain ⟨r, c⟩ := hd
    have hrc := hl (r, c) (List.mem_cons_self _ _)
    have hl' : ∀ rc ∈ rest, rc.1 < 4 ∧ rc.2 < 4 :=
      fun rc hx => hl rc (List.mem_cons_of_mem _ hx)
    unfold addSquarePieces
    have hsq := is_square?_isSome hwf hrc.1 hrc.2 p
    split
    next heq => rw [heq] at hsq; cases hsq
    next v heq => exact ih _ hl'

theorem addTriPieces_isSome {g : List (List Cell)} (p : Player) (hwf : WFGrid g) :
    ∀ (l : List Nat) (s : List (Nat × Nat)),
      (addTriPieces g p l s).isSome = true := by
  intro l
  induction l with
  | nil => intro s; rfl
  | cons id rest ih =>
    intro s
    unfold addTriPieces
    split
    · exact ih s
    next ps hps =>
      have hsq := is_tri?_isSome hwf id p
      split
      next heq => rw [heq] at hsq; cases hsq
      next v heq => exact ih _

theorem addTetraPieces_isSome {g : List (List Cell)} (p : Player)
    (hwf : WFGrid g) :
    ∀ (l : List Nat) (s : List (Nat × Nat)),
      (addTetraPieces g p l s).isSome = true := by
  intro l
  induction l with
  | nil => intro s; rfl
  | cons id rest ih =>
    intro s
    unfold addTetraPieces
    split
    · exact ih s
    next ps hps =>
      have hsq := is_tetra?_isSome hwf id p
      split
      next heq => rw [heq] at hsq; cases hsq
      next v heq => exact ih _

theorem addRowPieces_isSome {g : List (List Cell)} (p : Player) (hwf : WFGrid g) :
    ∀ (l : List Nat) (s : List (Nat × Nat)), (∀ r ∈ l, r < 5) →
      (addRowPieces g p l s).isSome = true := by
  intro l
  induction l with
  | nil => intro s _; rfl
  | cons r rest ih =>
    intro s hl
    have hr : r < 5 := hl r (List.mem_cons_self _ _)
    have hl' : ∀ x ∈ rest, x < 5 := fun x hx => hl x (List.mem_cons_of_mem _ hx)
    unfold addRowPieces
    have hsq := is_row?_isSome hwf hr p
    split
    next heq => rw [heq] at hsq; cases hsq
    next v heq => exact ih _ hl'

theorem addColPieces_isSome {g : List (List Cell)} (p : Player) (hwf : WFGrid g) :
    ∀ (l : List Nat) (s : List (Nat × Nat)), (∀ c ∈ l, c < 5) →
      (addColPieces g p l s).isSome = true := by
  intro l
  induction l with
  | nil => intro s _; rfl
  | cons c rest ih =>
    intro s hl
    have hc : c < 5 := hl c (List.mem_cons_self _ _)
    have hl' : ∀ x ∈ rest, x < 5 := fun x hx => hl x (List.mem_cons_of_mem _ hx)
    unfold addColPieces
    have hsq := is_col?_isSome hwf hc p
    split
    next heq => rw [heq] at hsq; cases hsq
    next v heq => exact ih _ hl'

theorem addDragonPieces_isSome {g : List (List Cell)} (p : Player)
    (hwf : WFGrid g) :
    ∀ (l : List Nat) (s : List (Nat × Nat)),
      (addDragonPieces g p l s).isSome = true := by
  intro l
  induction l with
  | nil => intro s; rfl
  | cons id rest ih =>
    intro s
    unfold addDragonPieces
    split
    · exact ih s
    next ps hps =>
      have hsq := is_dragon?_isSome hwf id p
      split
      next heq => rw [heq] at hsq; cases hsq
      next v heq => exact ih _

theorem add_reward_pieces_isSome {b : Board} (p : Player)
    (hwf : WFGrid b.grid) (hsb : SetsBound b) :
    (add_reward_pieces b p).isSome = true := by
  obtain ⟨s1, h1⟩ := Option.isSome_iff_exists.mp
    (addSquarePieces_isSome p hwf b.triggered_squares [] hsb.1)
  obtain ⟨s2, h2⟩ := Option.isSome_iff_exists.mp
    (addTriPieces_isSome p hwf b.triggered_tris s1)
  obtain ⟨s3, h3⟩ := Option.isSome_iff_exists.mp
    (addTetraPieces_isSome p hwf b.triggered_tetras s2)
  obtain ⟨s4, h4⟩ := Option.isSome_iff_exists.mp
    (addRowPieces_isSome p hwf b.triggered_rows s3 hsb.2.1)
  obtain ⟨s5, h5⟩ := Option.isSome_iff_exists.mp
    (addColPieces_isSome p hwf b.triggered_cols s4 hsb.2.2)
  unfold add_reward_pieces
  simp only [h1, h2, h3, h4, h5]
  exact addDragonPieces_isSome p hwf b.triggered_dragons s5

theorem update_reward_pieces_isSome {b : Board}
    (hwf : WFGrid b.grid) (hsb : SetsBound b) :
    (update_reward_pieces b).isSome = true := by
  obtain ⟨bp, hbp⟩ := Option.isSome_iff_exists.mp
    (add_reward_pieces_isSome Player.black hwf hsb)
  obtain ⟨wp, hwp⟩ := Option.isSome_iff_exists.mp
    (add_reward_pieces_isSome Player.white hwf hsb)
  unfold update_reward_pieces
  simp only [hbp, hwp, Option.isSome_some]

theorem scanPlayer_isSome {b : Board} (p : Player) (hwf : WFGrid b.grid) :
    (scanPlayer b p).isSome = true := by
  have h1s := scanSquaresAux_isSome p allAnchors b hwf (by decide)
  obtain ⟨b1, h1⟩ := Option.isSome_iff_exists.mp h1s
  have hwf1 : WFGrid b1.grid := by
    rw [(scanSquaresAux_spec p _ _ _ h1).1.1]; exact hwf
  have h2s := scanTrisAux_isSome p (List.range 4) b1 hwf1
  obtain ⟨b2, h2⟩ := Option.isSome_iff_exists.mp h2s
  have hwf2 : WFGrid b2.grid := by
    rw [(scanTrisAux_spec p _ _ _ h2).1.1]; exact hwf1
  have h3s := scanTetrasAux_isSome p (List.range 4) b2 hwf2
  obtain ⟨b3, h3⟩ := Option.isSome_iff_exists.mp h3s
  have hwf3 : WFGrid b3.grid := by
    rw [(scanTetrasAux_spec p _ _ _ h3).1.1]; exact hwf2
  have h4s := scanRowsAux_isSome p (List.range 5) b3 hwf3
    (by intro x hx; exact List.mem_range.mp hx)
  obtain ⟨b4, h4⟩ := Option.isSome_iff_exists.mp h4s
  have hwf4 : WFGrid b4.grid := by
    rw [(scanRowsAux_spec p _ _ _ h4).1.1]; exact hwf3
  have h5s := scanColsAux_isSome p (List.range 5) b4 hwf4
    (by intro x hx; exact List.mem_range.mp hx)
  obtain ⟨b5, h5⟩ := Option.isSome_iff_exists.mp h5s
  have hwf5 : WFGrid b5.grid := by
    rw [(scanColsAux_spec p _ _ _ h5).1.1]; exact hwf4
  unfold scanPlayer
  simp only [h1, h2, h3, h4, h5]
  exact scanDragonsAux_isSome p (List.range 2) b5 hwf5

theorem scanPlayer_bounds {b b' : Board} {p : Player}
    (h : scanPlayer b p = some b') (hsb : SetsBound b) : SetsBound b' := by
  unfold scanPlayer at h
  split at h
  · cases h
  next b1 h1 =>
  split at h
  · cases h
  next b2 h2 =>
  split at h
  · cases h
  next b3 h3 =>
  split at h
  · cases h
  next b4 h4 =>
  split at h
  · cases h
  next b5 h5 =>
  have s1 := scanSquaresAux_bounds p _ _ _ h1 hsb (by decide)
  have s2 := scanTrisAux_bounds p _ _ _ h2 s1
  have s3 := scanTetrasAux_bounds p _ _ _ h3 s2
  have s4 := scanRowsAux_bounds p _ _ _ h4 s3
    (by intro x hx; exact List.mem_range.mp hx)
  have s5 := scanColsAux_bounds p _ _ _ h5 s4
    (by intro x hx; exact List.mem_range.mp hx)
  exact scanDragonsAux_bounds p _ _ _ h s5

theorem scan_all_rewards_isSome {b : Board}
    (hwf : WFGrid b.grid) (hsb : SetsBound b) :
    (scan_all_rewards b).isSome = true := by
  obtain ⟨b1, h1⟩ := Option.isSome_iff_exists.mp (scanPlayer_isSome Player.black hwf)
  have hwf1 : WFGrid b1.grid := by rw [(scanPlayer_spec h1).1.1]; exact hwf
  have hsb1 := scanPlayer_bounds h1 hsb
  obtain ⟨b2, h2⟩ := Option.isSome_iff_exists.mp (scanPlayer_isSome Player.white hwf1)
  have hwf2 : WFGrid b2.grid := by rw [(scanPlayer_spec h2).1.1]; exact hwf1
  have hsb2 := scanPlayer_bounds h2 hsb1
  unfold scan_all_rewards
  simp only [h1, h2]
  exact update_reward_pieces_isSome hwf2 hsb2

theorem scan_all_rewards_bounds {b b' : Board}
    (h : scan_all_rewards b = some b') (hsb : SetsBound b) : SetsBound b' := by
  unfold scan_all_rewards at h
  split at h
  · cases h
  next b1 h1 =>
  split at h
  · cases h
  next b2 h2 =>
  have hsb2 := scanPlayer_bounds h2 (scanPlayer_bounds h1 hsb)
  exact SetsBound_of_SetsEq (update_reward_pieces_spec h).2.2.2.2.2.2.1 hsb2

theorem movSquaresAux_isSome (p : Player) :
    ∀ (l : List (Nat × Nat)) (b : Board) (cnt : Nat), WFGrid b.grid →
      (∀ rc ∈ l, rc.1 < 4 ∧ rc.2 < 4) →
      (movSquaresAux p l b cnt).isSome = true := by
  intro l
  induction l with
  | nil => intro b cnt _ _; rfl
  | cons hd rest ih =>
    intro b cnt hwf hl
    obtain ⟨r, c⟩ := hd
    have hrc := hl (r, c) (List.mem_cons_self _ _)
    have hl' : ∀ rc ∈ rest, rc.1 < 4 ∧ rc.2 < 4 :=
      fun rc hx => hl rc (List.mem_cons_of_mem _ hx)
    unfold movSquaresAux
    have hsq := is_square?_isSome hwf hrc.1 hrc.2 p
    split
    next heq => rw [heq] at hsq; cases hsq
    next v heq =>
      split
      · exact ih _ _ hwf hl'
      · exact ih b cnt hwf hl'

theorem movSquaresAux_bounds (p : Player) :
    ∀ (l : List (Nat × Nat)) (b : Board) (cnt : Nat) (out : Board × Nat),
      movSquaresAux p l b cnt = some out → SetsBound b →
      (∀ rc ∈ l, rc.1 < 4 ∧ rc.2 < 4) → SetsBound out.1 := by
  intro l
  induction l with
  | nil =>
    intro b cnt out h hsb _
    cases h
    exact hsb
  | cons hd rest ih =>
    intro b cnt out h hsb hl
    obtain ⟨r, c⟩ := hd
    have hrc := hl (r, c) (List.mem_cons_self _ _)
    have hl' : ∀ rc ∈ rest, rc.1 < 4 ∧ rc.2 < 4 :=
      fun rc hx => hl rc (List.mem_cons_of_mem _ hx)
    unfold movSquaresAux at h
    split at h
    · cases h
    next v heq =>
      split at h
      · refine ih _ _ out h ⟨?_, hsb.2.1, hsb.2.2⟩ hl'
        intro rc hm
        rcases mem_hsInsert_elim hm with hm | hm
        · exact hsb.1 rc hm
        · rw [hm]; exact hrc
      · exact ih b cnt out h hsb hl'

theorem movTrisAux_isSome (p : Player) :
    ∀ (l : List Nat) (b : Board) (cnt : Nat), WFGrid b.grid →
      (movTrisAux p l b cnt).isSome = true := by
  intro l
  induction l with
  | nil => intro b cnt _; rfl
  | cons id rest ih =>
    intro b cnt hwf
    unfold movTrisAux
    have hsq := is_tri?_isSome hwf id p
    split
    next heq => rw [heq] at hsq; cases hsq
    next v heq =>
      split
      · exact ih _ _ hwf
      · exact ih b cnt hwf

theorem movTrisAux_bounds (p : Player) :
    ∀ (l : List Nat) (b : Board) (cnt : Nat) (out : Board × Nat),
      movTrisAux p l b cnt = some out → SetsBound b → SetsBound out.1 := by
  intro l
  induction l with
  | nil =>
    intro b cnt out h hsb
    cases h
    exact hsb
  | cons id rest ih =>
    intro b cnt out h hsb
    unfold movTrisAux at h
    split at h
    · cases h
    · split at h
      · exact ih _ _ out h ⟨hsb.1, hsb.2.1, hsb.2.2⟩
      · exact ih b cnt out h hsb

theorem movTetrasAux_isSome (p : Player) :
    ∀ (l : List Nat) (b : Board) (cnt : Nat), WFGrid b.grid →
      (movTetrasAux p l b cnt).isSome = true := by
  intro l
  induction l with
  | nil => intro b cnt _; rfl
  | cons id rest ih =>
    intro b cnt hwf
    unfold movTetrasAux
    have hsq := is_tetra?_isSome hwf id p
    split
    next heq => rw [heq] at hsq; cases hsq
    next v heq =>
      split
      · exact ih _ _ hwf
      · exact ih b cnt hwf

theorem movTetrasAux_bounds (p : Player) :
    ∀ (l : List Nat) (b : Board) (cnt : Nat) (out : Board × Nat),
      movTetrasAux p l b cnt = some out → SetsBound b → SetsBound out.1 := by
  intro l
  induction l with
  | nil =>
    intro b cnt out h hsb
    cases h
    exact hsb
  | cons id rest ih =>
    intro b cnt out h hsb
    unfold movTetrasAux at h
    split at h
    · cases h
    · split at h
      · exact ih _ _ out h ⟨hsb.1, hsb.2.1, hsb.2.2⟩
      · exact ih b cnt out h hsb

theorem movRowsAux_isSome (p : Player) :
    ∀ (l : List Nat) (b : Board) (cnt : Nat), WFGrid b.grid →
      (∀ r ∈ l, r < 5) → (movRowsAux p l b cnt).isSome = true := by
  intro l
  induction l with
  | nil => intro b cnt _ _; rfl
  | cons r rest ih =>
    intro b cnt hwf hl
    have hr : r < 5 := hl r (List.mem_cons_self _ _)
    have hl' : ∀ x ∈ rest, x < 5 := fun x hx => hl x (List.mem_cons_of_mem _ hx)
    unfold movRowsAux
    have hsq := is_row?_isSome hwf hr p
    split
    next heq => rw [heq] at hsq; cases hsq
    next v heq =>
      split
      · exact ih _ _ hwf hl'
      · exact ih b cnt hwf hl'

theorem movRowsAux_bounds (p : Player) :
    ∀ (l : List Nat) (b : Board) (cnt : Nat) (out : Board × Nat),
      movRowsAux p l b cnt = some out → SetsBound b → (∀ r ∈ l, r < 5) →
      SetsBound out.1 := by
  intro l
  induction l with
  | nil =>
    intro b cnt out h hsb _
    cases h
    exact hsb
  | cons r rest ih =>
    intro b cnt out h hsb hl
    have hr : r < 5 := hl r (List.mem_cons_self _ _)
    have hl' : ∀ x ∈ rest, x < 5 := fun x hx => hl x (List.mem_cons_of_mem _ hx)
    unfold movRowsAux at h
    split at h
    · cases h
    · split at h
      · refine ih _ _ out h ⟨hsb.1, ?_, hsb.2.2⟩ hl'
        intro x hm
        rcases mem_hsInsert_elim hm with hm | hm
        · exact hsb.2.1 x hm
        · rw [hm]; exact hr
      · exact ih b cnt out h hsb hl'

theorem movColsAux_isSome (p : Player) :
    ∀ (l : List Nat) (b : Board) (cnt : Nat), WFGrid b.grid →
      (∀ c ∈ l, c < 5) → (movColsAux p l b cnt).isSome = true := by
  intro l
  induction l with
  | nil => intro b cnt _ _; rfl
  | cons c rest ih =>
    intro b cnt hwf hl
    have hc : c < 5 := hl c (List.mem_cons_self _ _)
    have hl' : ∀ x ∈ rest, x < 5 := fun x hx => hl x (List.mem_cons_of_mem _ hx)
    unfold movColsAux
    have hsq := is_col?_isSome hwf hc p
    split
    next heq => rw [heq] at hsq; cases hsq
    next v heq =>
      split
      · exact ih _ _ hwf hl'
      · exact ih b cnt hwf hl'

theorem movColsAux_bounds (p : Player) :
    ∀ (l : List Nat) (b : Board) (cnt : Nat) (out : Board × Nat),
      movColsAux p l b cnt = some out → SetsBound b → (∀ c ∈ l, c < 5) →
      SetsBound out.1 := by
  intro l
  induction l with
  | nil =>
    intro b cnt out h hsb _
    cases h
    exact hsb
  | cons c rest ih =>
    intro b cnt out h hsb hl
    have hc : c < 5 := hl c (List.mem_cons_self _ _)
    have hl' : ∀ x ∈ rest, x < 5 := fun x hx => hl x (List.mem_cons_of_mem _ hx)
    unfold movColsAux at h
    split at h
    · cases h
    · split at h
      · refine ih _ _ out h ⟨hsb.1, hsb.2.1, ?_⟩ hl'
        intro x hm
        rcases mem_hsInsert_elim hm with hm | hm
        · exact hsb.2.2 x hm
        · rw [hm]; exact hc
      · exact ih b cnt out h hsb hl'

theorem movDragonsAux_isSome (p : Player) :
    ∀ (l : List Nat) (b : Board) (cnt : Nat), WFGrid b.grid →
      (movDragonsAux p l b cnt).isSome = true := by
  intro l
  induction l with
  | nil => intro b cnt _; rfl
  | cons id rest ih =>
    intro b cnt hwf
    unfold movDragonsAux
    have hsq := is_dragon?_isSome hwf id p
    split
    next heq => rw [heq] at hsq; cases hsq
    next v heq =>
      split
      · exact ih _ _ hwf
      · exact ih b cnt hwf

theorem movDragonsAux_bounds (p : Player) :
    ∀ (l : List Nat) (b : Board) (cnt : Nat) (out : Board × Nat),
      movDragonsAux p l b cnt = some out → SetsBound b → SetsBound out.1 := by
  intro l
  induction l with
  | nil =>
    intro b cnt out h hsb
    cases h
    exact hsb
  | cons id rest ih =>
    intro b cnt out h hsb
    unfold movDragonsAux at h
    split at h
    · cases h
    · split at h
      · exact ih _ _ out h ⟨hsb.1, hsb.2.1, hsb.2.2⟩
      · exact ih b cnt out h hsb

theorem check_rewards_movement_isSome {b : Board} (row col : Nat)
    (hwf : WFGrid b.grid) :
    (check_rewards_movement b row col).isSome = true := by
  unfold check_rewards_movement
  have h1s := movSquaresAux_isSome b.current_player allAnchors
    { b with
      triggered_squares := [], triggered_tris := [], triggered_tetras := [],
      triggered_rows := [], triggered_cols := [], triggered_dragons := [] }
    0 hwf (by decide)
  obtain ⟨⟨b1, c1⟩, h1⟩ := Option.isSome_iff_exists.mp h1s
  have hwf1 : WFGrid b1.grid := by
    rw [show b1 = ((b1, c1) : Board × Nat).1 from rfl,
      (movSquaresAux_spec _ _ _ _ _ h1).1.1]
    exact hwf
  obtain ⟨⟨b2, c2⟩, h2⟩ := Option.isSome_iff_exists.mp
    (movTrisAux_isSome b.current_player (List.range 4) b1 c1 hwf1)
  have hwf2 : WFGrid b2.grid := by
    rw [show b2 = ((b2, c2) : Board × Nat).1 from rfl,
      (movTrisAux_spec _ _ _ _ _ h2).1.1]
    exact hwf1
  obtain ⟨⟨b3, c3⟩, h3⟩ := Option.isSome_iff_exists.mp
    (movTetrasAux_isSome b.current_player (List.range 4) b2 c2 hwf2)
  have hwf3 : WFGrid b3.grid := by
    rw [show b3 = ((b3, c3) : Board × Nat).1 from rfl,
      (movTetrasAux_spec _ _ _ _ _ h3).1.1]
    exact hwf2
  obtain ⟨⟨b4, c4⟩, h4⟩ := Option.isSome_iff_exists.mp
    (movRowsAux_isSome b.current_player (List.range 5) b3 c3 hwf3
      (by intro x hx; exact List.mem_range.mp hx))
  have hwf4 : WFGrid b4.grid := by
    rw [show b4 = ((b4, c4) : Board × Nat).1 from rfl,
      (movRowsAux_spec _ _ _ _ _ h4).1.1]
    exact hwf3
  obtain ⟨⟨b5, c5⟩, h5⟩ := Option.isSome_iff_exists.mp
    (movColsAux_isSome b.current_player (List.range 5) b4 c4 hwf4
      (by intro x hx; exact List.mem_range.mp hx))
  have hwf5 : WFGrid b5.grid := by
    rw [show b5 = ((b5, c5) : Board × Nat).1 from rfl,
      (movColsAux_spec _ _ _ _ _ h5).1.1]
    exact hwf4
  simp only [h1, h2, h3, h4, h5]
  exact movDragonsAux_isSome b.current_player (List.range 2) b5 c5 hwf5

theorem check_rewards_movement_bounds {b : Board} {row col : Nat}
    {out : Board × Nat} (h : check_rewards_movement b row col = some out) :
    SetsBound out.1 := by
  simp only [check_rewards_movement] at h
  split at h
  · cases h
  next b1 c1 h1 =>
  split at h
  · cases h
  next b2 c2 h2 =>
  split at h
  · cases h
  next b3 c3 h3 =>
  split at h
  · cases h
  next b4 c4 h4 =>
  split at h
  · cases h
  next b5 c5 h5 =>
  have s0 : SetsBound
      { b with
        triggered_squares := [], triggered_tris := [], triggered_tetras := [],
        triggered_rows := [], triggered_cols := [], triggered_dragons := [] } := by
    refine ⟨?_, ?_, ?_⟩ <;> intro x hx <;> cases hx
  have s1 := movSquaresAux_bounds _ _ _ _ _ h1 s0 (by decide)
  have s2 := movTrisAux_bounds _ _ _ _ _ h2 s1
  have s3 := movTetrasAux_bounds _ _ _ _ _ h3 s2
  have s4 := movRowsAux_bounds _ _ _ _ _ h4 s3
    (by intro x hx; exact List.mem_range.mp hx)
  have s5 := movColsAux_bounds _ _ _ _ _ h5 s4
    (by intro x hx; exact List.mem_range.mp hx)
  exact movDragonsAux_bounds _ _ _ _ _ h s5

theorem hmGet_double_insert_isSome (m : List (Player × Nat)) (lp : Player)
    (fc sc : Nat) :
    (hmGet (hmInsert (hmInsert m lp fc) lp.opponent sc) Player.black).isSome ∧
    (hmGet (hmInsert (hmInsert m lp fc) lp.opponent sc) Player.white).isSome := by
  cases lp with
  | black =>
    constructor
    · show (hmGet (hmInsert (hmInsert m Player.black fc) Player.white sc)
        Player.black).isSome = true
      rw [hmGet_hmInsert_other (by decide) _ sc, hmGet_hmInsert_self]
      rfl
    · show (hmGet (hmInsert (hmInsert m Player.black fc) Player.white sc)
        Player.white).isSome = true
      rw [hmGet_hmInsert_self]
      rfl
  | white =>
    constructor
    · show (hmGet (hmInsert (hmInsert m Player.white fc) Player.black sc)
        Player.black).isSome = true
      rw [hmGet_hmInsert_self]
      rfl
    · show (hmGet (hmInsert (hmInsert m Player.white fc) Player.black sc)
        Player.white).isSome = true
      rw [hmGet_hmInsert_other (by decide) _ sc, hmGet_hmInsert_self]
      rfl

theorem enter_capture_phase_isSome {b : Board} (hwf : WFGrid b.grid) :
    (enter_capture_phase b).isSome = true := by
  simp only [enter_capture_phase]
  have hsb0 : SetsBound
      { b with
        phase := GamePhase.capture,
        triggered_squares := [], triggered_tris := [], triggered_tetras := [],
        triggered_rows := [], triggered_cols := [], triggered_dragons := [] } := by
    refine ⟨?_, ?_, ?_⟩ <;> intro x hx <;> cases hx
  have hwf0 : WFGrid ({ b with
        phase := GamePhase.capture,
        triggered_squares := [], triggered_tris := [], triggered_tetras := [],
        triggered_rows := [], triggered_cols := [],
        triggered_dragons := [] } : Board).grid := hwf
  obtain ⟨b2, h2⟩ := Option.isSome_iff_exists.mp (scan_all_rewards_isSome hwf0 hsb0)
  have hwf2 : WFGrid b2.grid := by rw [(scan_all_rewards_spec h2).1]; exact hwf
  have hsb2 := scan_all_rewards_bounds h2 hsb0
  obtain ⟨fc, hfc⟩ := Option.isSome_iff_exists.mp
    (calculate_capture_count_isSome b2.current_player.opponent hwf2 hsb2)
  obtain ⟨sc, hsc⟩ := Option.isSome_iff_exists.mp
    (calculate_capture_count_isSome b2.current_player.opponent.opponent hwf2 hsb2)
  simp only [h2, hfc, hsc, Option.isSome_some]

theorem enter_capture_phase_inv {b b' : Board}
    (h : enter_capture_phase b = some b') (hwf : WFGrid b.grid) :
    EngineInv b' := by
  simp only [enter_capture_phase] at h
  split at h
  · cases h
  next b2 h2 =>
  split at h
  · cases h
  next fc hfc =>
  split at h
  · cases h
  next sc hsc =>
  simp only [Option.some.injEq] at h
  subst h
  have hsb0 : SetsBound
      { b with
        phase := GamePhase.capture,
        triggered_squares := [], triggered_tris := [], triggered_tetras := [],
        triggered_rows := [], triggered_cols := [], triggered_dragons := [] } := by
    refine ⟨?_, ?_, ?_⟩ <;> intro x hx <;> cases hx
  have hwf2 : WFGrid b2.grid := by rw [(scan_all_rewards_spec h2).1]; exact hwf
  have hsb2 := scan_all_rewards_bounds h2 hsb0
  refine ⟨hwf2, hsb2.1, hsb2.2.1, hsb2.2.2, Or.inr ?_⟩
  exact hmGet_double_insert_isSome b2.capture_remaining b2.current_player.opponent
    fc sc

theorem enter_movement_phase_isSome {b : Board} (hwf : WFGrid b.grid)
    (hsb : SetsBound b) : (enter_movement_phase b).isSome = true := by
  simp only [enter_movement_phase]
  split
  next kv hkv =>
    exact update_reward_pieces_isSome hwf ⟨hsb.1, hsb.2.1, hsb.2.2⟩
  next hkv =>
    exact update_reward_pieces_isSome hwf ⟨hsb.1, hsb.2.1, hsb.2.2⟩

theorem enter_movement_phase_inv {b b' : Board}
    (h : enter_movement_phase b = some b') (hwf : WFGrid b.grid)
    (hsb : SetsBound b) (hck : CapKeys b) : EngineInv b' := by
  have hs := enter_movement_phase_spec h
  have hwf' : WFGrid b'.grid := by rw [hs.2.1]; exact hwf
  have hsb' : SetsBound b' := SetsBound_of_SetsEq
    (by
      obtain ⟨e1, e2, e3, e4, e5, e6⟩ := hs.2.2.1
      exact ⟨e1, e2, e3, e4, e5, e6⟩)
    hsb
  refine ⟨hwf', hsb'.1, hsb'.2.1, hsb'.2.2, ?_⟩
  unfold CapKeys
  rw [hs.2.2.2.1]
  exact hck

theorem popCapture?_isSome (player : Player) :
    ∀ (n : Nat) (g : List (List Cell)) (recs : List GameAction)
      (lst : List (Nat × Nat)), WFGrid g →
      (∀ pos ∈ lst, pos.1 < 5 ∧ pos.2 < 5) →
      (popCapture? player g recs lst n).isSome = true := by
  intro n
  induction n with
  | zero => intro g recs lst _ _; rfl
  | succ k ih =>
    intro g recs lst hwf hl
    unfold popCapture?
    split
    · exact ih g recs lst hwf hl
    next pos hpos =>
      have hmem : pos ∈ lst := List.mem_of_getLast?_eq_some hpos
      have hb := hl pos hmem
      obtain ⟨g1, hg1⟩ := setCell?_exists hwf hb.1 hb.2 Cell.empty
      rw [hg1]
      exact ih g1 _ _ (setCell?_WF hg1 hwf)
        (fun q hq => hl q (List.dropLast_subset _ hq))

theorem popCapture?_WF (player : Player) :
    ∀ (n : Nat) (g : List (List Cell)) (recs : List GameAction)
      (lst : List (Nat × Nat)) (out : List (List Cell) × List GameAction),
      popCapture? player g recs lst n = some out → WFGrid g →
      WFGrid out.1 := by
  intro n
  induction n with
  | zero =>
    intro g recs lst out h hwf
    cases h
    exact hwf
  | succ k ih =>
    intro g recs lst out h hwf
    unfold popCapture? at h
    split at h
    · exact ih g recs lst out h hwf
    next pos hpos =>
      split at h
      · cases h
      next g1 hg1 => exact ih g1 _ _ out h (setCell?_WF hg1 hwf)

theorem CapKeys_of_eq {b b' : Board}
    (he : b'.capture_remaining = b.capture_remaining) (hck : CapKeys b) :
    CapKeys b' := by
  unfold CapKeys
  rw [he]
  exact hck

theorem place_piece_isSome {b : Board} (hinv : EngineInv b) (row col : Nat) :
    (place_piece b row col).isSome = true := by
  simp only [place_piece]
  split
  · rfl
  next hph =>
  split
  · rfl
  next hpos =>
  have hv : is_valid_pos row col = true := not_not.mp hpos
  obtain ⟨hr, hc⟩ := is_valid_pos_iff.mp hv
  obtain ⟨cl, hcl⟩ := cell?_exists hinv.1 hr hc
  split
  next heq => rw [heq] at hcl; cases hcl
  next cl' heq =>
  split
  · rfl
  next hne =>
  obtain ⟨g1, hg1⟩ := setCell?_exists hinv.1 hr hc (Cell.occupied b.current_player)
  split
  next heq2 => rw [heq2] at hg1; cases hg1
  next g1' heq2 =>
  have hwf1 : WFGrid g1' := setCell?_WF heq2 hinv.1
  have hcs : (check_rewards
      { b with
        grid := g1',
        game_record := b.game_record ++
          [GameAction.place b.current_player (row, col)] } row col).isSome =
      true := check_rewards_isSome row col hwf1
  obtain ⟨⟨b2, extra⟩, hb2⟩ := Option.isSome_iff_exists.mp hcs
  split
  next heq3 => rw [heq3] at hb2; cases hb2
  next b2' extra' heq3 =>
  have hwf2 : WFGrid b2'.grid := by
    rw [show b2'.grid = ((b2', extra') : Board × Nat).1.grid from rfl,
      (check_rewards_spec heq3).1.1]
    exact hwf1
  split
  next hem =>
    split
    next hfull =>
      have hec : (enter_capture_phase
          { b2' with extra_moves := min (b2'.extra_moves + extra') U32_MAX - 1
          }).isSome = true := enter_capture_phase_isSome hwf2
      obtain ⟨b4, hb4⟩ := Option.isSome_iff_exists.mp hec
      split
      next heq4 => rw [heq4] at hb4; cases hb4
      next b4' heq4 => rfl
    next hfull => rfl
  next hem =>
    split
    next hfull =>
      have hec : (enter_capture_phase
          { b2' with
            extra_moves := min (b2'.extra_moves + extra') U32_MAX,
            current_player := b2'.current_player.opponent }).isSome = true :=
        enter_capture_phase_isSome hwf2
      obtain ⟨b4, hb4⟩ := Option.isSome_iff_exists.mp hec
      split
      next heq4 => rw [heq4] at hb4; cases hb4
      next b4' heq4 => rfl
    next hfull => rfl

theorem place_piece_inv {b : Board} {row col : Nat} {out : RResult Nat × Board}
    (h : place_piece b row col = some out) (hinv : EngineInv b) :
    EngineInv out.2 := by
  simp only [place_piece] at h
  split at h
  · cases h; exact hinv
  next hph =>
  split at h
  · cases h; exact hinv
  next hpos =>
  split at h
  · cases h
  next cl heq =>
  split at h
  · cases h; exact hinv
  next hne =>
  split at h
  · cases h
  next g1 heq2 =>
  split at h
  · cases h
  next b2 extra heq3 =>
  have hwf1 : WFGrid g1 := setCell?_WF heq2 hinv.1
  have hco := check_rewards_spec heq3
  have hwf2 : WFGrid b2.grid := by
    rw [show b2.grid = ((b2, extra) : Board × Nat).1.grid from rfl, hco.1.1]
    exact hwf1
  have hsb2 : SetsBound b2 :=
    check_rewards_bounds heq3 ⟨hinv.2.1, hinv.2.2.1, hinv.2.2.2.1⟩
  have hcm2 : b2.capture_remaining = b.capture_remaining := by
    rw [show b2.capture_remaining =
      ((b2, extra) : Board × Nat).1.capture_remaining from rfl, hco.1.2.2.2.2.1]
  split at h
  next hem =>
    split at h
    next hfull =>
      split at h
      · cases h
      next b4 heq4 =>
        cases h
        exact enter_capture_phase_inv heq4 hwf2
    next hfull =>
      cases h
      refine ⟨hwf2, hsb2.1, hsb2.2.1, hsb2.2.2, ?_⟩
      exact CapKeys_of_eq hcm2 hinv.2.2.2.2
  next hem =>
    split at h
    next hfull =>
      split at h
      · cases h
      next b4 heq4 =>
        cases h
        exact enter_capture_phase_inv heq4 hwf2
    next hfull =>
      cases h
      refine ⟨hwf2, hsb2.1, hsb2.2.1, hsb2.2.2, ?_⟩
      exact CapKeys_of_eq hcm2 hinv.2.2.2.2

theorem hmGet_isSome_transfer {m m' : List (Player × Nat)}
    (hk : m'.map Prod.fst = m.map Prod.fst) (p : Player)
    (h : (hmGet m p).isSome = true) : (hmGet m' p).isSome = true := by
  rw [hmGet_isSome_iff] at h ⊢
  rw [hk]
  exact h

theorem CapKeys_both {b : Board} (hck : CapKeys b) {p : Player} {r : Nat}
    (hget : hmGet b.capture_remaining p = some r) (q : Player) :
    (hmGet b.capture_remaining q).isSome = true := by
  rcases hck with hnil | ⟨hb, hw⟩
  · rw [hnil] at hget
    simp [hmGet] at hget
  · cases q
    · exact hb
    · exact hw

theorem capture_piece_isSome {b : Board} (hinv : EngineInv b) (row col : Nat) :
    (capture_piece b row col).isSome = true := by
  simp only [capture_piece]
  split
  · rfl
  next hph =>
  split
  · rfl
  next remaining hrem =>
  split
  · rfl
  next hrz =>
  split
  · rfl
  next hpos =>
  have hv : is_valid_pos row col = true := not_not.mp hpos
  obtain ⟨hr, hc⟩ := is_valid_pos_iff.mp hv
  split
  · rfl
  next hprot =>
  obtain ⟨cl, hcl⟩ := cell?_exists hinv.1 hr hc
  split
  next heq => rw [heq] at hcl; cases hcl
  · rfl
  next p heq =>
  split
  · rfl
  next hopp =>
  obtain ⟨g1, hg1⟩ := setCell?_exists hinv.1 hr hc Cell.empty
  split
  next heq2 => rw [heq2] at hg1; cases hg1
  next g1' heq2 =>
  have hset1 := hmSet?_of_get hrem (remaining - 1)
  split
  next heqm => rw [heqm] at hset1; cases hset1
  next m1 heqm =>
  have hwf1 : WFGrid g1' := setCell?_WF heq2 hinv.1
  have hkeys1 := hmSet?_keys heqm
  have hu : (update_reward_pieces
      { b with
        grid := g1',
        capture_remaining := m1,
        game_record := b.game_record ++
          [GameAction.capture b.current_player (row, col)] }).isSome = true :=
    update_reward_pieces_isSome hwf1 ⟨hinv.2.1, hinv.2.2.1, hinv.2.2.2.1⟩
  obtain ⟨b3, hb3⟩ := Option.isSome_iff_exists.mp hu
  split
  next hequ => rw [hequ] at hb3; cases hb3
  next b3' hequ =>
  have hfr3 := update_reward_pieces_spec hequ
  have hwf3 : WFGrid b3'.grid := by rw [hfr3.1]; exact hwf1
  have hsb3 : SetsBound b3' := SetsBound_of_SetsEq hfr3.2.2.2.2.2.2.1
    ⟨hinv.2.1, hinv.2.2.1, hinv.2.2.2.1⟩
  have hcm3 : b3'.capture_remaining = m1 := hfr3.2.2.2.2.1
  split
  next hsum =>
    obtain ⟨b4, hb4⟩ := Option.isSome_iff_exists.mp
      (enter_movement_phase_isSome hwf3 hsb3)
    split
    next heqe => rw [heqe] at hb4; cases hb4
    next b4' heqe => rfl
  next hsum =>
  split
  next hemp =>
    have hopps : (hmGet b3'.capture_remaining b.current_player.opponent).isSome =
        true := by
      rw [hcm3]
      exact hmGet_isSome_transfer hkeys1 _
        (CapKeys_both hinv.2.2.2.2 hrem b.current_player.opponent)
    obtain ⟨r2, hr2⟩ := Option.isSome_iff_exists.mp hopps
    have hset2 := hmSet?_of_get hr2 0
    split
    next heqm2 => rw [heqm2] at hset2; cases hset2
    next m2 heqm2 =>
    have hwf4 : WFGrid ({ b3' with capture_remaining := m2 } : Board).grid := hwf3
    have hsb4 : SetsBound ({ b3' with capture_remaining := m2 } : Board) := hsb3
    split
    next hsum2 =>
      obtain ⟨b5, hb5⟩ := Option.isSome_iff_exists.mp
        (enter_movement_phase_isSome hwf4 hsb4)
      split
      next heqe => rw [heqe] at hb5; cases hb5
      next b5' heqe => rfl
    next hsum2 => rfl
  next hemp =>
  split
  next hturn =>
    have hwf4 : WFGrid ({ b3' with
        current_player := b.current_player.opponent } : Board).grid := hwf3
    have hlm := has_legal_moves?_isSome hwf4
      ({ b3' with current_player := b.current_player.opponent } : Board).capture_turn
    obtain ⟨hm, hhm⟩ := Option.isSome_iff_exists.mp hlm
    split
    next heql => rw [heql] at hhm; cases hhm
    next hm' heql =>
      split
      · rfl
      · rfl
  next hturn => rfl

theorem capture_piece_inv {b : Board} {row col : Nat} {out : RResult Unit × Board}
    (h : capture_piece b row col = some out) (hinv : EngineInv b) :
    EngineInv out.2 := by
  simp only [capture_piece] at h
  split at h
  · cases h; exact hinv
  next hph =>
  split at h
  · cases h; exact hinv
  next remaining hrem =>
  split at h
  · cases h; exact hinv
  next hrz =>
  split at h
  · cases h; exact hinv
  next hpos =>
  split at h
  · cases h; exact hinv
  next hprot =>
  split at h
  · cases h
  · cases h; exact hinv
  next p heq =>
  split at h
  · cases h; exact hinv
  next hopp =>
  split at h
  · cases h
  next g1 heq2 =>
  split at h
  · cases h
  next m1 heqm =>
  have hwf1 : WFGrid g1 := setCell?_WF heq2 hinv.1
  have hkeys1 := hmSet?_keys heqm
  split at h
  · cases h
  next b3 hequ =>
  have hfr3 := update_reward_pieces_spec hequ
  have hwf3 : WFGrid b3.grid := by rw [hfr3.1]; exact hwf1
  have hsb3 : SetsBound b3 := SetsBound_of_SetsEq hfr3.2.2.2.2.2.2.1
    ⟨hinv.2.1, hinv.2.2.1, hinv.2.2.2.1⟩
  have hcm3 : b3.capture_remaining = m1 := hfr3.2.2.2.2.1
  have hck3 : CapKeys b3 := by
    refine Or.inr ⟨?_, ?_⟩ <;> rw [hcm3]
    · exact hmGet_isSome_transfer hkeys1 _
        (CapKeys_both hinv.2.2.2.2 hrem Player.black)
    · exact hmGet_isSome_transfer hkeys1 _
        (CapKeys_both hinv.2.2.2.2 hrem Player.white)
  split at h
  next hsum =>
    split at h
    · cases h
    next b4 heqe =>
      cases h
      exact enter_movement_phase_inv heqe hwf3 hsb3 hck3
  next hsum =>
  split at h
  next hemp =>
    split at h
    · cases h
    next m2 heqm2 =>
    have hkeys2 := hmSet?_keys heqm2
    obtain ⟨r2, hr2⟩ := Option.isSome_iff_exists.mp (hmGet_isSome_of_hmSet heqm2)
    have hck4 : CapKeys ({ b3 with capture_remaining := m2 } : Board) := by
      refine Or.inr ⟨?_, ?_⟩
      · exact hmGet_isSome_transfer hkeys2 _ (CapKeys_both hck3 hr2 Player.black)
      · exact hmGet_isSome_transfer hkeys2 _ (CapKeys_both hck3 hr2 Player.white)
    have hwf4 : WFGrid ({ b3 with capture_remaining := m2 } : Board).grid := hwf3
    have hsb4 : SetsBound ({ b3 with capture_remaining := m2 } : Board) := hsb3
    split at h
    next hsum2 =>
      split at h
      · cases h
      next b5 heqe =>
        cases h
        exact enter_movement_phase_inv heqe hwf4 hsb4 hck4
    next hsum2 =>
      cases h
      exact ⟨hwf4, hsb4.1, hsb4.2.1, hsb4.2.2, hck4⟩
  next hemp =>
  split at h
  next hturn =>
    split at h
    · cases h
    next hm heql =>
      split at h
      · cases h
        exact ⟨hwf3, hsb3.1, hsb3.2.1, hsb3.2.2, hck3⟩
      · cases h
        exact ⟨hwf3, hsb3.1, hsb3.2.1, hsb3.2.2, hck3⟩
  next hturn =>
    cases h
    exact ⟨hwf3, hsb3.1, hsb3.2.1, hsb3.2.2, hck3⟩

theorem move_piece_isSome {b : Board} (hinv : EngineInv b) (src dst : Nat × Nat) :
    (move_piece b src dst).isSome = true := by
  simp only [move_piece]
  split
  · rfl
  next hph =>
  split
  · rfl
  next hpos =>
  obtain ⟨hv1, hv2⟩ := not_not.mp hpos
  obtain ⟨hr1, hc1⟩ := is_valid_pos_iff.mp hv1
  obtain ⟨hr2, hc2⟩ := is_valid_pos_iff.mp hv2
  obtain ⟨cl1, hcl1⟩ := cell?_exists hinv.1 hr1 hc1
  split
  next heq => rw [heq] at hcl1; cases hcl1
  · rfl
  next p heq =>
  split
  · rfl
  next hown =>
  obtain ⟨cl2, hcl2⟩ := cell?_exists hinv.1 hr2 hc2
  split
  next heq2 => rw [heq2] at hcl2; cases hcl2
  next cl2' heq2 =>
  split
  · rfl
  next hne2 =>
  split
  · rfl
  next hadj =>
  obtain ⟨g1, hg1⟩ := setCell?_exists hinv.1 hr1 hc1 Cell.empty
  split
  next heq3 => rw [heq3] at hg1; cases hg1
  next g1' heq3 =>
  have hwfg1 : WFGrid g1' := setCell?_WF heq3 hinv.1
  obtain ⟨g2, hg2⟩ := setCell?_exists hwfg1 hr2 hc2 (Cell.occupied b.current_player)
  split
  next heq4 => rw [heq4] at hg2; cases hg2
  next g2' heq4 =>
  have hwfg2 : WFGrid g2' := setCell?_WF heq4 hwfg1
  have hcr : (check_rewards_movement
      { b with
        grid := g2',
        game_record := b.game_record ++
          [GameAction.move b.current_player (src.1, src.2) (dst.1, dst.2)] }
      dst.1 dst.2).isSome = true := check_rewards_movement_isSome dst.1 dst.2 hwfg2
  obtain ⟨⟨b2, capture_count⟩, hb2⟩ := Option.isSome_iff_exists.mp hcr
  split
  next heq5 => rw [heq5] at hb2; cases hb2
  next b2' cc' heq5 =>
  have hwf2 : WFGrid b2'.grid := by
    rw [show b2'.grid = ((b2', cc') : Board × Nat).1.grid from rfl,
      (check_rewards_movement_spec heq5).1.1]
    exact hwfg2
  have hsb2 : SetsBound b2' := check_rewards_movement_bounds heq5
  by_cases hcc : cc' > 0
  · rw [if_pos hcc]
    have hpop := popCapture?_isSome b.current_player
      (min cc' (List.filter
        (fun pos => decide (pos ∉ rewardOf b2' b.current_player.opponent))
        (player_pieces b2'.grid b.current_player.opponent)).length)
      b2'.grid b2'.game_record
      (List.filter
        (fun pos => decide (pos ∉ rewardOf b2' b.current_player.opponent))
        (player_pieces b2'.grid b.current_player.opponent))
      hwf2
      (fun q hq => player_pieces_bounds hwf2 b.current_player.opponent q
        (List.mem_of_mem_filter hq))
    obtain ⟨⟨g3, rec3⟩, hg3⟩ := Option.isSome_iff_exists.mp hpop
    have hwfg3 : WFGrid g3 := popCapture?_WF b.current_player _ _ _ _ _ hg3 hwf2
    have hup : (update_reward_pieces
        { b2' with grid := g3, game_record := rec3 }).isSome = true :=
      update_reward_pieces_isSome hwfg3 hsb2
    obtain ⟨b4, hb4⟩ := Option.isSome_iff_exists.mp hup
    have hfr4 := update_reward_pieces_spec hb4
    have hwf4 : WFGrid b4.grid := by rw [hfr4.1]; exact hwfg3
    have hlm := has_legal_moves?_isSome hwf4 b.current_player.opponent
    obtain ⟨hm, hhm⟩ := Option.isSome_iff_exists.mp hlm
    split
    next heqp =>
      simp only [hg3, hb4] at heqp
      exact Option.noConfusion heqp
    next b5 a heqp =>
      simp only [hg3, hb4, Option.some.injEq, Prod.mk.injEq] at heqp
      obtain ⟨hb5, ha⟩ := heqp
      subst hb5
      simp only [hhm]
      split
      · rfl
      · rfl
  · rw [if_neg hcc]
    have hlm := has_legal_moves?_isSome hwf2 b.current_player.opponent
    obtain ⟨hm, hhm⟩ := Option.isSome_iff_exists.mp hlm
    simp only [hhm]
    split
    · rfl
    · rfl

theorem move_piece_inv {b : Board} {src dst : Nat × Nat}
    {out : RResult Nat × Board} (h : move_piece b src dst = some out)
    (hinv : EngineInv b) : EngineInv out.2 := by
  simp only [move_piece] at h
  split at h
  · cases h; exact hinv
  next hph =>
  split at h
  · cases h; exact hinv
  next hpos =>
  split at h
  · cases h
  · cases h; exact hinv
  next p heq =>
  split at h
  · cases h; exact hinv
  next hown =>
  split at h
  · cases h
  next cl2 heq2 =>
  split at h
  · cases h; exact hinv
  next hne2 =>
  split at h
  · cases h; exact hinv
  next hadj =>
  split at h
  · cases h
  next g1 heq3 =>
  split at h
  · cases h
  next g2 heq4 =>
  have hwfg1 : WFGrid g1 := setCell?_WF heq3 hinv.1
  have hwfg2 : WFGrid g2 := setCell?_WF heq4 hwfg1
  split at h
  · cases h
  next b2 cc heq5 =>
  have hmv := check_rewards_movement_spec heq5
  have hwf2 : WFGrid b2.grid := by
    rw [show b2.grid = ((b2, cc) : Board × Nat).1.grid from rfl, hmv.1.1]
    exact hwfg2
  have hsb2 : SetsBound b2 := check_rewards_movement_bounds heq5
  have hcm2 : b2.capture_remaining = b.capture_remaining := by
    rw [show b2.capture_remaining =
      ((b2, cc) : Board × Nat).1.capture_remaining from rfl, hmv.1.2.2.2.2.1]
  have hck2 : CapKeys b2 := CapKeys_of_eq hcm2 hinv.2.2.2.2
  by_cases hcc : cc > 0
  · rw [if_pos hcc] at h
    split at h
    · cases h
    next b5 a heqd =>
    split at heqd
    · cases heqd
    next g3 rec3 heqp =>
    split at heqd
    · cases heqd
    next b4 hequ =>
    simp only [Option.some.injEq, Prod.mk.injEq] at heqd
    obtain ⟨hb5, ha⟩ := heqd
    subst hb5
    have hwfg3 : WFGrid g3 := popCapture?_WF b.current_player _ _ _ _ _ heqp hwf2
    have hfr4 := update_reward_pieces_spec hequ
    have hwf4 : WFGrid b4.grid := by rw [hfr4.1]; exact hwfg3
    have hsb4 : SetsBound b4 := SetsBound_of_SetsEq hfr4.2.2.2.2.2.2.1 hsb2
    have hck4 : CapKeys b4 := by
      refine CapKeys_of_eq ?_ hck2
      rw [hfr4.2.2.2.2.1]
    split at h
    · cases h
    next hm heql =>
    cases hm with
    | true =>
      rw [if_neg (by decide)] at h
      cases h
      exact ⟨hwf4, hsb4.1, hsb4.2.1, hsb4.2.2, hck4⟩
    | false =>
      rw [if_pos (by decide)] at h
      cases h
      exact ⟨hwf4, hsb4.1, hsb4.2.1, hsb4.2.2, hck4⟩
  · rw [if_neg hcc] at h
    split at h
    · cases h
    next b5 a heqd =>
    simp only [Option.some.injEq, Prod.mk.injEq] at heqd
    obtain ⟨hb5, ha⟩ := heqd
    subst hb5
    split at h
    · cases h
    next hm heql =>
    cases hm with
    | true =>
      rw [if_neg (by decide)] at h
      cases h
      exact ⟨hwf2, hsb2.1, hsb2.2.1, hsb2.2.2, hck2⟩
    | false =>
      rw [if_pos (by decide)] at h
      cases h
      exact ⟨hwf2, hsb2.1, hsb2.2.1, hsb2.2.2, hck2⟩

theorem board_new_eq : Board.new? = some initBoard := by rfl

theorem EngineInv_initBoard : EngineInv initBoard := by
  refine ⟨⟨rfl, ?_⟩, ?_, ?_, ?_, Or.inl rfl⟩
  · intro row hrow
    rw [List.eq_of_mem_replicate hrow]
    rfl
  · intro x hx; cases hx
  · intro x hx; cases hx
  · intro x hx; cases hx

theorem EngineInv_reachable {b : Board} (h : Reachable b) : EngineInv b := by
  induction h with
  | init => exact EngineInv_initBoard
  | step hr hx ih =>
    next b0 b1 cmd =>
    cases cmd with
    | place r c =>
      simp only [execCmd?] at hx
      obtain ⟨out, hout, hres⟩ := Option.map_eq_some'.mp hx
      rw [← hres]
      exact place_piece_inv hout ih
    | capture r c =>
      simp only [execCmd?] at hx
      obtain ⟨out, hout, hres⟩ := Option.map_eq_some'.mp hx
      rw [← hres]
      exact capture_piece_inv hout ih
    | move src dst =>
      simp only [execCmd?] at hx
      obtain ⟨out, hout, hres⟩ := Option.map_eq_some'.mp hx
      rw [← hres]
      exact move_piece_inv hout ih

/-- C10: on every board reachable through the command surface, the three
commands `place_piece`, `capture_piece` and `move_piece` are total for
arbitrary coordinate inputs (including out-of-range ones): they always return
`some` — an `Ok` or `Err` result — and never hit a panicking access (modelled
as `none`), because coordinate validation precedes every grid access and the
pending-capture map always holds an entry for both players once the Capture
phase begins. -/
theorem c10_commands_total_on_reachable {b : Board} (hb : Reachable b) :
    (∀ row col, (place_piece b row col).isSome = true) ∧
    (∀ row col, (capture_piece b row col).isSome = true) ∧
    (∀ src dst, (move_piece b src dst).isSome = true) := by
  have hinv := EngineInv_reachable hb
  exact ⟨fun row col => place_piece_isSome hinv row col,
    fun row col => capture_piece_isSome hinv row col,
    fun src dst => move_piece_isSome hinv src dst⟩

/-- Witness for C10 at the fresh board with deliberately out-of-range
coordinates. -/
theorem c10_witness :
    Reachable initBoard ∧
    (place_piece initBoard 7 9).isSome = true ∧
    (capture_piece initBoard 7 9).isSome = true ∧
    (move_piece initBoard (7, 9) (3, 11)).isSome = true :=
  ⟨Reachable.init,
    (c10_commands_total_on_reachable Reachable.init).1 7 9,
    (c10_commands_total_on_reachable Reachable.init).2.1 7 9,
    (c10_commands_total_on_reachable Reachable.init).2.2 (7, 9) (3, 11)⟩

theorem capture_piece_record {b : Board} {row col : Nat} {res : RResult Unit}
    {b' : Board} (h : capture_piece b row col = some (res, b')) :
    b' = b ∨ b'.game_record = b.game_record ++
      [GameAction.capture b.current_player (row, col)] := by
  simp only [capture_piece] at h
  split at h
  · exact Or.inl (snd_of_some_eq h)
  next hph =>
  split at h
  · exact Or.inl (snd_of_some_eq h)
  next remaining hrem =>
  split at h
  · exact Or.inl (snd_of_some_eq h)
  next hrz =>
  split at h
  · exact Or.inl (snd_of_some_eq h)
  next hpos =>
  split at h
  · exact Or.inl (snd_of_some_eq h)
  next hprot =>
  split at h
  · cases h
  · exact Or.inl (snd_of_some_eq h)
  next p heq =>
  split at h
  · exact Or.inl (snd_of_some_eq h)
  next hopp =>
  split at h
  · cases h
  next g1 heq2 =>
  split at h
  · cases h
  next m1 heqm =>
  split at h
  · cases h
  next b3 hequ =>
  have hrec3 : b3.game_record = b.game_record ++
      [GameAction.capture b.current_player (row, col)] :=
    (update_reward_pieces_spec hequ).2.2.2.2.2.2.2
  split at h
  next hsum =>
    split at h
    · cases h
    next b4 heqe =>
      have hb4 := snd_of_some_eq h
      subst hb4
      refine Or.inr ?_
      rw [(enter_movement_phase_spec heqe).2.2.2.2.1]
      exact hrec3
  next hsum =>
  split at h
  next hemp =>
    split at h
    · cases h
    next m2 heqm2 =>
    split at h
    next hsum2 =>
      split at h
      · cases h
      next b5 heqe =>
        have hb5 := snd_of_some_eq h
        subst hb5
        refine Or.inr ?_
        rw [(enter_movement_phase_spec heqe).2.2.2.2.1]
        exact hrec3
    next hsum2 =>
      have hb5 := snd_of_some_eq h
      subst hb5
      exact Or.inr hrec3
  next hemp =>
  split at h
  next hturn =>
    split at h
    · cases h
    next hm heql =>
      split at h
      · have hb5 := snd_of_some_eq h
        subst hb5
        exact Or.inr hrec3
      · have hb5 := snd_of_some_eq h
        subst hb5
        exact Or.inr hrec3
  next hturn =>
    have hb5 := snd_of_some_eq h
    subst hb5
    exact Or.inr hrec3

theorem move_piece_record {b : Board} {src dst : Nat × Nat} {res : RResult Nat}
    {b' : Board} (h : move_piece b src dst = some (res, b')) :
    b' = b ∨
      (b.phase = GamePhase.movement ∧ b'.phase = GamePhase.movement ∧
       ∃ tail, b'.game_record = b.game_record ++
         GameAction.move b.current_player (src.1, src.2) (dst.1, dst.2) :: tail ∧
         ∀ a ∈ tail, IsRewardA a ∨ IsCaptureA a) := by
  have hfr := move_piece_frame h
  simp only [move_piece] at h
  split at h
  · exact Or.inl (snd_of_some_eq h)
  next hph =>
  have hphase : b.phase = GamePhase.movement := not_not.mp hph
  split at h
  · exact Or.inl (snd_of_some_eq h)
  next hpos =>
  split at h
  · cases h
  · exact Or.inl (snd_of_some_eq h)
  next p heq =>
  split at h
  · exact Or.inl (snd_of_some_eq h)
  next hown =>
  split at h
  · cases h
  next cl2 heq2 =>
  split at h
  · exact Or.inl (snd_of_some_eq h)
  next hne2 =>
  split at h
  · exact Or.inl (snd_of_some_eq h)
  next hadj =>
  split at h
  · cases h
  next g1 heq3 =>
  split at h
  · cases h
  next g2 heq4 =>
  split at h
  · cases h
  next b2 cc heq5 =>
  have hmv := check_rewards_movement_spec heq5
  obtain ⟨d1, hd1, hd1r⟩ := hmv.2
  have hrec2 : b2.game_record = (b.game_record ++
      [GameAction.move b.current_player (src.1, src.2) (dst.1, dst.2)]) ++ d1 := by
    rw [show b2.game_record =
      ((b2, cc) : Board × Nat).1.game_record from rfl, hd1]
  by_cases hcc : cc > 0
  · rw [if_pos hcc] at h
    split at h
    · cases h
    next b5 a heqd =>
    split at heqd
    · cases heqd
    next g3 rec3 heqp =>
    split at heqd
    · cases heqd
    next b4 hequ =>
    simp only [Option.some.injEq, Prod.mk.injEq] at heqd
    obtain ⟨hb5, ha⟩ := heqd
    subst hb5
    obtain ⟨d2, hd2, hd2c⟩ := popCapture?_spec b.current_player _ _ _ _ _ heqp
    have hrec4 : b4.game_record = b2.game_record ++ d2 := by
      rw [(update_reward_pieces_spec hequ).2.2.2.2.2.2.2]
      exact hd2
    split at h
    · cases h
    next hm heql =>
    have hrecfin : b4.game_record = b.game_record ++
        GameAction.move b.current_player (src.1, src.2) (dst.1, dst.2) ::
          (d1 ++ d2) := by
      rw [hrec4, hrec2]
      simp [List.append_assoc]
    have htl : ∀ a ∈ d1 ++ d2, IsRewardA a ∨ IsCaptureA a := by
      intro a hma
      rcases List.mem_append.mp hma with hma | hma
      · exact Or.inl (hd1r a hma)
      · exact Or.inr (hd2c a hma)
    cases hm with
    | true =>
      rw [if_neg (by decide)] at h
      have hb' := snd_of_some_eq h
      subst hb'
      refine Or.inr ⟨hphase, ?_, d1 ++ d2, hrecfin, htl⟩
      rw [hfr.1]
      exact hphase
    | false =>
      rw [if_pos (by decide)] at h
      have hb' := snd_of_some_eq h
      subst hb'
      refine Or.inr ⟨hphase, ?_, d1 ++ d2, hrecfin, htl⟩
      rw [hfr.1]
      exact hphase
  · rw [if_neg hcc] at h
    split at h
    · cases h
    next b5 a heqd =>
    simp only [Option.some.injEq, Prod.mk.injEq] at heqd
    obtain ⟨hb5, ha⟩ := heqd
    subst hb5
    split at h
    · cases h
    next hm heql =>
    have hrecfin : b2.game_record = b.game_record ++
        GameAction.move b.current_player (src.1, src.2) (dst.1, dst.2) :: d1 := by
      rw [hrec2]
      simp [List.append_assoc]
    have htl : ∀ a ∈ d1, IsRewardA a ∨ IsCaptureA a :=
      fun a hma => Or.inl (hd1r a hma)
    cases hm with
    | true =>
      rw [if_neg (by decide)] at h
      have hb' := snd_of_some_eq h
      subst hb'
      refine Or.inr ⟨hphase, ?_, d1, hrecfin, htl⟩
      rw [hfr.1]
      exact hphase
    | false =>
      rw [if_pos (by decide)] at h
      have hb' := snd_of_some_eq h
      subst hb'
      refine Or.inr ⟨hphase, ?_, d1, hrecfin, htl⟩
      rw [hfr.1]
      exact hphase

theorem capture_piece_wrong_phase {b : Board} (hph : b.phase ≠ GamePhase.capture)
    (row col : Nat) :
    capture_piece b row col = some (RResult.err GameErr.wrongPhaseCapture, b) := by
  unfold capture_piece
  rw [if_pos hph]

theorem replayStep_reward (b : Board) (p : Player) (pat : RewardPattern) :
    replayStep b (GameAction.reward p pat) = b := rfl

theorem replayStep_capture_off_phase {b : Board}
    (hph : b.phase ≠ GamePhase.capture) (p : Player) (pos : Nat × Nat) :
    replayStep b (GameAction.capture p pos) = b := by
  simp only [replayStep, capture_piece_wrong_phase hph]

theorem replayList_noop {l : List GameAction} :
    ∀ (b : Board), (∀ a ∈ l, IsRewardA a ∨ IsCaptureA a) →
      b.phase ≠ GamePhase.capture → replayList b l = b := by
  induction l with
  | nil => intro b _ _; rfl
  | cons a rest ih =>
    intro b hl hph
    have ha := hl a (List.mem_cons_self _ _)
    have hl' : ∀ x ∈ rest, IsRewardA x ∨ IsCaptureA x :=
      fun x hx => hl x (List.mem_cons_of_mem _ hx)
    show replayList (replayStep b a) rest = b
    rcases ha with ha | ha
    · match a, ha with
      | GameAction.reward p pat, _ =>
        rw [replayStep_reward]
        exact ih b hl' hph
    · match a, ha with
      | GameAction.capture p pos, _ =>
        rw [replayStep_capture_off_phase hph]
        exact ih b hl' hph

theorem replayList_rewards {l : List GameAction} :
    ∀ (b : Board), (∀ a ∈ l, IsRewardA a) → replayList b l = b := by
  induction l with
  | nil => intro b _; rfl
  | cons a rest ih =>
    intro b hl
    have ha := hl a (List.mem_cons_self _ _)
    have hl' : ∀ x ∈ rest, IsRewardA x := fun x hx => hl x (List.mem_cons_of_mem _ hx)
    show replayList (replayStep b a) rest = b
    match a, ha with
    | GameAction.reward p pat, _ =>
      rw [replayStep_reward]
      exact ih b hl'

theorem replayList_append (b : Board) (l1 l2 : List GameAction) :
    replayList b (l1 ++ l2) = replayList (replayList b l1) l2 := by
  simp only [replayList, List.foldl_append]

theorem replayList_cons (b : Board) (a : GameAction) (l : List GameAction) :
    replayList b (a :: l) = replayList (replayStep b a) l := rfl

theorem replayAll_append (l1 l2 : List GameAction) :
    replayAll (l1 ++ l2) = replayList (replayAll l1) l2 :=
  replayList_append initBoard l1 l2

theorem replayStep_place_eq {b : Board} {r c : Nat} {out : RResult Nat × Board}
    (h : place_piece b r c = some out) (p : Player) :
    replayStep b (GameAction.place p (r, c)) = out.2 := by
  simp only [replayStep]
  rw [show place_piece b (r, c).1 (r, c).2 = some out from h]

theorem replayStep_capture_eq {b : Board} {r c : Nat}
    {out : RResult Unit × Board} (h : capture_piece b r c = some out)
    (p : Player) : replayStep b (GameAction.capture p (r, c)) = out.2 := by
  simp only [replayStep]
  rw [show capture_piece b (r, c).1 (r, c).2 = some out from h]

theorem replayStep_move_eq {b : Board} {src dst : Nat × Nat}
    {out : RResult Nat × Board} (h : move_piece b src dst = some out)
    (p : Player) :
    replayStep b (GameAction.move p (src.1, src.2) (dst.1, dst.2)) = out.2 := by
  simp only [replayStep]
  rw [show move_piece b (src.1, src.2) (dst.1, dst.2) = some out from h]

theorem replay_exact {b : Board} (h : Reachable b) :
    replayAll b.game_record = b := by
  induction h with
  | init => rfl
  | step hr hx ih =>
    next b0 b1 cmd =>
    cases cmd with
    | place r c =>
      simp only [execCmd?] at hx
      obtain ⟨out, hout, hres⟩ := Option.map_eq_some'.mp hx
      obtain ⟨res, bp⟩ := out
      have hbp : bp = b1 := hres
      subst hbp
      have hps := place_piece_spec hout
      rcases hps.2.2.2.2 with ⟨hb, hrec⟩ | ⟨rest, hrec, hrew⟩
      · rw [hb]
        exact ih
      · rw [hrec, show b0.game_record ++
          GameAction.place b0.current_player (r, c) :: rest =
          b0.game_record ++ ([GameAction.place b0.current_player (r, c)] ++ rest)
          from rfl, ← List.append_assoc, replayAll_append, replayAll_append, ih,
          replayList_cons]
        rw [replayStep_place_eq hout b0.current_player]
        exact replayList_rewards bp hrew
    | capture r c =>
      simp only [execCmd?] at hx
      obtain ⟨out, hout, hres⟩ := Option.map_eq_some'.mp hx
      obtain ⟨res, bp⟩ := out
      have hbp : bp = b1 := hres
      subst hbp
      rcases capture_piece_record hout with hb | hrec
      · rw [hb]
        exact ih
      · rw [hrec, replayAll_append, ih, replayList_cons]
        rw [replayStep_capture_eq hout b0.current_player]
        rfl
    | move src dst =>
      simp only [execCmd?] at hx
      obtain ⟨out, hout, hres⟩ := Option.map_eq_some'.mp hx
      obtain ⟨res, bp⟩ := out
      have hbp : bp = b1 := hres
      subst hbp
      rcases move_piece_record hout with hb | ⟨hph0, hph1, tail, hrec, htl⟩
      · rw [hb]
        exact ih
      · rw [hrec, show b0.game_record ++
          GameAction.move b0.current_player (src.1, src.2) (dst.1, dst.2) ::
            tail =
          b0.game_record ++
            ([GameAction.move b0.current_player (src.1, src.2) (dst.1, dst.2)] ++
              tail) from rfl, ← List.append_assoc, replayAll_append,
          replayAll_append, ih, replayList_cons]
        rw [replayStep_move_eq hout b0.current_player]
        refine replayList_noop bp htl ?_
        rw [hph1]
        decide


/-! ### Nondeterministic `iter().last()` modelling

`std::collections::HashMap` iteration order is arbitrary and differs per map
instance (per-instance `RandomState`), so the original game and a replayer
(which each own a distinct `capture_remaining` map) may resolve
`capture_remaining.iter().last()` in `Board::enter_movement_phase`
differently.  The functions below thread that choice explicitly as an oracle
`pick`; a run of the program corresponds to one oracle (the instance's fixed
iteration order), and `ValidPick` delimits what the `HashMap` contract
allows: `last()` returns `none` exactly on the empty map and otherwise some
entry of the map. -/

/-- The oracle resolving `capture_remaining.iter().last()` returns an entry
of the map, and `none` only on the empty map. -/
def ValidPick (pick : List (Player × Nat) → Option (Player × Nat)) : Prop :=
  ∀ m, match pick m with
       | none => m = []
       | some kv => kv ∈ m

/-- Insertion-order `last()` — the resolution used by the plain
(deterministic) model. -/
def hmIterLast (m : List (Player × Nat)) : Option (Player × Nat) :=
  m.getLast?

/-- Insertion-order `first()`-style resolution — another behaviour a
`HashMap` instance may exhibit. -/
def hmIterHead (m : List (Player × Nat)) : Option (Player × Nat) :=
  m.head?

theorem validPick_hmIterLast : ValidPick hmIterLast := by
  intro m
  cases m with
  | nil => exact rfl
  | cons a l =>
    simp only [hmIterLast]
    cases hl : (a :: l).getLast? with
    | none => simp at hl
    | some kv => exact List.mem_of_getLast?_eq_some hl

theorem validPick_hmIterHead : ValidPick hmIterHead := by
  intro m
  cases m with
  | nil => exact rfl
  | cons a l => exact List.mem_cons_self a l

/-- `Board::enter_movement_phase`, faithful to the arbitrary `HashMap`
iteration order: the mover entering Movement is whichever entry the map
instance's `iter().last()` yields. -/
def enter_movement_phaseND
    (pick : List (Player × Nat) → Option (Player × Nat)) (b : Board) :
    Option Board :=
  let b1 : Board := { b with phase := GamePhase.movement }
  let b2 : Board :=
    match pick b1.capture_remaining with
    | some kv => { b1 with current_player := kv.1 }
    | none => b1
  update_reward_pieces b2

theorem enter_movement_phase_eq_ND (b : Board) :
    enter_movement_phaseND hmIterLast b = enter_movement_phase b := rfl

/-- `Board::capture_piece` over the nondeterministic movement-entry model
(identical to `capture_piece` except that the two `enter_movement_phase`
calls take the iteration-order oracle). -/
def capture_pieceND
    (pick : List (Player × Nat) → Option (Player × Nat)) (b : Board)
    (row col : Nat) : Option (RResult Unit × Board) :=
  if b.phase ≠ GamePhase.capture then some (.err .wrongPhaseCapture, b)
  else
    let player := b.current_player
    match hmGet b.capture_remaining player with
    | none => some (.err .noPendingCapture, b)
    | some remaining =>
      if remaining = 0 then some (.err .noPendingCapture, b)
      else if ¬ is_valid_pos row col then some (.err .invalidPos, b)
      else
        let opponent := player.opponent
        let protectedSet := rewardOf b opponent
        if (row, col) ∈ protectedSet then some (.err .protectedPiece, b)
        else
          match cell? b.grid row col with
          | none => none
          | some Cell.empty => some (.err .emptyCell, b)
          | some (Cell.occupied p) =>
            if p ≠ opponent then some (.err .notOpponentPiece, b)
            else
              match setCell? b.grid row col Cell.empty with
              | none => none
              | some g1 =>
                let b1 : Board :=
                  { b with
                    grid := g1,
                    game_record := b.game_record ++
                      [GameAction.capture player (row, col)] }
                match hmSet? b1.capture_remaining player (remaining - 1) with
                | none => none
                | some m1 =>
                  let b2 : Board := { b1 with capture_remaining := m1 }
                  match update_reward_pieces b2 with
                  | none => none
                  | some b3 =>
                    if hmSum b3.capture_remaining = 0 then
                      match enter_movement_phaseND pick b3 with
                      | none => none
                      | some b4 => some (.ok (), b4)
                    else
                      let next_player := player.opponent
                      if (player_pieces b3.grid opponent).isEmpty then
                        match hmSet? b3.capture_remaining next_player 0 with
                        | none => none
                        | some m2 =>
                          let b4 : Board := { b3 with capture_remaining := m2 }
                          if hmSum b4.capture_remaining = 0 then
                            match enter_movement_phaseND pick b4 with
                            | none => none
                            | some b5 => some (.ok (), b5)
                          else
                            some (.ok (),
                              { b4 with current_player := next_player.opponent })
                      else
                        let b4 : Board := { b3 with current_player := next_player }
                        if player = b4.capture_turn.opponent then
                          match has_legal_moves? b4 b4.capture_turn with
                          | none => none
                          | some hm =>
                            if ¬ hm then some (.err .captureImmobilized, b4)
                            else some (.ok (), b4)
                        else some (.ok (), b4)

theorem capture_piece_eq_ND (b : Board) (row col : Nat) :
    capture_pieceND hmIterLast b row col = capture_piece b row col := rfl

/-- Execute one command under the oracle, keeping the post-state. -/
def execCmdND? (pick : List (Player × Nat) → Option (Player × Nat))
    (b : Board) : Cmd → Option Board
  | Cmd.place r c => (place_piece b r c).map (fun x => x.2)
  | Cmd.capture r c => (capture_pieceND pick b r c).map (fun x => x.2)
  | Cmd.move src dst => (move_piece b src dst).map (fun x => x.2)

/-- Board states reachable from a fresh board through the command surface in
one run of the program, i.e. with one fixed resolution of the map-iteration
order. -/
inductive ReachableND (pick : List (Player × Nat) → Option (Player × Nat)) :
    Board → Prop where
  | init : ReachableND pick initBoard
  | step {b b' : Board} {cmd : Cmd} :
      ReachableND pick b → execCmdND? pick b cmd = some b' →
      ReachableND pick b'

/-- One step of `GameReplayer::step_forward` under the replayer's own map
instance (its own oracle): re-invoke the recorded command keeping the
post-state (mirroring `.ok()`); `Reward` entries are skipped. -/
def replayStepND (pick : List (Player × Nat) → Option (Player × Nat))
    (b : Board) (a : GameAction) : Board :=
  match a with
  | GameAction.place _ pos =>
    match place_piece b pos.1 pos.2 with
    | some (_, b') => b'
    | none => b
  | GameAction.capture _ pos =>
    match capture_pieceND pick b pos.1 pos.2 with
    | some (_, b') => b'
    | none => b
  | GameAction.move _ src dst =>
    match move_piece b src dst with
    | some (_, b') => b'
    | none => b
  | GameAction.reward _ _ => b

/-- Replay a list of recorded actions from a given board under the oracle. -/
def replayListND (pick : List (Player × Nat) → Option (Player × Nat))
    (b : Board) (as : List GameAction) : Board :=
  as.foldl (replayStepND pick) b

/-- Replay a full recorded game from a fresh board under the oracle. -/
def replayAllND (pick : List (Player × Nat) → Option (Player × Nat))
    (as : List GameAction) : Board :=
  replayListND pick initBoard as

/-- Run a command list from a board, failing if any command panics. -/
def execList? (pick : List (Player × Nat) → Option (Player × Nat))
    (b : Board) : List Cmd → Option Board
  | [] => some b
  | c :: rest =>
    match execCmdND? pick b c with
    | none => none
    | some b' => execList? pick b' rest

theorem execList?_reachable
    {pick : List (Player × Nat) → Option (Player × Nat)} :
    ∀ {cmds : List Cmd} {b b' : Board}, execList? pick b cmds = some b' →
      ReachableND pick b → ReachableND pick b' := by
  intro cmds
  induction cmds with
  | nil =>
    intro b b' h hb
    cases h
    exact hb
  | cons c rest ih =>
    intro b b' h hb
    unfold execList? at h
    split at h
    · cases h
    next b1 h1 => exact ih h (ReachableND.step hb h1)

theorem enter_movement_phaseND_record
    {pick : List (Player × Nat) → Option (Player × Nat)} {b b' : Board}
    (h : enter_movement_phaseND pick b = some b') :
    b'.game_record = b.game_record := by
  simp only [enter_movement_phaseND] at h
  split at h <;>
  · next => exact (update_reward_pieces_spec h).2.2.2.2.2.2.2

theorem capture_pieceND_record
    {pick : List (Player × Nat) → Option (Player × Nat)} {b : Board}
    {row col : Nat} {res : RResult Unit} {b' : Board}
    (h : capture_pieceND pick b row col = some (res, b')) :
    b' = b ∨ b'.game_record = b.game_record ++
      [GameAction.capture b.current_player (row, col)] := by
  simp only [capture_pieceND] at h
  split at h
  · exact Or.inl (snd_of_some_eq h)
  next hph =>
  split at h
  · exact Or.inl (snd_of_some_eq h)
  next remaining hrem =>
  split at h
  · exact Or.inl (snd_of_some_eq h)
  next hrz =>
  split at h
  · exact Or.inl (snd_of_some_eq h)
  next hpos =>
  split at h
  · exact Or.inl (snd_of_some_eq h)
  next hprot =>
  split at h
  · cases h
  · exact Or.inl (snd_of_some_eq h)
  next p heq =>
  split at h
  · exact Or.inl (snd_of_some_eq h)
  next hopp =>
  split at h
  · cases h
  next g1 heq2 =>
  split at h
  · cases h
  next m1 heqm =>
  split at h
  · cases h
  next b3 hequ =>
  have hrec3 : b3.game_record = b.game_record ++
      [GameAction.capture b.current_player (row, col)] :=
    (update_reward_pieces_spec hequ).2.2.2.2.2.2.2
  split at h
  next hsum =>
    split at h
    · cases h
    next b4 heqe =>
      have hb4 := snd_of_some_eq h
      subst hb4
      refine Or.inr ?_
      rw [enter_movement_phaseND_record heqe]
      exact hrec3
  next hsum =>
  split at h
  next hemp =>
    split at h
    · cases h
    next m2 heqm2 =>
    split at h
    next hsum2 =>
      split at h
      · cases h
      next b5 heqe =>
        have hb5 := snd_of_some_eq h
        subst hb5
        refine Or.inr ?_
        rw [enter_movement_phaseND_record heqe]
        exact hrec3
    next hsum2 =>
      have hb5 := snd_of_some_eq h
      subst hb5
      exact Or.inr hrec3
  next hemp =>
  split at h
  next hturn =>
    split at h
    · cases h
    next hm heql =>
      split at h
      · have hb5 := snd_of_some_eq h
        subst hb5
        exact Or.inr hrec3
      · have hb5 := snd_of_some_eq h
        subst hb5
        exact Or.inr hrec3
  next hturn =>
    have hb5 := snd_of_some_eq h
    subst hb5
    exact Or.inr hrec3

theorem capture_pieceND_wrong_phase
    {pick : List (Player × Nat) → Option (Player × Nat)} {b : Board}
    (hph : b.phase ≠ GamePhase.capture) (row col : Nat) :
    capture_pieceND pick b row col =
      some (RResult.err GameErr.wrongPhaseCapture, b) := by
  unfold capture_pieceND
  rw [if_pos hph]

theorem replayStepND_reward
    (pick : List (Player × Nat) → Option (Player × Nat)) (b : Board)
    (p : Player) (pat : RewardPattern) :
    replayStepND pick b (GameAction.reward p pat) = b := rfl

theorem replayStepND_capture_off_phase
    {pick : List (Player × Nat) → Option (Player × Nat)} {b : Board}
    (hph : b.phase ≠ GamePhase.capture) (p : Player) (pos : Nat × Nat) :
    replayStepND pick b (GameAction.capture p pos) = b := by
  simp only [replayStepND, capture_pieceND_wrong_phase hph]

theorem replayListND_noop
    {pick : List (Player × Nat) → Option (Player × Nat)}
    {l : List GameAction} :
    ∀ (b : Board), (∀ a ∈ l, IsRewardA a ∨ IsCaptureA a) →
      b.phase ≠ GamePhase.capture → replayListND pick b l = b := by
  induction l with
  | nil => intro b _ _; rfl
  | cons a rest ih =>
    intro b hl hph
    have ha := hl a (List.mem_cons_self _ _)
    have hl' : ∀ x ∈ rest, IsRewardA x ∨ IsCaptureA x :=
      fun x hx => hl x (List.mem_cons_of_mem _ hx)
    show replayListND pick (replayStepND pick b a) rest = b
    rcases ha with ha | ha
    · match a, ha with
      | GameAction.reward p pat, _ =>
        rw [replayStepND_reward]
        exact ih b hl' hph
    · match a, ha with
      | GameAction.capture p pos, _ =>
        rw [replayStepND_capture_off_phase hph]
        exact ih b hl' hph

theorem replayListND_rewards
    {pick : List (Player × Nat) → Option (Player × Nat)}
    {l : List GameAction} :
    ∀ (b : Board), (∀ a ∈ l, IsRewardA a) → replayListND pick b l = b := by
  induction l with
  | nil => intro b _; rfl
  | cons a rest ih =>
    intro b hl
    have ha := hl a (List.mem_cons_self _ _)
    have hl' : ∀ x ∈ rest, IsRewardA x := fun x hx => hl x (List.mem_cons_of_mem _ hx)
    show replayListND pick (replayStepND pick b a) rest = b
    match a, ha with
    | GameAction.reward p pat, _ =>
      rw [replayStepND_reward]
      exact ih b hl'

theorem replayListND_append
    (pick : List (Player × Nat) → Option (Player × Nat)) (b : Board)
    (l1 l2 : List GameAction) :
    replayListND pick b (l1 ++ l2) =
      replayListND pick (replayListND pick b l1) l2 := by
  simp only [replayListND, List.foldl_append]

theorem replayListND_cons
    (pick : List (Player × Nat) → Option (Player × Nat)) (b : Board)
    (a : GameAction) (l : List GameAction) :
    replayListND pick b (a :: l) = replayListND pick (replayStepND pick b a) l :=
  rfl

theorem replayAllND_append
    (pick : List (Player × Nat) → Option (Player × Nat))
    (l1 l2 : List GameAction) :
    replayAllND pick (l1 ++ l2) = replayListND pick (replayAllND pick l1) l2 :=
  replayListND_append pick initBoard l1 l2

theorem replayStepND_place_eq
    {pick : List (Player × Nat) → Option (Player × Nat)} {b : Board}
    {r c : Nat} {out : RResult Nat × Board}
    (h : place_piece b r c = some out) (p : Player) :
    replayStepND pick b (GameAction.place p (r, c)) = out.2 := by
  simp only [replayStepND]
  rw [show place_piece b (r, c).1 (r, c).2 = some out from h]

theorem replayStepND_capture_eq
    {pick : List (Player × Nat) → Option (Player × Nat)} {b : Board}
    {r c : Nat} {out : RResult Unit × Board}
    (h : capture_pieceND pick b r c = some out) (p : Player) :
    replayStepND pick b (GameAction.capture p (r, c)) = out.2 := by
  simp only [replayStepND]
  rw [show capture_pieceND pick b (r, c).1 (r, c).2 = some out from h]

theorem replayStepND_move_eq
    {pick : List (Player × Nat) → Option (Player × Nat)} {b : Board}
    {src dst : Nat × Nat} {out : RResult Nat × Board}
    (h : move_piece b src dst = some out) (p : Player) :
    replayStepND pick b (GameAction.move p (src.1, src.2) (dst.1, dst.2)) =
      out.2 := by
  simp only [replayStepND]
  rw [show move_piece b (src.1, src.2) (dst.1, dst.2) = some out from h]

/-- Within one run — one fixed resolution `pick` of the map-iteration
order — replaying the recorded actions from a fresh board under the same
resolution rebuilds the final board exactly. -/
theorem replay_exactND
    {pick : List (Player × Nat) → Option (Player × Nat)} {b : Board}
    (h : ReachableND pick b) : replayAllND pick b.game_record = b := by
  induction h with
  | init => rfl
  | step hr hx ih =>
    next b0 b1 cmd =>
    cases cmd with
    | place r c =>
      simp only [execCmdND?] at hx
      obtain ⟨out, hout, hres⟩ := Option.map_eq_some'.mp hx
      obtain ⟨res, bp⟩ := out
      have hbp : bp = b1 := hres
      subst hbp
      have hps := place_piece_spec hout
      rcases hps.2.2.2.2 with ⟨hb, hrec⟩ | ⟨rest, hrec, hrew⟩
      · rw [hb]
        exact ih
      · rw [hrec, show b0.game_record ++
          GameAction.place b0.current_player (r, c) :: rest =
          b0.game_record ++ ([GameAction.place b0.current_player (r, c)] ++ rest)
          from rfl, ← List.append_assoc, replayAllND_append, replayAllND_append,
          ih, replayListND_cons]
        rw [replayStepND_place_eq hout b0.current_player]
        exact replayListND_rewards bp hrew
    | capture r c =>
      simp only [execCmdND?] at hx
      obtain ⟨out, hout, hres⟩ := Option.map_eq_some'.mp hx
      obtain ⟨res, bp⟩ := out
      have hbp : bp = b1 := hres
      subst hbp
      rcases capture_pieceND_record hout with hb | hrec
      · rw [hb]
        exact ih
      · rw [hrec, replayAllND_append, ih, replayListND_cons]
        rw [replayStepND_capture_eq hout b0.current_player]
        rfl
    | move src dst =>
      simp only [execCmdND?] at hx
      obtain ⟨out, hout, hres⟩ := Option.map_eq_some'.mp hx
      obtain ⟨res, bp⟩ := out
      have hbp : bp = b1 := hres
      subst hbp
      rcases move_piece_record hout with hb | ⟨hph0, hph1, tail, hrec, htl⟩
      · rw [hb]
        exact ih
      · rw [hrec, show b0.game_record ++
          GameAction.move b0.current_player (src.1, src.2) (dst.1, dst.2) ::
            tail =
          b0.game_record ++
            ([GameAction.move b0.current_player (src.1, src.2) (dst.1, dst.2)] ++
              tail) from rfl, ← List.append_assoc, replayAllND_append,
          replayAllND_append, ih, replayListND_cons]
        rw [replayStepND_move_eq hout b0.current_player]
        refine replayListND_noop bp htl ?_
        rw [hph1]
        decide

/-- A complete game under the insertion-order-`last` resolution: 25
placements filling the board (White completes the single square at (0,0) on
the way, hence 13 white stones), one capture by White of the black stone at
(0,2) which zeroes both quotas and enters Movement — where
`iter().last()` decides the mover — and one Movement move by Black,
(0,3) → (0,2). -/
def C8cmds : List Cmd :=
  [Cmd.place 0 2, Cmd.place 0 0, Cmd.place 0 3, Cmd.place 0 1,
   Cmd.place 1 3, Cmd.place 1 0, Cmd.place 2 0, Cmd.place 1 1,
   Cmd.place 0 4, Cmd.place 2 1, Cmd.place 1 2, Cmd.place 2 2,
   Cmd.place 1 4, Cmd.place 3 3, Cmd.place 2 3, Cmd.place 3 4,
   Cmd.place 2 4, Cmd.place 4 0, Cmd.place 3 0, Cmd.place 4 1,
   Cmd.place 3 1, Cmd.place 4 2, Cmd.place 3 2, Cmd.place 4 4,
   Cmd.place 4 3, Cmd.capture 0 2, Cmd.move (0, 3) (0, 2)]

/-- The final board of that game when the original run resolves
`iter().last()` as insertion-order `last` (Black is picked as the
Movement-phase mover, so the recorded Black move succeeds). -/
def C8orig : Board :=
  (execList? hmIterLast initBoard C8cmds).getD initBoard

theorem c8run_eq : execList? hmIterLast initBoard C8cmds = some C8orig := rfl

/-- C8 (amended): the round-trip holds within one resolution of the map
order — for every board reached through the command surface in a run that
resolves `capture_remaining.iter().last()` by the oracle `pick`, replaying
the recorded `game_record` from a fresh board under the same resolution
reproduces the original grid and phase (in fact the whole board, see
`replay_exactND`).  The code does not guarantee more: the original game and
the replayer own distinct `HashMap` instances with arbitrary per-instance
iteration order, and under differing admissible resolutions the two runs can
pick different Movement-phase movers and diverge (see `c8_counterexample`). -/
theorem c8_replay_roundtrip_same_resolution
    {pick : List (Player × Nat) → Option (Player × Nat)} {b : Board}
    (hb : ReachableND pick b) :
    (replayAllND pick b.game_record).grid = b.grid ∧
    (replayAllND pick b.game_record).phase = b.phase := by
  rw [replay_exactND hb]
  exact ⟨rfl, rfl⟩

/-- Witness for C8 on the complete concrete game `C8cmds`, replayed under
the same resolution as the original run. -/
theorem c8_witness :
    ReachableND hmIterLast C8orig ∧
    (replayAllND hmIterLast C8orig.game_record).grid = C8orig.grid ∧
    (replayAllND hmIterLast C8orig.game_record).phase = C8orig.phase :=
  ⟨execList?_reachable c8run_eq ReachableND.init,
   (c8_replay_roundtrip_same_resolution
      (execList?_reachable c8run_eq ReachableND.init)).1,
   (c8_replay_roundtrip_same_resolution
      (execList?_reachable c8run_eq ReachableND.init)).2⟩

set_option maxRecDepth 100000 in
/-- Counterexample to the unconditional round-trip: both resolutions are
admissible `HashMap` behaviours, the game `C8cmds` is played out under
insertion-order `last` (the mover entering Movement is Black, whose recorded
move (0,3) → (0,2) succeeds), but a replayer whose map instance yields the
other order picks White as the mover, rejects the recorded Black move
(`notOwnPiece`, swallowed by `.ok()`), and ends with a different grid. -/
theorem c8_counterexample :
    ValidPick hmIterLast ∧ ValidPick hmIterHead ∧
    ReachableND hmIterLast C8orig ∧
    (replayAllND hmIterHead C8orig.game_record).grid ≠ C8orig.grid :=
  ⟨validPick_hmIterLast, validPick_hmIterHead,
   execList?_reachable c8run_eq ReachableND.init,
   by decide⟩
